import Mathlib

/-!
# uzzy: project picker and tmux session launcher

A shallow embedding of the Go sources under `uzzy/` and the properties proved
about them.

Conventions of the embedding

* A Go `string` is a Lean `String`, read as its sequence of runes.  The rune
  processing functions of the standard library (`strings.ToLower`, `regexp`)
  decode a byte that is not valid UTF-8 as the rune U+FFFD, one rune per byte;
  such a byte is represented here by that rune.  `filepath.Base` cuts at the
  ASCII byte `/`, which never occurs inside a multi-byte sequence, so cutting
  the rune sequence at `/` is the same operation.
* A Go `error` is `Option GoError`, `none` being `nil`.
* Calls that reach outside the process (stat, running a command, `LookPath`,
  `syscall.Exec`) are answered by a record `Sys` and written to a trace of
  `Event`s, so a method returns its Go result together with the events it
  caused.
* Library code that is not part of the repository (the Unicode case tables,
  `filepath.Join`, the bubbles widgets, lipgloss rendering) is taken as a
  parameter: `Sys` and `ui.Widgets`.
-/

namespace Uzzy

/-! ## Errors -/

/-- Go `error` values that the program builds or passes on. -/
inductive GoError where
  /-- An error carrying a message: `errors.New`, `fmt.Errorf` without `%w`, or an
  error of the operating system. -/
  | text (msg : String)
  /-- The value of `fmt.Errorf(msg ++ "%w", cause)`. -/
  | wrapped (msg : String) (cause : GoError)
  deriving DecidableEq, Repr

/-- The method `Error()` of an error value. -/
def GoError.Error : GoError → String
  | .text msg => msg
  | .wrapped msg cause => msg ++ cause.Error

/-! ## Package `path/filepath` (Unix) -/

namespace filepath

/-- Unix `os.IsPathSeparator`. -/
def isPathSeparator (c : Char) : Bool := c == '/'

/-- The loop `for len(path) > 0 && os.IsPathSeparator(path[len(path)-1])` of
`filepath.Base`, which cuts the trailing separators. -/
def stripTrailingSeparators (path : List Char) : List Char :=
  (path.reverse.dropWhile isPathSeparator).reverse

/-- The part of `path` after its last separator, all of `path` when it has none:
the loop `for i >= 0 && !os.IsPathSeparator(path[i])` of `filepath.Base` followed by
`path = path[i+1:]`. -/
def lastElement (path : List Char) : List Char :=
  (path.reverse.takeWhile (fun c => !isPathSeparator c)).reverse

/-- Rune-level `filepath.Base`: `"."` for the empty path, `"/"` for a path of
separators only, the last element otherwise. -/
def baseRunes (path : List Char) : List Char :=
  if path = [] then ['.']
  else
    let last := lastElement (stripTrailingSeparators path)
    if last = [] then ['/'] else last

/-- The last element of a path once its trailing separators are cut: the value
that `filepath.Base` returns when it is not empty. -/
def lastOfStripped (path : List Char) : List Char :=
  lastElement (stripTrailingSeparators path)

/-- Go `filepath.Base`. -/
def Base (path : String) : String := String.mk (baseRunes path.data)

end filepath

/-! ## Package `strings` -/

namespace strings

/-- Go `unicode.IsSpace`: the six ASCII space characters, U+0085 and U+00A0 in
Latin-1, and the characters with the property White_Space beyond. -/
def isSpace (r : Char) : Bool :=
  let n := r.toNat
  n = 0x09 || n = 0x0A || n = 0x0B || n = 0x0C || n = 0x0D || n = 0x20 ||
    n = 0x85 || n = 0xA0 || n = 0x1680 || (0x2000 ≤ n && n ≤ 0x200A) ||
    n = 0x2028 || n = 0x2029 || n = 0x202F || n = 0x205F || n = 0x3000

/-- Go `strings.TrimSpace` on rune sequences: leading and trailing white space
removed. -/
def trimSpaceRunes (s : List Char) : List Char :=
  ((s.dropWhile isSpace).reverse.dropWhile isSpace).reverse

/-- Go `strings.TrimSpace`. -/
def TrimSpace (s : String) : String := String.mk (trimSpaceRunes s.data)

/-- Go `strings.Split(s, "\n")` on rune sequences: the pieces between line feeds;
there is always at least one piece. -/
def splitLinesRunes : List Char → List (List Char)
  | [] => [[]]
  | c :: rest =>
    if c = '\n' then [] :: splitLinesRunes rest
    else
      match splitLinesRunes rest with
      | [] => [[c]]
      | line :: more => (c :: line) :: more

/-- Go `strings.Split(s, "\n")`. -/
def SplitLines (s : String) : List String :=
  (splitLinesRunes s.data).map String.mk

end strings

/-! ## Package `tmux`: `slugify.go` -/

namespace tmux

/-- Go `unicode.ToLower` on one rune: the ASCII branch is the code of the standard
library, the case table for the other runes is the parameter `unicodeLower`.
`strings.ToLower` applies it to every rune of its argument. -/
def toLowerRune (unicodeLower : Char → Char) (r : Char) : Char :=
  if r.toNat < 128 then
    if 'A'.toNat ≤ r.toNat ∧ r.toNat ≤ 'Z'.toNat then Char.ofNat (r.toNat + 32) else r
  else unicodeLower r

/-- Membership in the character class `[a-z0-9-]`; the pattern of step 4 is its
complement `[^a-z0-9-]`. -/
def isSlugRune (r : Char) : Bool :=
  ('a'.toNat ≤ r.toNat && r.toNat ≤ 'z'.toNat) ||
    ('0'.toNat ≤ r.toNat && r.toNat ≤ '9'.toNat) || r == '-'

/-- Go `strings.ReplaceAll(slug, ".", "-")`. -/
def replaceDots (slug : List Char) : List Char :=
  slug.map (fun r => if r = '.' then '-' else r)

/-- Go `regexp.MustCompile("[^a-z0-9-]").ReplaceAllString(slug, "-")`: every match
is one rune outside the class, and it is replaced by a hyphen. -/
def replaceNonSlug (slug : List Char) : List Char :=
  slug.map (fun r => if isSlugRune r then r else '-')

/-- Go `regexp.MustCompile("-+").ReplaceAllString(slug, "-")`, as the scan the
matcher performs: a hyphen met outside a match opens a match and writes the
replacement, a hyphen met inside a match extends it (the `+` is greedy), any
other rune closes the match and is copied.  The flag says whether the scan is
inside a match. -/
def replaceHyphenRuns : Bool → List Char → List Char
  | _, [] => []
  | inMatch, c :: rest =>
    if c = '-' then
      if inMatch then replaceHyphenRuns true rest else '-' :: replaceHyphenRuns true rest
    else c :: replaceHyphenRuns false rest

/-- Go `strings.trimRightByte`: `for len(s) > 0 && s[len(s)-1] == c { s = s[:len(s)-1] }`. -/
def trimRightByte (s : List Char) (c : Char) : List Char :=
  (s.reverse.dropWhile (fun r => r == c)).reverse

/-- Go `strings.trimLeftByte`: `for len(s) > 0 && s[0] == c { s = s[1:] }`. -/
def trimLeftByte (s : List Char) (c : Char) : List Char :=
  s.dropWhile (fun r => r == c)

/-- Go `strings.Trim(s, cutset)` for a cutset of one ASCII byte, which is
`trimLeftByte(trimRightByte(s, cutset[0]), cutset[0])`. -/
def trimByte (s : List Char) (c : Char) : List Char :=
  trimLeftByte (trimRightByte s c) c

/-- The body of `Slugify` on rune sequences, statement by statement. -/
def slugifyRunes (unicodeLower : Char → Char) (projectPath : List Char) : List Char :=
  let dirName := filepath.baseRunes projectPath
  let slug := dirName.map (toLowerRune unicodeLower)
  let slug := replaceDots slug
  let slug := replaceNonSlug slug
  let slug := replaceHyphenRuns false slug
  let slug := trimByte slug '-'
  if slug = [] then "session".data else slug

/-- Go `tmux.Slugify`. -/
def Slugify (unicodeLower : Char → Char) (projectPath : String) : String :=
  String.mk (slugifyRunes unicodeLower projectPath.data)

/-- Go `tmux.GetProjectName`. -/
def GetProjectName (projectPath : String) : String :=
  filepath.Base projectPath

end tmux

/-! ## The host: operating system and standard library -/

/-- What `os.Stat` reports about a file, as far as the program reads it. -/
structure FileInfo where
  /-- The result of `info.IsDir()`. -/
  isDir : Bool
  /-- The result of `info.Mode()`, as a number. -/
  mode : Nat
  deriving DecidableEq, Repr

/-- An `exec.Cmd` as the program sets it up before `Run`. -/
structure Command where
  /-- The first argument of `exec.Command`: the program to run. -/
  name : String
  /-- The remaining arguments of `exec.Command`: the positional arguments. -/
  args : List String
  /-- The field `Dir`; the empty string is the directory of the caller. -/
  dir : String
  /-- Whether `Stdout` and `Stderr` were set to those of the caller. -/
  inheritOutput : Bool
  deriving DecidableEq, Repr

/-- An `os.DirEntry` as `os.ReadDir` returns it. -/
structure DirEntry where
  /-- The result of `entry.Name()`. -/
  name : String
  /-- The result of `entry.IsDir()`. -/
  isDir : Bool
  /-- The result of `entry.Info()`: `none` when it returns an error. -/
  info : Option FileInfo
  deriving DecidableEq, Repr

/-- The answers of the world outside the process, and the functions of the
standard library that are kept abstract. -/
structure Sys where
  /-- Go `os.Stat`: `none` when it fails. -/
  stat : String → Option FileInfo
  /-- Go `(*exec.Cmd).Run`: `none` is a `nil` error (exit status 0). -/
  run : Command → Option GoError
  /-- Go `exec.LookPath`. -/
  lookPath : String → Except GoError String
  /-- Go `os.Getenv`. -/
  getenv : String → String
  /-- Go `os.Environ`. -/
  environ : List String
  /-- Go `syscall.Exec`: `none` when the process image was replaced, in which case
  the call does not return; otherwise the error it returns. -/
  execve : String → List String → List String → Option GoError
  /-- Go `filepath.Join` of two elements. -/
  joinPath : String → String → String
  /-- The case table of `unicode.ToLower` for the runes outside ASCII. -/
  unicodeLower : Char → Char
  /-- Go `(*exec.Cmd).Output`: the standard output of the command, or the error. -/
  output : Command → Except GoError String
  /-- Go `os.ReadDir`. -/
  readDir : String → Except GoError (List DirEntry)
  /-- Go `os.IsNotExist`. -/
  isNotExist : GoError → Bool
  /-- Go `filepath.Dir`. -/
  dirOf : String → String

/-- The methods of the two gateways, with the arguments of a call. -/
inductive Call where
  | GetLayout (name : String)
  | SessionExists (sessionName : String)
  | CreateSession (layoutPath projectPath sessionName projectName : String)
  | AttachToSession (sessionName : String)
  deriving DecidableEq, Repr

/-- One entry of the trace of a run. -/
inductive Event where
  /-- A gateway method was entered. -/
  | enter (c : Call)
  /-- Go `os.Stat(path)` was called. -/
  | stat (path : String)
  /-- A command was run to completion. -/
  | run (cmd : Command)
  /-- Go `exec.LookPath(file)` was called. -/
  | lookPath (file : String)
  /-- Go `syscall.Exec(argv0, argv, envv)` was called. -/
  | execve (argv0 : String) (argv envv : List String)
  /-- Go `os.ReadDir(path)` was called. -/
  | readDir (path : String)
  deriving DecidableEq, Repr

/-- How a call that may hand the process over ends. -/
inductive Outcome where
  /-- The call returned this `error` value. -/
  | returned (err : Option GoError)
  /-- Go `syscall.Exec` succeeded: the process is now tmux and nothing returns. -/
  | replaced
  deriving DecidableEq, Repr

/-- The gateway calls of a trace, in order. -/
def callsOf : List Event → List Call
  | [] => []
  | .enter c :: rest => c :: callsOf rest
  | _ :: rest => callsOf rest

/-- Whether a call is a `CreateSession`. -/
def Call.isCreate : Call → Bool
  | .CreateSession _ _ _ _ => true
  | _ => false

/-- Whether a call is an `AttachToSession`. -/
def Call.isAttach : Call → Bool
  | .AttachToSession _ => true
  | _ => false

/-- Whether a call is a `SessionExists`. -/
def Call.isExists : Call → Bool
  | .SessionExists _ => true
  | _ => false

/-! ## Package `config` -/

namespace config

/-- Go `config.TmuxConfig`. -/
structure TmuxConfig where
  AttachCommand : String
  deriving DecidableEq, Repr

/-- Go `config.Config`. -/
structure Config where
  ScanPaths : List String
  ExcludePatterns : List String
  DefaultLayout : String
  LayoutsDir : String
  Tmux : TmuxConfig
  deriving DecidableEq, Repr

end config

/-! ## Package `layout` -/

namespace layout

/-- Go `layout.Layout`. -/
structure Layout where
  Name : String
  Path : String
  deriving DecidableEq, Repr

/-- Go `layout.Manager`. -/
structure Manager where
  layoutsDir : String
  deriving DecidableEq, Repr

/-- Go `layout.NewManager`. -/
def NewManager (layoutsDir : String) : Manager := { layoutsDir := layoutsDir }

/-- Go `(*layout.Manager).GetLayout`. -/
def Manager.GetLayout (sys : Sys) (m : Manager) (name : String) :
    Except GoError Layout × List Event :=
  let path := sys.joinPath m.layoutsDir name
  let trace := [Event.enter (.GetLayout name), Event.stat path]
  match sys.stat path with
  | none => (.error (.text ("layout '" ++ name ++ "' not found")), trace)
  | some info =>
    if info.isDir then
      (.error (.text ("'" ++ name ++ "' is a directory, not a layout script")), trace)
    else if info.mode &&& 0o111 = 0 then
      (.error (.text ("layout '" ++ name ++ "' is not executable")), trace)
    else
      (.ok { Name := name, Path := path }, trace)

/-- One turn of the loop of `ListLayouts`: a directory is skipped, an entry whose
`Info()` fails is skipped, and an entry with an executable bit is appended. -/
def listStep (sys : Sys) (m : Manager) (layouts : List Layout) (entry : DirEntry) :
    List Layout :=
  if entry.isDir then layouts
  else
    match entry.info with
    | none => layouts
    | some info =>
      if info.mode &&& 0o111 ≠ 0 then
        layouts ++ [{ Name := entry.name, Path := sys.joinPath m.layoutsDir entry.name }]
      else layouts

/-- The composite literal that the loop of `ListLayouts` appends for an entry. -/
def layoutOfEntry (sys : Sys) (m : Manager) (entry : DirEntry) : Layout :=
  { Name := entry.name, Path := sys.joinPath m.layoutsDir entry.name }

/-- Go `(*layout.Manager).ListLayouts`. -/
def Manager.ListLayouts (sys : Sys) (m : Manager) :
    Except GoError (List Layout) × List Event :=
  let trace := [Event.readDir m.layoutsDir]
  match sys.readDir m.layoutsDir with
  | .error err =>
    if sys.isNotExist err then (.ok [], trace) else (.error err, trace)
  | .ok entries => (.ok (entries.foldl (listStep sys m) []), trace)

end layout

/-! ## Package `finder` -/

namespace finder

/-- Go `finder.Finder`. -/
structure Finder where
  scanPaths : List String
  excludePatterns : List String
  deriving DecidableEq, Repr

/-- Go `finder.New`. -/
def New (scanPaths excludePatterns : List String) : Finder :=
  { scanPaths := scanPaths, excludePatterns := excludePatterns }

/-- The loop over the lines of the output of one search: an empty line is
skipped, the parent of any other line is appended to `allProjects`. -/
def appendProjectDirs (sys : Sys) (allProjects : List String) (lines : List String) :
    List String :=
  lines.foldl (fun all line => if line = "" then all else all ++ [sys.dirOf line]) allProjects

/-- The arguments of `fd` for one scan path, as `findWithFd` builds them. -/
def fdArgs (f : Finder) (scanPath : String) : List String :=
  let args := ["--type", "d", "--hidden", "--absolute-path", "--max-depth", "6", "^.git$"]
  let args := f.excludePatterns.foldl (fun args pattern => args ++ ["--exclude", pattern]) args
  args ++ [scanPath]

/-- The command `exec.Command("fd", args...)` for one scan path. -/
def fdCommand (f : Finder) (scanPath : String) : Command :=
  { name := "fd", args := fdArgs f scanPath, dir := "", inheritOutput := false }

/-- One turn of the loop of `findWithFd` over the scan paths; the state is the
list `allProjects` and the trace. -/
def fdStep (sys : Sys) (f : Finder) (state : List String × List Event) (scanPath : String) :
    List String × List Event :=
  let cmd := fdCommand f scanPath
  match sys.output cmd with
  | .error _ => (state.1, state.2 ++ [Event.run cmd])
  | .ok output =>
    let lines := strings.SplitLines (strings.TrimSpace output)
    (appendProjectDirs sys state.1 lines, state.2 ++ [Event.run cmd])

/-- Go `(*Finder).findWithFd`: the projects, the error (always `nil`), the trace. -/
def Finder.findWithFd (sys : Sys) (f : Finder) :
    (List String × Option GoError) × List Event :=
  let final := f.scanPaths.foldl (fdStep sys f) ([], [])
  ((final.1, none), final.2)

/-- The arguments of `find` for one scan path, as `findWithFind` builds them. -/
def findArgs (f : Finder) (scanPath : String) : List String :=
  let args := [scanPath, "-type", "d", "-name", ".git", "-maxdepth", "7"]
  f.excludePatterns.foldl
    (fun args pattern => args ++ ["-not", "-path", "*" ++ pattern ++ "*"]) args

/-- The command `exec.Command("find", args...)` for one scan path. -/
def findCommand (f : Finder) (scanPath : String) : Command :=
  { name := "find", args := findArgs f scanPath, dir := "", inheritOutput := false }

/-- One turn of the loop of `findWithFind` over the scan paths. -/
def findStep (sys : Sys) (f : Finder) (state : List String × List Event)
    (scanPath : String) : List String × List Event :=
  let cmd := findCommand f scanPath
  match sys.output cmd with
  | .error _ => (state.1, state.2 ++ [Event.run cmd])
  | .ok output =>
    let lines := strings.SplitLines (strings.TrimSpace output)
    (appendProjectDirs sys state.1 lines, state.2 ++ [Event.run cmd])

/-- Go `(*Finder).findWithFind`: the projects, the error (always `nil`), the trace. -/
def Finder.findWithFind (sys : Sys) (f : Finder) :
    (List String × Option GoError) × List Event :=
  let final := f.scanPaths.foldl (findStep sys f) ([], [])
  ((final.1, none), final.2)

/-- Go `(*Finder).FindProjects`: `fd` when `exec.LookPath("fd")` succeeds, `find`
otherwise. -/
def Finder.FindProjects (sys : Sys) (f : Finder) :
    (List String × Option GoError) × List Event :=
  match sys.lookPath "fd" with
  | .ok _ =>
    let r := f.findWithFd sys
    (r.1, Event.lookPath "fd" :: r.2)
  | .error _ =>
    let r := f.findWithFind sys
    (r.1, Event.lookPath "fd" :: r.2)

/-- What one scan root contributes when the search tool, seen as a function from
the root to a failure or an output text, is `tool`: nothing on failure, and
otherwise the parents of the non-empty lines of the trimmed output. -/
def rootContribution (sys : Sys) (tool : String → Except GoError String) (root : String) :
    List String :=
  match tool root with
  | .error _ => []
  | .ok output =>
    ((strings.SplitLines (strings.TrimSpace output)).filter (fun line => line ≠ "")).map
      sys.dirOf

end finder

/-! ## Package `tmux`: `session.go` -/

namespace tmux

/-- Go `tmux.Manager`. -/
structure Manager where
  attachCommand : String
  deriving DecidableEq, Repr

/-- Go `tmux.NewManager`. -/
def NewManager (attachCommand : String) : Manager := { attachCommand := attachCommand }

/-- The command `exec.Command("tmux", "has-session", "-t", sessionName)`. -/
def hasSessionCommand (sessionName : String) : Command :=
  { name := "tmux", args := ["has-session", "-t", sessionName], dir := "",
    inheritOutput := false }

/-- Go `(*tmux.Manager).SessionExists`: `cmd.Run() == nil`. -/
def Manager.SessionExists (sys : Sys) (_m : Manager) (sessionName : String) :
    Bool × List Event :=
  let cmd := hasSessionCommand sessionName
  ((sys.run cmd).isNone, [Event.enter (.SessionExists sessionName), Event.run cmd])

/-- The command that `CreateSession` builds: the layout script with its three
arguments, the output streams of the caller, and `Dir` set to the project path. -/
def createSessionCommand (layoutPath projectPath sessionName projectName : String) :
    Command :=
  { name := layoutPath, args := [projectPath, sessionName, projectName],
    dir := projectPath, inheritOutput := true }

/-- Go `(*tmux.Manager).CreateSession`. -/
def Manager.CreateSession (sys : Sys) (_m : Manager)
    (layoutPath projectPath sessionName projectName : String) :
    Option GoError × List Event :=
  let cmd := createSessionCommand layoutPath projectPath sessionName projectName
  (sys.run cmd,
    [Event.enter (.CreateSession layoutPath projectPath sessionName projectName),
      Event.run cmd])

/-- The statement `return syscall.Exec(argv0, argv, os.Environ())`. -/
def syscallExec (sys : Sys) (argv0 : String) (argv : List String) :
    Outcome × List Event :=
  let envv := sys.environ
  match sys.execve argv0 argv envv with
  | none => (.replaced, [Event.execve argv0 argv envv])
  | some err => (.returned (some err), [Event.execve argv0 argv envv])

/-- Go `(*tmux.Manager).AttachToSession`. -/
def Manager.AttachToSession (sys : Sys) (_m : Manager) (sessionName : String) :
    Outcome × List Event :=
  let head := [Event.enter (.AttachToSession sessionName), Event.lookPath "tmux"]
  match sys.lookPath "tmux" with
  | .error err => (.returned (some err), head)
  | .ok tmuxPath =>
    if sys.getenv "TMUX" ≠ "" then
      let r := syscallExec sys tmuxPath ["tmux", "switch-client", "-t", sessionName]
      (r.1, head ++ r.2)
    else
      let r := syscallExec sys tmuxPath ["tmux", "attach", "-t", sessionName]
      (r.1, head ++ r.2)

end tmux

/-! ## Package `main`: `launchSession` -/

/-- Go `launchSession` of `cmd/uzzy/main.go`. -/
def launchSession (sys : Sys) (cfg : config.Config) (projectPath layoutName : String) :
    Outcome × List Event :=
  let lm := layout.NewManager cfg.LayoutsDir
  let tm := tmux.NewManager cfg.Tmux.AttachCommand
  match lm.GetLayout sys layoutName with
  | (.error err, t0) => (.returned (some err), t0)
  | (.ok l, t0) =>
    let sessionName := tmux.Slugify sys.unicodeLower projectPath
    let projectName := tmux.GetProjectName projectPath
    let found := tm.SessionExists sys sessionName
    if !found.1 then
      let made := tm.CreateSession sys l.Path projectPath sessionName projectName
      match made.1 with
      | some err =>
        (.returned (some (.wrapped "failed to create session: " err)),
          t0 ++ found.2 ++ made.2)
      | none =>
        let r := tm.AttachToSession sys sessionName
        (r.1, t0 ++ found.2 ++ made.2 ++ r.2)
    else
      let r := tm.AttachToSession sys sessionName
      (r.1, t0 ++ found.2 ++ r.2)

/-! ## Package `ui`: the selection state machine -/

namespace ui

/-- Go `ui.Step`. -/
inductive Step where
  | StepLoading
  | StepSelectProject
  | StepSelectLayout
  | StepDone
  deriving DecidableEq, Repr

/-- Go `ui.Item`. -/
structure Item where
  title : String
  desc : String
  deriving DecidableEq, Repr

/-- A non-nil `tea.Cmd` that the program can return.  `tea.Batch` is only ever
called with two commands. -/
inductive Cmd where
  /-- Go `tea.Quit`. -/
  | quit
  /-- The method value `m.spinner.Tick`. -/
  | spinnerTick
  /-- The closure returned by `loadProjects`; it reads `m.cfg` only. -/
  | loadProjects (cfg : config.Config)
  /-- The closure returned by `loadLayouts`; it reads `m.cfg` only. -/
  | loadLayouts (cfg : config.Config)
  /-- A command made by a widget of the library. -/
  | widget (tag : Nat)
  /-- Go `tea.Batch(first, second)`. -/
  | batch (first second : Cmd)
  deriving DecidableEq, Repr

/-- Whether running a command starts project discovery. -/
def Cmd.startsProjectDiscovery : Cmd → Bool
  | .loadProjects _ => true
  | .batch a b => a.startsProjectDiscovery || b.startsProjectDiscovery
  | _ => false

/-- Whether running a command starts layout discovery. -/
def Cmd.startsLayoutDiscovery : Cmd → Bool
  | .loadLayouts _ => true
  | .batch a b => a.startsLayoutDiscovery || b.startsLayoutDiscovery
  | _ => false

/-- A `tea.Msg`, by the cases of the type switch in `Update`. -/
inductive Msg where
  /-- Go `tea.WindowSizeMsg`. -/
  | windowSize (width height : Int)
  /-- Go `tea.KeyMsg`, given by the value of `msg.String()`. -/
  | key (name : String)
  /-- Go `spinner.TickMsg`. -/
  | spinnerTick (tag : Nat)
  /-- Go `projectsLoadedMsg`. -/
  | projectsLoaded (projects : List String)
  /-- Go `layoutsLoadedMsg`. -/
  | layoutsLoaded (layouts : List layout.Layout)
  /-- Go `errMsg`; the field `err` may be `nil`. -/
  | errMsg (err : Option GoError)
  /-- A message of any other type. -/
  | other (tag : Nat)
  deriving DecidableEq, Repr

/-- The state of a bubbles `list.Model` that the program reads or sets. -/
structure ListModel where
  /-- The items given to `list.New`. -/
  items : List Item
  /-- The result of `VisibleItems()`: the items that pass the current filter. -/
  visible : List Item
  /-- The result of `Index()`: the position of the cursor among the visible items. -/
  index : Nat
  width : Int
  height : Int
  showDescription : Bool
  showTitle : Bool
  showStatusBar : Bool
  filteringEnabled : Bool
  showHelp : Bool
  /-- The filter text being typed. -/
  filterText : String
  deriving DecidableEq, Repr

/-- The zero value of `list.Model`, which is what the two list fields hold until
a list is created. -/
def ListModel.zero : ListModel :=
  { items := [], visible := [], index := 0, width := 0, height := 0,
    showDescription := false, showTitle := false, showStatusBar := false,
    filteringEnabled := false, showHelp := false, filterText := "" }

/-- Go `list.Model.SelectedItem`: the visible item under the cursor, `nil` when
there is none. -/
def ListModel.SelectedItem (l : ListModel) : Option Item :=
  l.visible.get? l.index

/-- Go `list.New(items, delegate, width, height)` followed by the setters that
`createProjectList` and `createLayoutList` call: no filter is active, so every
item is visible, and the cursor is on the first one. -/
def newList (items : List Item) (width height : Int) (showStatusBar : Bool) : ListModel :=
  { items := items, visible := items, index := 0, width := width, height := height,
    showDescription := false, showTitle := false, showStatusBar := showStatusBar,
    filteringEnabled := true, showHelp := true, filterText := "" }

/-- The state of a bubbles `spinner.Model`. -/
structure Spinner where
  frame : Nat
  tag : Nat
  deriving DecidableEq, Repr

/-- The state of a bubbles `textinput.Model` that `NewModel` sets. -/
structure TextInput where
  placeholder : String
  focused : Bool
  deriving DecidableEq, Repr

/-- The code of the bubbles and lipgloss libraries that the program calls. -/
structure Widgets where
  /-- Go `list.Model.Update`. -/
  listUpdate : ListModel → Msg → ListModel × Option Cmd
  /-- Go `list.Model.View`. -/
  listView : ListModel → String
  /-- Go `spinner.Model.Update`. -/
  spinnerUpdate : Spinner → Msg → Spinner × Option Cmd
  /-- Go `spinner.Model.View`. -/
  spinnerView : Spinner → String
  /-- Go `titleStyle.Render`. -/
  titleStyle : String → String
  /-- Go `subtitleStyle.Render`. -/
  subtitleStyle : String → String
  /-- Go `errorStyle.Render`. -/
  errorStyle : String → String
  /-- Go `lipgloss.JoinVertical(lipgloss.Left, ...)`. -/
  joinVertical : List String → String

/-- Go `ui.Model`. -/
structure Model where
  cfg : config.Config
  step : Step
  projectList : ListModel
  layoutList : ListModel
  spinner : Spinner
  textInput : TextInput
  selectedPath : String
  selectedLayout : String
  projects : List String
  layouts : List layout.Layout
  err : Option GoError
  quitting : Bool
  width : Int
  height : Int
  deriving DecidableEq, Repr

/-- A value of the interface type `tea.Model` holding this program's model: the
dynamic type is either `ui.Model` or `*ui.Model`. -/
inductive TeaModel where
  /-- Dynamic type `ui.Model`. -/
  | value (m : Model)
  /-- Dynamic type `*ui.Model`; `m` is what the pointer refers to. -/
  | pointer (m : Model)
  deriving DecidableEq, Repr

/-- The model a `tea.Model` holds. -/
def TeaModel.model : TeaModel → Model
  | .value m => m
  | .pointer m => m

/-- Go `ui.NewModel`. -/
def NewModel (cfg : config.Config) (preselectedPath preselectedLayout : String) : Model :=
  let s : Spinner := { frame := 0, tag := 0 }
  let ti : TextInput := { placeholder := "Search...", focused := true }
  let m : Model :=
    { cfg := cfg, step := .StepLoading, projectList := ListModel.zero,
      layoutList := ListModel.zero, spinner := s, textInput := ti,
      selectedPath := preselectedPath, selectedLayout := preselectedLayout,
      projects := [], layouts := [], err := none, quitting := false,
      width := 80, height := 24 }
  if preselectedPath ≠ "" ∧ preselectedLayout ≠ "" then
    { m with step := .StepDone }
  else if preselectedPath ≠ "" then
    { m with step := .StepLoading }
  else m

/-- Go `Model.loadProjects`. -/
def Model.loadProjects (m : Model) : Cmd := .loadProjects m.cfg

/-- Go `Model.loadLayouts`. -/
def Model.loadLayouts (m : Model) : Cmd := .loadLayouts m.cfg

/-- Go `Model.Init`. -/
def Model.Init (m : Model) : Option Cmd :=
  if m.step = .StepDone then some .quit
  else if m.selectedPath ≠ "" then some (.batch .spinnerTick m.loadLayouts)
  else some (.batch .spinnerTick m.loadProjects)

/-- Go `strings.Replace(s, old, new, 1)` on rune sequences: the first occurrence
of `old` is replaced; an empty `old` matches at the start. -/
def replaceFirst (old new : List Char) : List Char → List Char
  | [] => if old = [] then new else []
  | c :: rest =>
    if old.isPrefixOf (c :: rest) then new ++ (c :: rest).drop old.length
    else c :: replaceFirst old new rest

/-- Go `Model.createProjectList`.  The body of the loop reads `m.cfg.ScanPaths[0]`,
which panics when there is a project and no scan path: the result is then `none`. -/
def Model.createProjectList (m : Model) (projects : List String) : Option ListModel :=
  let items : Option (List Item) :=
    match projects, m.cfg.ScanPaths with
    | [], _ => some []
    | _ :: _, [] => none
    | _ :: _, home :: _ =>
      some (projects.map (fun p =>
        { title := String.mk (replaceFirst home.data "~".data p.data), desc := p }))
  items.map (fun is => newList is m.width (m.height - 6) true)

/-- Go `Model.createLayoutList`. -/
def Model.createLayoutList (m : Model) (layouts : List layout.Layout) : ListModel :=
  let items := layouts.map (fun l => ({ title := l.Name, desc := l.Path } : Item))
  newList items m.width (m.height - 8) false

/-- Go `(*Model).updateProjectPicker`; the receiver is a pointer, and the
`tea.Model` returned holds that pointer. -/
def Model.updateProjectPicker (W : Widgets) (m : Model) (msg : Msg) :
    TeaModel × Option Cmd :=
  let delegate : TeaModel × Option Cmd :=
    let r := W.listUpdate m.projectList msg
    (.pointer { m with projectList := r.1 }, r.2)
  match msg with
  | .key "enter" =>
    match m.projectList.SelectedItem with
    | some item =>
      let m1 := { m with selectedPath := item.desc, step := .StepLoading }
      (.pointer m1, some m1.loadLayouts)
    | none => delegate
  | _ => delegate

/-- Go `(*Model).updateLayoutPicker`; the receiver is a pointer, and the
`tea.Model` returned holds that pointer. -/
def Model.updateLayoutPicker (W : Widgets) (m : Model) (msg : Msg) :
    TeaModel × Option Cmd :=
  let delegate : TeaModel × Option Cmd :=
    let r := W.listUpdate m.layoutList msg
    (.pointer { m with layoutList := r.1 }, r.2)
  match msg with
  | .key "enter" =>
    match m.layoutList.SelectedItem with
    | some item =>
      (.pointer { m with selectedLayout := item.title, step := .StepDone }, some .quit)
    | none => delegate
  | _ => delegate

/-- The second `switch` of `Update`, on `m.step`, and the final `return m, nil`. -/
def Model.dispatchStep (W : Widgets) (m : Model) (msg : Msg) : TeaModel × Option Cmd :=
  match m.step with
  | .StepSelectProject => m.updateProjectPicker W msg
  | .StepSelectLayout => m.updateLayoutPicker W msg
  | _ => (.value m, none)

/-- Go `Model.Update`.  The result is `none` when the call panics. -/
def Model.Update (W : Widgets) (m : Model) (msg : Msg) : Option (TeaModel × Option Cmd) :=
  match msg with
  | .windowSize width height =>
    some (.value { m with width := width, height := height }, none)
  | .key name =>
    if name = "ctrl+c" ∨ name = "esc" then
      some (.value { m with quitting := true }, some .quit)
    else some (m.dispatchStep W msg)
  | .spinnerTick _ =>
    let r := W.spinnerUpdate m.spinner msg
    some (.value { m with spinner := r.1 }, r.2)
  | .projectsLoaded projects =>
    let m1 := { m with projects := projects }
    match m1.createProjectList projects with
    | none => none
    | some l => some (.value { m1 with projectList := l, step := .StepSelectProject }, none)
  | .layoutsLoaded layouts =>
    let m1 := { m with layouts := layouts }
    some (.value { m1 with layoutList := m1.createLayoutList layouts,
                           step := .StepSelectLayout }, none)
  | .errMsg err => some (.value { m with err := err }, some .quit)
  | .other _ => some (m.dispatchStep W msg)

/-- Go `Model.loadingView`. -/
def Model.loadingView (W : Widgets) (m : Model) : String :=
  W.joinVertical [W.titleStyle "uzzy", W.spinnerView m.spinner ++ " Loading..."]

/-- Go `Model.projectPickerView`. -/
def Model.projectPickerView (W : Widgets) (m : Model) : String :=
  W.joinVertical [W.titleStyle "uzzy", W.subtitleStyle "Select a project",
    W.listView m.projectList]

/-- Go `Model.layoutPickerView`. -/
def Model.layoutPickerView (W : Widgets) (m : Model) : String :=
  let projectName := tmux.GetProjectName m.selectedPath
  W.joinVertical [W.titleStyle "uzzy", W.subtitleStyle ("Project: " ++ projectName),
    W.subtitleStyle "Select a layout", W.listView m.layoutList]

/-- Go `Model.View`. -/
def Model.View (W : Widgets) (m : Model) : String :=
  if m.quitting then ""
  else
    match m.err with
    | some e => W.errorStyle ("Error: " ++ e.Error)
    | none =>
      match m.step with
      | .StepLoading => m.loadingView W
      | .StepSelectProject => m.projectPickerView W
      | .StepSelectLayout => m.layoutPickerView W
      | .StepDone => ""

/-- Go `Model.ShouldAttach`. -/
def Model.ShouldAttach (m : Model) : Bool :=
  m.step = .StepDone && m.selectedPath ≠ "" && m.selectedLayout ≠ ""

/-- Go `Model.SelectedPath`. -/
def Model.SelectedPath (m : Model) : String := m.selectedPath

/-- Go `Model.SelectedLayout`. -/
def Model.SelectedLayout (m : Model) : String := m.selectedLayout

/-- Go `Model.Quitting`. -/
def Model.Quitting (m : Model) : Bool := m.quitting

/-- The closure that `loadProjects` returns, run on a host: the message it yields
and the trace. -/
def runLoadProjects (sys : Sys) (cfg : config.Config) : Msg × List Event :=
  let f := finder.New cfg.ScanPaths cfg.ExcludePatterns
  let r := f.FindProjects sys
  match r.1.2 with
  | some err => (.errMsg (some err), r.2)
  | none => (.projectsLoaded r.1.1, r.2)

/-- The closure that `loadLayouts` returns, run on a host: the message it yields
and the trace. -/
def runLoadLayouts (sys : Sys) (cfg : config.Config) : Msg × List Event :=
  let lm := layout.NewManager cfg.LayoutsDir
  let r := lm.ListLayouts sys
  match r.1 with
  | .error err => (.errMsg (some err), r.2)
  | .ok layouts => (.layoutsLoaded layouts, r.2)

/-- The event loop of the runtime on a list of messages: each message goes to
`Update` of the model the previous call returned.  A method with a value
receiver called on a `*ui.Model` works on what the pointer refers to.  The
result is `none` when a call panics. -/
def runMsgs (W : Widgets) : TeaModel → List Msg → Option TeaModel
  | tm, [] => some tm
  | tm, msg :: rest =>
    match tm.model.Update W msg with
    | none => none
    | some r => runMsgs W r.1 rest

/-- Whether a command returned by `Init` or `Update` starts project discovery. -/
def requestsProjects : Option Cmd → Bool
  | none => false
  | some c => c.startsProjectDiscovery

/-- Whether a command returned by `Init` or `Update` starts layout discovery. -/
def requestsLayouts : Option Cmd → Bool
  | none => false
  | some c => c.startsLayoutDiscovery

/-- The runtime around the model: the `tea.Model` it holds, and whether a project
discovery and a layout discovery have been handed to it so far. -/
structure Runtime where
  model : TeaModel
  projectsRequested : Bool
  layoutsRequested : Bool
  deriving DecidableEq, Repr

/-- The runtime after `Init`. -/
def Runtime.start (m : Model) : Runtime :=
  { model := .value m, projectsRequested := requestsProjects m.Init,
    layoutsRequested := requestsLayouts m.Init }

/-- The messages the runtime can deliver.  A discovery result is the answer to a
discovery command, so it needs one to have been handed over; project paths come
from `filepath.Dir` and layout names from directory entries, neither of which is
ever empty.  Every other message can come at any time. -/
def Runtime.admits (r : Runtime) : Msg → Prop
  | .projectsLoaded projects => r.projectsRequested = true ∧ ∀ p ∈ projects, p ≠ ""
  | .layoutsLoaded layouts => r.layoutsRequested = true ∧ ∀ l ∈ layouts, l.Name ≠ ""
  | _ => True

/-- The runtime delivers one message: `Update` runs on the model held, and the
command returned is handed over.  The result is `none` when `Update` panics. -/
def Runtime.step (W : Widgets) (r : Runtime) (msg : Msg) : Option Runtime :=
  match r.model.model.Update W msg with
  | none => none
  | some res =>
    some { model := res.1,
           projectsRequested := r.projectsRequested || requestsProjects res.2,
           layoutsRequested := r.layoutsRequested || requestsLayouts res.2 }

/-- The states of the runtime that a run started on the model `m0` can reach. -/
inductive Runtime.Reachable (W : Widgets) (m0 : Model) : Runtime → Prop where
  | start : Runtime.Reachable W m0 (Runtime.start m0)
  | deliver {r r' : Runtime} (msg : Msg) :
      Runtime.Reachable W m0 r → r.admits msg → r.step W msg = some r' →
      Runtime.Reachable W m0 r'

/-- What the program relies on from the widgets: updating a list keeps the items
it was given and shows only items that it holds or showed before, and the
commands of the list and of the spinner are their own, not the discovery
commands of the program. -/
structure Widgets.WellBehaved (W : Widgets) : Prop where
  list_items : ∀ l msg, (W.listUpdate l msg).1.items = l.items
  list_visible : ∀ l msg, ∀ x ∈ (W.listUpdate l msg).1.visible, x ∈ l.items ∨ x ∈ l.visible
  list_cmd : ∀ l msg, requestsProjects (W.listUpdate l msg).2 = false ∧
    requestsLayouts (W.listUpdate l msg).2 = false
  spinner_cmd : ∀ s msg, requestsProjects (W.spinnerUpdate s msg).2 = false ∧
    requestsLayouts (W.spinnerUpdate s msg).2 = false

/-- The discovery commands among the commands that a command returned by `Init`
or `Update` is made of. -/
def Cmd.discoveries : Cmd → List Cmd
  | .loadProjects cfg => [.loadProjects cfg]
  | .loadLayouts cfg => [.loadLayouts cfg]
  | .batch first second => first.discoveries ++ second.discoveries
  | _ => []

/-- The discovery commands of what `Init` or `Update` returned; none for `nil`. -/
def discoveriesOf : Option Cmd → List Cmd
  | none => []
  | some c => c.discoveries

/-- The message that the runtime gets when it runs a discovery command on the
host `sys`: what the closure of `loadProjects` or of `loadLayouts` returns. -/
def Cmd.answer (sys : Sys) : Cmd → Option Msg
  | .loadProjects cfg => some (runLoadProjects sys cfg).1
  | .loadLayouts cfg => some (runLoadLayouts sys cfg).1
  | _ => none

/-- The messages that come from the terminal and from the widgets: a resize, a
key, a tick of the spinner, a message of a type that `Update` does not know.
The other three are only ever built by the two discovery closures. -/
def Msg.isInput : Msg → Bool
  | .windowSize _ _ => true
  | .key _ => true
  | .spinnerTick _ => true
  | .other _ => true
  | _ => false

/-- The state of a `tea.Program`: the model it holds, and the discovery commands
it was handed and has not answered yet. -/
structure Program where
  model : TeaModel
  pending : List Cmd
  deriving DecidableEq, Repr

/-- The program after `Init`. -/
def Program.start (m : Model) : Program :=
  { model := .value m, pending := discoveriesOf m.Init }

/-- The program passes `msg` to `Update`; `stillPending` are the discovery commands
that remain unanswered, to which those of the command returned are added.  The
result is `none` when `Update` panics. -/
def Program.update (W : Widgets) (p : Program) (msg : Msg) (stillPending : List Cmd) :
    Option Program :=
  match p.model.model.Update W msg with
  | none => none
  | some res => some { model := res.1, pending := stillPending ++ discoveriesOf res.2 }

/-- One delivery of a message.  An input can come at any time.  A discovery
result is the answer of one pending discovery command, run on some host, and
the command is pending no more: each result is delivered once. -/
inductive Program.Delivers (W : Widgets) : Program → Msg → Program → Prop where
  | input {p q : Program} (msg : Msg) :
      msg.isInput = true → p.update W msg p.pending = some q → Program.Delivers W p msg q
  | answer {p q : Program} (before after : List Cmd) (c : Cmd) (sys : Sys) (msg : Msg) :
      p.pending = before ++ c :: after → c.answer sys = some msg →
      p.update W msg (before ++ after) = some q → Program.Delivers W p msg q

/-- The states of the program that a run started on the model `m0` can reach. -/
inductive Program.Reachable (W : Widgets) (m0 : Model) : Program → Prop where
  | start : Program.Reachable W m0 (Program.start m0)
  | deliver {p q : Program} (msg : Msg) :
      Program.Reachable W m0 p → Program.Delivers W p msg q → Program.Reachable W m0 q

/-- What holds of the program throughout a run.  At most one thing is
outstanding: a pending discovery, or the project picker whose confirmation will
start the layout discovery; and once an error is recorded nothing is
outstanding. -/
structure Program.Orderly (p : Program) : Prop where
  budget : p.pending.length + (if p.model.model.step = .StepSelectProject then 1 else 0) ≤ 1
  settled : p.model.model.err ≠ none →
    p.pending = [] ∧ p.model.model.step ≠ .StepSelectProject

/-- What holds of the model throughout a run whose messages the runtime admits;
`layoutsRequested` is the flag of the runtime.  A layout discovery is only ever
started once a project is selected, the layout picker and the step `Done` are only
entered with a project selected, and the pickers only offer projects with a path
and layouts with a name. -/
structure Model.Consistent (m : Model) (layoutsRequested : Bool) : Prop where
  requested : layoutsRequested = true → m.selectedPath ≠ ""
  picking : m.step = .StepSelectLayout → m.selectedPath ≠ ""
  done : m.step = .StepDone → m.selectedPath ≠ "" ∧ m.selectedLayout ≠ ""
  projectItems : ∀ x ∈ m.projectList.items, x.desc ≠ ""
  projectVisible : ∀ x ∈ m.projectList.visible, x.desc ≠ ""
  layoutItems : ∀ x ∈ m.layoutList.items, x.title ≠ ""
  layoutVisible : ∀ x ∈ m.layoutList.visible, x.title ≠ ""

end ui

/-! ## Package `main`: the end of `main` -/

/-- The type assertion `finalModel.(ui.Model)` of `main`: it yields the model when
the dynamic type is `ui.Model` and panics, here `none`, when it is `*ui.Model`. -/
def assertModel : ui.TeaModel → Option ui.Model
  | .value m => some m
  | .pointer _ => none

/-! ## The reference pipeline of the specification

The seven steps as the specification words them, kept apart from the
definitions above so that the two can be compared. -/

namespace Reference

/-- Reading a path from left to right: `last` is the last non-empty segment that
a separator has closed, `cur` the segment being read.  At the end of the path
the segment being read is the final one, unless it is empty (the path ends in
a separator), and then the last closed segment is. -/
def finalSegmentScan : List Char → List Char → List Char → List Char
  | last, cur, [] => if cur = [] then last else cur
  | last, cur, c :: rest =>
    if c = '/' then finalSegmentScan (if cur = [] then last else cur) [] rest
    else finalSegmentScan last (cur ++ [c]) rest

/-- Step 1: the final path segment, trailing separators dropped; `.` for the empty
path and `/` for a path that has no segment. -/
def finalSegment (path : List Char) : List Char :=
  if path = [] then ['.']
  else
    let seg := finalSegmentScan [] [] path
    if seg = [] then ['/'] else seg

/-- Step 2: lower-case every rune. -/
def lowerCase (unicodeLower : Char → Char) (s : List Char) : List Char :=
  s.map (tmux.toLowerRune unicodeLower)

/-- Step 3: every literal `.` becomes `-`. -/
def dotsToHyphens : List Char → List Char
  | [] => []
  | c :: rest => (if c = '.' then '-' else c) :: dotsToHyphens rest

/-- The class `[a-z0-9-]` written with character comparisons. -/
def allowed (c : Char) : Prop :=
  ('a' ≤ c ∧ c ≤ 'z') ∨ ('0' ≤ c ∧ c ≤ '9') ∨ c = '-'

instance (c : Char) : Decidable (allowed c) := by
  unfold allowed
  exact inferInstance

/-- Step 4: every character outside `[a-z0-9-]` becomes `-`. -/
def othersToHyphens : List Char → List Char
  | [] => []
  | c :: rest => (if allowed c then c else '-') :: othersToHyphens rest

/-- Step 5: a run of two or more consecutive `-` becomes a single `-`: a hyphen
that is followed by another hyphen is dropped, so that the last hyphen of every
run is the one that stays. -/
def collapseRuns : List Char → List Char
  | [] => []
  | [c] => [c]
  | c :: d :: rest =>
    if c = '-' ∧ d = '-' then collapseRuns (d :: rest) else c :: collapseRuns (d :: rest)

/-- Step 6, first half: leading `-` removed. -/
def trimLeading : List Char → List Char
  | [] => []
  | c :: rest => if c = '-' then trimLeading rest else c :: rest

/-- Step 6, second half: trailing `-` removed. -/
def trimTrailing (s : List Char) : List Char :=
  (trimLeading s.reverse).reverse

/-- Step 7: the fallback identifier for an empty result. -/
def orFallback (s : List Char) : List Char :=
  if s.isEmpty then ['s', 'e', 's', 's', 'i', 'o', 'n'] else s

/-- The seven steps in order, each applied to the output of the one before. -/
def pipeline (unicodeLower : Char → Char) (path : String) : String :=
  String.mk (orFallback (trimTrailing (trimLeading (collapseRuns (othersToHyphens
    (dotsToHyphens (lowerCase unicodeLower (finalSegment path.data))))))))

/-- The layout filter in the words of the specification: the entry is not a
directory and the mode that `Info()` reports for it has one of the three
executable bits.  An entry for which `Info()` reports nothing does not pass. -/
def isLayoutEntry (entry : DirEntry) : Bool :=
  !entry.isDir &&
    (match entry.info with
     | some info => info.mode &&& 0o111 != 0
     | none => false)

/-- Two neighbours of a slug that are not both hyphens. -/
def notBothHyphens (a b : Char) : Prop := ¬(a = '-' ∧ b = '-')

end Reference

/-! ## Sample configuration and hosts

Concrete inputs on which the definitions above can be evaluated. -/

namespace Sample

/-- A configuration like the default one, for a user whose home is `/home/user`. -/
def cfg : config.Config :=
  { ScanPaths := ["/home/user"], ExcludePatterns := ["node_modules", ".cache"],
    DefaultLayout := "nvim-claude", LayoutsDir := "/home/user/.config/uzzy/layouts",
    Tmux := { AttachCommand := "tmux attach -t" } }

/-- The parent of a path that is absolute and clean, which is what `filepath.Dir`
returns for it: the path up to its last separator, `/` for an element of the
root. -/
def dirOf (path : String) : String :=
  let parent := filepath.stripTrailingSeparators
    ((path.data.reverse.dropWhile (fun c => !filepath.isPathSeparator c)).reverse)
  if parent = [] then "/" else String.mk parent

/-- The entries of the sample layout directory: the executable script `dev`, the
file `notes` without executable bits and the directory `old`. -/
def layoutEntries : List DirEntry :=
  [{ name := "dev", isDir := false, info := some { isDir := false, mode := 0o755 } },
   { name := "notes", isDir := false, info := some { isDir := false, mode := 0o644 } },
   { name := "old", isDir := true, info := some { isDir := true, mode := 0o755 } }]

/-- A host on which the layout directory holds the executable script `dev`, the
directory `old` and the file `notes` without executable bits; `sessions` are the
tmux sessions that exist, `scriptOk` says whether a layout script exits with
status 0, and `insideTmux` whether the variable `TMUX` is set. -/
def host (sessions : List String) (scriptOk insideTmux : Bool) : Sys :=
  { stat := fun path =>
      if path = "/home/user/.config/uzzy/layouts/dev" then
        some { isDir := false, mode := 0o755 }
      else if path = "/home/user/.config/uzzy/layouts/old" then
        some { isDir := true, mode := 0o755 }
      else if path = "/home/user/.config/uzzy/layouts/notes" then
        some { isDir := false, mode := 0o644 }
      else none
    run := fun cmd =>
      if cmd.name = "tmux" then
        match cmd.args with
        | ["has-session", "-t", s] =>
          if s ∈ sessions then none else some (.text "exit status 1")
        | _ => some (.text "exit status 1")
      else if scriptOk then none
      else some (.text "exit status 1")
    lookPath := fun file =>
      if file = "tmux" then .ok "/usr/bin/tmux"
      else .error (.text "executable file not found in $PATH")
    getenv := fun key =>
      if key = "TMUX" ∧ insideTmux = true then "/tmp/tmux-1000/default,4242,0" else ""
    environ := ["HOME=/home/user"]
    execve := fun _ _ _ => none
    joinPath := fun dir name => dir ++ "/" ++ name
    unicodeLower := fun c => c
    output := fun _ => .error (.text "exit status 1")
    readDir := fun path =>
      if path = "/home/user/.config/uzzy/layouts" then
        .ok layoutEntries
      else .error (.text "no such file or directory")
    isNotExist := fun err => err = .text "no such file or directory"
    dirOf := dirOf }

/-- A finder with three scan roots and two exclusion patterns. -/
def searchFinder : finder.Finder :=
  finder.New ["/home/user", "/mnt/backup", "/srv/code"] ["dist", "node_modules"]

/-- A host for project discovery; `fdInstalled` says whether `fd` is found.  The
search of `/mnt/backup` fails and the two other roots are searched.  Below
`/home/user` there are the repositories `app` and `distributed`: `fd` takes the
pattern `dist` of `--exclude` as a glob on names and prints both, `find` drops
the path that matches `*dist*`. -/
def searchHost (fdInstalled : Bool) : Sys :=
  { host [] true false with
    lookPath := fun file =>
      if file = "tmux" then .ok "/usr/bin/tmux"
      else if file = "fd" ∧ fdInstalled = true then .ok "/usr/bin/fd"
      else .error (.text "executable file not found in $PATH")
    output := fun cmd =>
      if cmd.args.contains "/home/user" then
        if cmd.name = "fd" then .ok "/home/user/app/.git\n/home/user/distributed/.git\n"
        else .ok "/home/user/app/.git\n"
      else if cmd.args.contains "/srv/code" then .ok "/srv/code/site/.git\n"
      else .error (.text "exit status 1") }

/-- The layout `dev` of the sample host. -/
def devLayout : layout.Layout :=
  { Name := "dev", Path := "/home/user/.config/uzzy/layouts/dev" }

/-- The four layouts that `uzzy --init` installs, in the order of a directory
listing. -/
def layouts : List layout.Layout :=
  [{ Name := "nvim-claude", Path := "/home/user/.config/uzzy/layouts/nvim-claude" },
   { Name := "nvim-only", Path := "/home/user/.config/uzzy/layouts/nvim-only" },
   { Name := "split-dev", Path := "/home/user/.config/uzzy/layouts/split-dev" },
   { Name := "terminal", Path := "/home/user/.config/uzzy/layouts/terminal" }]

/-- The model of a run without flags once the projects `/home/user/app` and
`/home/user/site` are discovered: the project picker, cursor on the first. -/
def pickingProject : ui.Model :=
  { ui.NewModel cfg "" "" with
    step := .StepSelectProject
    projects := ["/home/user/app", "/home/user/site"]
    projectList := ui.newList
      [{ title := "~/app", desc := "/home/user/app" },
       { title := "~/site", desc := "/home/user/site" }] 80 18 true }

/-- The model of that run once `/home/user/app` is confirmed and the layouts are
discovered: the layout picker, cursor on the first. -/
def pickingLayout : ui.Model :=
  { pickingProject with
    step := .StepSelectLayout
    selectedPath := "/home/user/app"
    layouts := layouts
    layoutList := ui.newList
      (layouts.map (fun l => ({ title := l.Name, desc := l.Path } : ui.Item))) 80 16 false }

/-- A model that has recorded the error `first`. -/
def failed : ui.Model :=
  { ui.NewModel cfg "" "" with err := some (.text "first") }

/-- The runtime of a run without flags once `/home/user/app` and then the layout
under the cursor, `nvim-claude`, are confirmed: both discoveries were handed
over, and the model is in step `Done`. -/
def finished : ui.Runtime :=
  { model := .pointer { pickingLayout with selectedLayout := "nvim-claude", step := .StepDone }
    projectsRequested := true
    layoutsRequested := true }

/-- A host on which `fd` is not installed and `find` prints the two repositories
`app` and `site` below `/home/user`. -/
def projectsHost : Sys :=
  { host [] true false with
    output := fun _ => .ok "/home/user/app/.git\n/home/user/site/.git\n" }

/-- A host on which the layout directory cannot be read. -/
def lockedHost : Sys :=
  { host [] true false with
    readDir := fun _ => .error (.text "permission denied") }

/-- The program of a run without flags once the projects are discovered: the
project picker, no discovery pending. -/
def choosing : ui.Program :=
  { model := .value pickingProject, pending := [] }

/-- The program of the run `uzzy --path /home/user/app` once the layout discovery
has failed: the error is recorded, no discovery pending. -/
def stopped : ui.Program :=
  { model := .value { ui.NewModel cfg "/home/user/app" "" with
      err := some (.text "permission denied") }
    pending := [] }

/-- The program of the run without flags once `enter` has confirmed
`/home/user/app` in the project picker: the layout discovery is pending. -/
def confirmed : ui.Program :=
  { model := .pointer { pickingProject with
      selectedPath := "/home/user/app", step := .StepLoading }
    pending := [.loadLayouts cfg] }

/-- Widgets that leave their state as it is and draw nothing. -/
def widgets : ui.Widgets :=
  { listUpdate := fun l _ => (l, none)
    listView := fun _ => ""
    spinnerUpdate := fun s _ => (s, none)
    spinnerView := fun _ => ""
    titleStyle := fun s => s
    subtitleStyle := fun s => s
    errorStyle := fun s => s
    joinVertical := fun lines => String.intercalate "\n" lines }

end Sample

/-! ## Lemmas on the steps of `Slugify` -/

namespace tmux

theorem mem_replaceHyphenRuns (c : Char) :
    ∀ (inMatch : Bool) (l : List Char), c ∈ replaceHyphenRuns inMatch l → c ∈ l := by
  intro inMatch l
  induction l generalizing inMatch with
  | nil => intro h; simp [replaceHyphenRuns] at h
  | cons d rest ih =>
    intro h
    unfold replaceHyphenRuns at h
    split at h
    · split at h
      · exact List.mem_cons_of_mem _ (ih _ h)
      · rcases List.mem_cons.mp h with h1 | h1
        · subst h1; simp_all
        · exact List.mem_cons_of_mem _ (ih _ h1)
    · rcases List.mem_cons.mp h with h1 | h1
      · subst h1; simp
      · exact List.mem_cons_of_mem _ (ih _ h1)

theorem mem_trimByte {c : Char} {s : List Char} {b : Char} (h : c ∈ trimByte s b) : c ∈ s := by
  unfold trimByte trimLeftByte trimRightByte at h
  have h1 := (List.dropWhile_sublist _).subset h
  have h2 := List.mem_reverse.mp h1
  have h3 := (List.dropWhile_sublist _).subset h2
  exact List.mem_reverse.mp h3

theorem isSlugRune_of_mem_replaceNonSlug {c : Char} {s : List Char}
    (h : c ∈ replaceNonSlug s) : isSlugRune c = true := by
  unfold replaceNonSlug at h
  obtain ⟨r, _, hr⟩ := List.mem_map.mp h
  by_cases hs : isSlugRune r = true
  · simp [hs] at hr; subst hr; exact hs
  · simp [hs] at hr; subst hr; rfl

theorem isSlugRune_iff (c : Char) :
    isSlugRune c = true ↔ (('a' ≤ c ∧ c ≤ 'z') ∨ ('0' ≤ c ∧ c ≤ '9') ∨ c = '-') := by
  unfold isSlugRune
  simp only [Bool.or_eq_true, Bool.and_eq_true, decide_eq_true_eq, beq_iff_eq, or_assoc]
  exact Iff.rfl

theorem isSlugRune_of_mem_slugifyRunes (unicodeLower : Char → Char) (p : List Char)
    {c : Char} (h : c ∈ slugifyRunes unicodeLower p) : isSlugRune c = true := by
  unfold slugifyRunes at h
  simp only at h
  split at h
  · revert c
    decide
  · exact isSlugRune_of_mem_replaceNonSlug (mem_replaceHyphenRuns c _ _ (mem_trimByte h))

theorem slugifyRunes_ne_nil (unicodeLower : Char → Char) (p : List Char) :
    slugifyRunes unicodeLower p ≠ [] := by
  unfold slugifyRunes
  simp only
  split
  · decide
  · assumption

end tmux

/-! ## Slugify: validity -/

/-- C1. For every path (the empty path, `/`, text outside ASCII and paths with
trailing slashes included) and whatever the Unicode case table, `Slugify`
returns a string that is not empty and whose characters are all among `a`-`z`,
`0`-`9` and `-`. -/
theorem Slugify_nonempty_and_valid (unicodeLower : Char → Char) (p : String) :
    tmux.Slugify unicodeLower p ≠ "" ∧
      ∀ c ∈ (tmux.Slugify unicodeLower p).data,
        ('a' ≤ c ∧ c ≤ 'z') ∨ ('0' ≤ c ∧ c ≤ '9') ∨ c = '-' := by
  constructor
  · intro h
    exact tmux.slugifyRunes_ne_nil unicodeLower p.data (congrArg String.data h)
  · intro c hc
    exact (tmux.isSlugRune_iff c).mp (tmux.isSlugRune_of_mem_slugifyRunes unicodeLower p.data hc)

/-! ## Slugify: agreement with the reference pipeline -/

namespace filepath

theorem strip_concat_sep (l : List Char) :
    stripTrailingSeparators (l ++ ['/']) = stripTrailingSeparators l := by
  show (l ++ ['/']).rdropWhile isPathSeparator = l.rdropWhile isPathSeparator
  rw [List.rdropWhile_concat]
  simp [isPathSeparator]

theorem strip_concat_other (l : List Char) {x : Char} (hx : x ≠ '/') :
    stripTrailingSeparators (l ++ [x]) = l ++ [x] := by
  show (l ++ [x]).rdropWhile isPathSeparator = l ++ [x]
  rw [List.rdropWhile_concat]
  simp [isPathSeparator, hx]

theorem last_concat_sep (l : List Char) : lastElement (l ++ ['/']) = [] := by
  show (l ++ ['/']).rtakeWhile (fun c => !isPathSeparator c) = []
  rw [List.rtakeWhile_concat]
  simp [isPathSeparator]

theorem last_concat_other (l : List Char) {x : Char} (hx : x ≠ '/') :
    lastElement (l ++ [x]) = lastElement l ++ [x] := by
  show (l ++ [x]).rtakeWhile (fun c => !isPathSeparator c) =
    l.rtakeWhile (fun c => !isPathSeparator c) ++ [x]
  rw [List.rtakeWhile_concat]
  simp [isPathSeparator, hx]

/-- The last element of a path does not depend on what stands before its last
separator. -/
theorem last_after_sep (a b : List Char) : lastElement (a ++ '/' :: b) = lastElement b := by
  induction b using List.reverseRecOn with
  | nil => exact last_concat_sep a
  | append_singleton b x ih =>
    have hassoc : a ++ '/' :: (b ++ [x]) = (a ++ '/' :: b) ++ [x] := by simp
    rw [hassoc]
    by_cases hx : x = '/'
    · subst hx
      rw [last_concat_sep, last_concat_sep]
    · rw [last_concat_other _ hx, last_concat_other _ hx, ih]

theorem last_of_no_sep (l : List Char) (h : '/' ∉ l) : lastElement l = l := by
  induction l using List.reverseRecOn with
  | nil => rfl
  | append_singleton l x ih =>
    have hx : x ≠ '/' := fun hx => h (by simp [hx])
    have hl : '/' ∉ l := fun hl => h (by simp [hl])
    rw [last_concat_other _ hx, ih hl]

theorem lastOfStripped_of_no_sep (l : List Char) (h : '/' ∉ l) : lastOfStripped l = l := by
  unfold lastOfStripped
  induction l using List.reverseRecOn with
  | nil => rfl
  | append_singleton l x _ =>
    have hx : x ≠ '/' := fun hx => h (by simp [hx])
    rw [strip_concat_other _ hx]
    exact last_of_no_sep _ h

theorem lastOfStripped_concat_other (l : List Char) {x : Char} (hx : x ≠ '/') :
    lastOfStripped (l ++ [x]) = lastElement l ++ [x] := by
  unfold lastOfStripped
  rw [strip_concat_other _ hx, last_concat_other _ hx]

theorem lastOfStripped_after_sep (a rest : List Char) :
    lastOfStripped (a ++ '/' :: rest) =
      if lastOfStripped rest = [] then lastOfStripped a else lastOfStripped rest := by
  induction rest using List.reverseRecOn with
  | nil =>
    have h0 : lastOfStripped [] = [] := rfl
    rw [h0, if_pos rfl]
    unfold lastOfStripped
    rw [strip_concat_sep]
  | append_singleton r x ih =>
    have hassoc : a ++ '/' :: (r ++ [x]) = (a ++ '/' :: r) ++ [x] := by simp
    rw [hassoc]
    by_cases hx : x = '/'
    · subst hx
      have h1 : lastOfStripped ((a ++ '/' :: r) ++ ['/']) = lastOfStripped (a ++ '/' :: r) := by
        unfold lastOfStripped; rw [strip_concat_sep]
      have h2 : lastOfStripped (r ++ ['/']) = lastOfStripped r := by
        unfold lastOfStripped; rw [strip_concat_sep]
      rw [h1, h2, ih]
    · rw [lastOfStripped_concat_other _ hx, lastOfStripped_concat_other _ hx, last_after_sep]
      simp

end filepath

namespace Reference

theorem finalSegmentScan_eq (rest : List Char) :
    ∀ (last cur : List Char), '/' ∉ cur →
      finalSegmentScan last cur rest =
        if filepath.lastOfStripped (cur ++ rest) = [] then last
        else filepath.lastOfStripped (cur ++ rest) := by
  induction rest with
  | nil =>
    intro last cur hcur
    simp only [finalSegmentScan, List.append_nil]
    rw [filepath.lastOfStripped_of_no_sep cur hcur]
  | cons c rest ih =>
    intro last cur hcur
    by_cases hc : c = '/'
    · subst hc
      simp only [finalSegmentScan, if_true]
      rw [ih _ [] (by simp), filepath.lastOfStripped_after_sep,
        filepath.lastOfStripped_of_no_sep cur hcur]
      simp only [List.nil_append]
      by_cases hr : filepath.lastOfStripped rest = []
      · simp [hr]
      · simp [hr]
    · simp only [finalSegmentScan, hc, if_false]
      have hcur2 : '/' ∉ cur ++ [c] := by
        intro hm
        rcases List.mem_append.mp hm with h1 | h1
        · exact hcur h1
        · have h2 : '/' = c := by simpa using h1
          exact hc h2.symm
      rw [ih _ _ hcur2]
      simp

theorem finalSegment_eq_base (path : List Char) : finalSegment path = filepath.baseRunes path := by
  unfold finalSegment filepath.baseRunes
  have h := finalSegmentScan_eq path [] [] (by simp)
  simp only [List.nil_append] at h
  by_cases hp : path = []
  · simp [hp]
  · simp only [hp, if_false]
    rw [h]
    unfold filepath.lastOfStripped
    by_cases hl : filepath.lastElement (filepath.stripTrailingSeparators path) = []
    · simp [hl]
    · simp [hl]

theorem dotsToHyphens_eq (s : List Char) : dotsToHyphens s = tmux.replaceDots s := by
  induction s with
  | nil => rfl
  | cons c rest ih => simp [dotsToHyphens, tmux.replaceDots, ih]

theorem othersToHyphens_eq (s : List Char) : othersToHyphens s = tmux.replaceNonSlug s := by
  induction s with
  | nil => rfl
  | cons c rest ih =>
    have hc : allowed c ↔ tmux.isSlugRune c = true := (tmux.isSlugRune_iff c).symm
    unfold othersToHyphens tmux.replaceNonSlug
    rw [ih]
    by_cases h : allowed c
    · simp [h, hc.mp h, tmux.replaceNonSlug]
    · have h2 : ¬ tmux.isSlugRune c = true := fun h3 => h (hc.mpr h3)
      simp [h, h2, tmux.replaceNonSlug]

theorem collapseRuns_cons_of_ne {c : Char} (hc : c ≠ '-') (rest : List Char) :
    collapseRuns (c :: rest) = c :: collapseRuns rest := by
  cases rest with
  | nil => simp [collapseRuns]
  | cons d r => simp [collapseRuns, hc]

/-- The scan of the matcher and the run-collapsing of the specification give the
same list, outside a match and, with the pending hyphen written, inside one. -/
theorem collapseRuns_eq_scan (s : List Char) :
    tmux.replaceHyphenRuns false s = collapseRuns s ∧
      '-' :: tmux.replaceHyphenRuns true s = collapseRuns ('-' :: s) := by
  induction s with
  | nil => simp [tmux.replaceHyphenRuns, collapseRuns]
  | cons c rest ih =>
    obtain ⟨ihA, ihB⟩ := ih
    by_cases hc : c = '-'
    · subst hc
      constructor
      · simp only [tmux.replaceHyphenRuns, if_true]
        exact ihB
      · simp only [tmux.replaceHyphenRuns, if_true]
        rw [ihB]
        simp [collapseRuns]
    · constructor
      · simp only [tmux.replaceHyphenRuns, hc, if_false]
        rw [ihA, collapseRuns_cons_of_ne hc]
      · simp only [tmux.replaceHyphenRuns, hc, if_false]
        rw [ihA]
        simp [collapseRuns, hc, collapseRuns_cons_of_ne hc]

theorem trimLeading_eq (s : List Char) : trimLeading s = tmux.trimLeftByte s '-' := by
  induction s with
  | nil => rfl
  | cons c rest ih =>
    unfold trimLeading tmux.trimLeftByte
    by_cases hc : c = '-'
    · simp [hc, ih, tmux.trimLeftByte]
    · simp [hc]

theorem trimTrailing_eq (s : List Char) : trimTrailing s = tmux.trimRightByte s '-' := by
  unfold trimTrailing tmux.trimRightByte
  rw [trimLeading_eq]
  rfl

end Reference

namespace tmux

theorem trimRightByte_eq_rdropWhile (s : List Char) (b : Char) :
    trimRightByte s b = s.rdropWhile (fun r => r == b) := rfl

theorem rdropWhile_cons {α : Type} (p : α → Bool) (a : α) (l : List α) :
    (a :: l).rdropWhile p =
      if ((l.rdropWhile p).isEmpty && p a) = true then [] else a :: l.rdropWhile p := by
  induction l using List.reverseRecOn with
  | nil => simp [List.rdropWhile_singleton, List.rdropWhile_nil]
  | append_singleton l x ih =>
    rw [← List.cons_append, List.rdropWhile_concat, List.rdropWhile_concat]
    by_cases hx : p x = true
    · simp only [hx, if_true]; exact ih
    · simp [hx]

/-- Trimming on the left and trimming on the right commute. -/
theorem dropWhile_rdropWhile_comm {α : Type} (p : α → Bool) (l : List α) :
    (l.rdropWhile p).dropWhile p = (l.dropWhile p).rdropWhile p := by
  induction l with
  | nil => simp [List.rdropWhile_nil]
  | cons a l ih =>
    rw [rdropWhile_cons]
    by_cases ha : p a = true
    · rw [List.dropWhile_cons_of_pos ha]
      by_cases hl : l.rdropWhile p = []
      · have hall := List.rdropWhile_eq_nil_iff.mp hl
        have h2 : l.dropWhile p = [] := List.dropWhile_eq_nil_iff.mpr hall
        simp [hl, ha, h2, List.rdropWhile_nil]
      · have hl2 : (l.rdropWhile p).isEmpty = false := by
          cases hq : l.rdropWhile p with
          | nil => exact absurd hq hl
          | cons _ _ => rfl
        simp only [hl2, Bool.false_and, Bool.false_eq_true, if_false]
        rw [List.dropWhile_cons_of_pos ha]
        exact ih
    · rw [List.dropWhile_cons_of_neg ha]
      have ha2 : p a = false := by simpa using ha
      simp only [ha2, Bool.and_false, Bool.false_eq_true, if_false]
      rw [List.dropWhile_cons_of_neg ha, rdropWhile_cons]
      simp [ha2]

theorem trimByte_comm (s : List Char) (b : Char) :
    trimByte s b = trimRightByte (trimLeftByte s b) b := by
  unfold trimByte
  rw [trimRightByte_eq_rdropWhile, trimRightByte_eq_rdropWhile]
  exact dropWhile_rdropWhile_comm _ s

end tmux

/-- C2. For every path, `Slugify` returns what the seven steps of the reference
pipeline return when applied in order: final path segment, lower-casing, `.`
to `-`, every character outside `[a-z0-9-]` to `-`, runs of `-` collapsed to one,
leading and trailing `-` trimmed, and `session` for an empty result. -/
theorem Slugify_eq_reference_pipeline (unicodeLower : Char → Char) (p : String) :
    tmux.Slugify unicodeLower p = Reference.pipeline unicodeLower p := by
  unfold tmux.Slugify Reference.pipeline tmux.slugifyRunes
  simp only [Reference.finalSegment_eq_base, Reference.lowerCase, Reference.dotsToHyphens_eq,
    Reference.othersToHyphens_eq, ← (Reference.collapseRuns_eq_scan _).1,
    Reference.trimLeading_eq, Reference.trimTrailing_eq, ← tmux.trimByte_comm,
    Reference.orFallback]
  congr 1
  by_cases h : tmux.trimByte (tmux.replaceHyphenRuns false (tmux.replaceNonSlug
      (tmux.replaceDots (List.map (tmux.toLowerRune unicodeLower)
        (filepath.baseRunes p.data))))) '-' = []
  · rw [if_pos h, h]; rfl
  · rw [if_neg h, if_neg]
    simpa using h

/-- C3. The four documented examples: `Slugify` maps `/home/user/MyProject` to
`myproject`, `/home/user/my.cool.project` to `my-cool-project`,
`/home/user/My Project (v2)` to `my-project-v2` and `/home/user/...` to `session`. -/
theorem Slugify_documented_examples (unicodeLower : Char → Char) :
    tmux.Slugify unicodeLower "/home/user/MyProject" = "myproject" ∧
      tmux.Slugify unicodeLower "/home/user/my.cool.project" = "my-cool-project" ∧
      tmux.Slugify unicodeLower "/home/user/My Project (v2)" = "my-project-v2" ∧
      tmux.Slugify unicodeLower "/home/user/..." = "session" :=
  ⟨rfl, rfl, rfl, rfl⟩

/-! ## The launch orchestrator -/

theorem GetLayout_trace (sys : Sys) (m : layout.Manager) (name : String) :
    (m.GetLayout sys name).2 =
      [Event.enter (.GetLayout name), Event.stat (sys.joinPath m.layoutsDir name)] := by
  unfold layout.Manager.GetLayout
  simp only
  split
  · rfl
  · split
    · rfl
    · split <;> rfl

theorem callsOf_append (a b : List Event) : callsOf (a ++ b) = callsOf a ++ callsOf b := by
  induction a with
  | nil => rfl
  | cons e rest ih => cases e <;> simp [callsOf, ih]

theorem callsOf_syscallExec (sys : Sys) (argv0 : String) (argv : List String) :
    callsOf (tmux.syscallExec sys argv0 argv).2 = [] := by
  unfold tmux.syscallExec
  simp only
  split <;> rfl

theorem callsOf_AttachToSession (sys : Sys) (tm : tmux.Manager) (s : String) :
    callsOf (tm.AttachToSession sys s).2 = [Call.AttachToSession s] := by
  unfold tmux.Manager.AttachToSession
  simp only
  split
  · rfl
  · split <;> simp [callsOf_append, callsOf_syscallExec, callsOf]

/-- The body of `launchSession` once the layout has been resolved. -/
theorem launchSession_of_layout (sys : Sys) (cfg : config.Config)
    (projectPath layoutName : String) (l : layout.Layout)
    (hl : ((layout.NewManager cfg.LayoutsDir).GetLayout sys layoutName).1 = .ok l) :
    launchSession sys cfg projectPath layoutName =
      let tm := tmux.NewManager cfg.Tmux.AttachCommand
      let t0 := [Event.enter (.GetLayout layoutName),
        Event.stat (sys.joinPath cfg.LayoutsDir layoutName)]
      let sessionName := tmux.Slugify sys.unicodeLower projectPath
      let projectName := tmux.GetProjectName projectPath
      let found := tm.SessionExists sys sessionName
      if !found.1 then
        let made := tm.CreateSession sys l.Path projectPath sessionName projectName
        match made.1 with
        | some err =>
          (.returned (some (.wrapped "failed to create session: " err)),
            t0 ++ found.2 ++ made.2)
        | none =>
          let r := tm.AttachToSession sys sessionName
          (r.1, t0 ++ found.2 ++ made.2 ++ r.2)
      else
        let r := tm.AttachToSession sys sessionName
        (r.1, t0 ++ found.2 ++ r.2) := by
  have ht := GetLayout_trace sys (layout.NewManager cfg.LayoutsDir) layoutName
  have hpair : (layout.NewManager cfg.LayoutsDir).GetLayout sys layoutName =
      (.ok l, [Event.enter (.GetLayout layoutName),
        Event.stat (sys.joinPath cfg.LayoutsDir layoutName)]) :=
    Prod.ext hl ht
  unfold launchSession
  simp only [hpair]

/-- The body of `launchSession` when the layout cannot be resolved. -/
theorem launchSession_of_no_layout (sys : Sys) (cfg : config.Config)
    (projectPath layoutName : String) (err : GoError)
    (hl : ((layout.NewManager cfg.LayoutsDir).GetLayout sys layoutName).1 = .error err) :
    launchSession sys cfg projectPath layoutName =
      (.returned (some err), [Event.enter (.GetLayout layoutName),
        Event.stat (sys.joinPath cfg.LayoutsDir layoutName)]) := by
  have ht := GetLayout_trace sys (layout.NewManager cfg.LayoutsDir) layoutName
  have hpair : (layout.NewManager cfg.LayoutsDir).GetLayout sys layoutName =
      (.error err, [Event.enter (.GetLayout layoutName),
        Event.stat (sys.joinPath cfg.LayoutsDir layoutName)]) :=
    Prod.ext hl ht
  unfold launchSession
  simp only [hpair]

/-- C4. Create/attach decision of `launchSession`, for every project path and
every layout that resolves.  When `SessionExists` answers true for the slug of
the path, the gateway calls are `GetLayout`, `SessionExists`, `AttachToSession`:
`CreateSession` is not among them and `AttachToSession` is.  When it answers
false, `CreateSession` is called exactly once, and if it succeeds the calls end
with `CreateSession` followed by `AttachToSession`. -/
theorem launchSession_create_attach_decision (sys : Sys) (cfg : config.Config)
    (projectPath layoutName : String) (l : layout.Layout)
    (hl : ((layout.NewManager cfg.LayoutsDir).GetLayout sys layoutName).1 = .ok l) :
    let tm := tmux.NewManager cfg.Tmux.AttachCommand
    let s := tmux.Slugify sys.unicodeLower projectPath
    let name := tmux.GetProjectName projectPath
    let calls := callsOf (launchSession sys cfg projectPath layoutName).2
    ((tm.SessionExists sys s).1 = true →
        calls.countP Call.isCreate = 0 ∧ calls.countP Call.isAttach = 1 ∧
        calls = [.GetLayout layoutName, .SessionExists s, .AttachToSession s]) ∧
    ((tm.SessionExists sys s).1 = false →
        calls.countP Call.isCreate = 1 ∧
        ((tm.CreateSession sys l.Path projectPath s name).1 = none →
          calls = [.GetLayout layoutName, .SessionExists s,
            .CreateSession l.Path projectPath s name, .AttachToSession s])) := by
  intro tm s name calls
  have hbody := launchSession_of_layout sys cfg projectPath layoutName l hl
  constructor
  · intro hex
    have hc : calls = [.GetLayout layoutName, .SessionExists s, .AttachToSession s] := by
      show callsOf (launchSession sys cfg projectPath layoutName).2 = _
      rw [hbody]
      simp only [hex, Bool.not_true, Bool.false_eq_true, if_false]
      simp [callsOf_append, callsOf_AttachToSession, callsOf, tmux.Manager.SessionExists]
    rw [hc]
    exact ⟨rfl, rfl, rfl⟩
  · intro hex
    cases hmade : (tm.CreateSession sys l.Path projectPath s name).1 with
    | none =>
      have hc : calls = [.GetLayout layoutName, .SessionExists s,
          .CreateSession l.Path projectPath s name, .AttachToSession s] := by
        show callsOf (launchSession sys cfg projectPath layoutName).2 = _
        rw [hbody]
        simp only [hex, Bool.not_false, if_true, hmade]
        simp [callsOf_append, callsOf_AttachToSession, callsOf, tmux.Manager.SessionExists,
          tmux.Manager.CreateSession]
      rw [hc]
      exact ⟨rfl, fun _ => rfl⟩
    | some err =>
      have hc : calls = [.GetLayout layoutName, .SessionExists s,
          .CreateSession l.Path projectPath s name] := by
        show callsOf (launchSession sys cfg projectPath layoutName).2 = _
        rw [hbody]
        simp only [hex, Bool.not_false, if_true, hmade]
        simp [callsOf_append, callsOf, tmux.Manager.SessionExists,
          tmux.Manager.CreateSession]
      rw [hc]
      exact ⟨rfl, fun h => absurd h (by simp)⟩

/-- Witness for C4 on the sample host, with the layout `dev` and the project
`/home/user/MyProject`: without a session `myproject` the script is run once and
the session attached to, with one the script is not run. -/
theorem launchSession_create_attach_decision_witness :
    ((layout.NewManager Sample.cfg.LayoutsDir).GetLayout
        (Sample.host [] true false) "dev").1 = .ok Sample.devLayout ∧
      callsOf (launchSession (Sample.host [] true false) Sample.cfg
          "/home/user/MyProject" "dev").2 =
        [.GetLayout "dev", .SessionExists "myproject",
          .CreateSession "/home/user/.config/uzzy/layouts/dev" "/home/user/MyProject"
            "myproject" "MyProject",
          .AttachToSession "myproject"] ∧
      callsOf (launchSession (Sample.host ["myproject"] true false) Sample.cfg
          "/home/user/MyProject" "dev").2 =
        [.GetLayout "dev", .SessionExists "myproject", .AttachToSession "myproject"] :=
  ⟨rfl,
    ((launchSession_create_attach_decision (Sample.host [] true false) Sample.cfg
      "/home/user/MyProject" "dev" Sample.devLayout rfl).2 rfl).2 rfl,
    ((launchSession_create_attach_decision (Sample.host ["myproject"] true false) Sample.cfg
      "/home/user/MyProject" "dev" Sample.devLayout rfl).1 rfl).2.2⟩

/-- C5. Failure ordering of `launchSession`.  When the layout does not resolve,
the error of `GetLayout` is returned and `GetLayout` is the only gateway call:
there is no `SessionExists`, `CreateSession` or `AttachToSession`.  When the
session does not exist and `CreateSession` fails with `err`, the result is the
error `failed to create session: ` wrapping `err`, and `AttachToSession` is not
called.  In every other case the outcome is that of `AttachToSession` on the
slug. -/
theorem launchSession_failure_ordering (sys : Sys) (cfg : config.Config)
    (projectPath layoutName : String) :
    let lm := layout.NewManager cfg.LayoutsDir
    let tm := tmux.NewManager cfg.Tmux.AttachCommand
    let s := tmux.Slugify sys.unicodeLower projectPath
    let name := tmux.GetProjectName projectPath
    let r := launchSession sys cfg projectPath layoutName
    (∀ err, (lm.GetLayout sys layoutName).1 = .error err →
        r.1 = .returned (some err) ∧ callsOf r.2 = [.GetLayout layoutName] ∧
        ∀ c ∈ callsOf r.2, c.isExists = false ∧ c.isCreate = false ∧ c.isAttach = false) ∧
    (∀ l, (lm.GetLayout sys layoutName).1 = .ok l →
        (∀ err, (tm.SessionExists sys s).1 = false →
          (tm.CreateSession sys l.Path projectPath s name).1 = some err →
            r.1 = .returned (some (.wrapped "failed to create session: " err)) ∧
            (GoError.wrapped "failed to create session: " err).Error =
              "failed to create session: " ++ err.Error ∧
            (callsOf r.2).countP Call.isAttach = 0) ∧
        ((tm.SessionExists sys s).1 = true ∨
          (tm.CreateSession sys l.Path projectPath s name).1 = none →
            r.1 = (tm.AttachToSession sys s).1)) := by
  intro lm tm s name r
  constructor
  · intro err hl
    have hbody := launchSession_of_no_layout sys cfg projectPath layoutName err hl
    have hr : r = (.returned (some err), [Event.enter (.GetLayout layoutName),
        Event.stat (sys.joinPath cfg.LayoutsDir layoutName)]) := hbody
    rw [hr]
    refine ⟨rfl, rfl, ?_⟩
    intro c hc
    have hc2 : c = .GetLayout layoutName := by simpa [callsOf] using hc
    subst hc2
    exact ⟨rfl, rfl, rfl⟩
  · intro l hl
    have hbody := launchSession_of_layout sys cfg projectPath layoutName l hl
    constructor
    · intro err hex hmade
      have hr : r = (.returned (some (.wrapped "failed to create session: " err)),
          [Event.enter (.GetLayout layoutName),
            Event.stat (sys.joinPath cfg.LayoutsDir layoutName)] ++
          (tm.SessionExists sys s).2 ++
          (tm.CreateSession sys l.Path projectPath s name).2) := by
        show launchSession sys cfg projectPath layoutName = _
        rw [hbody]
        simp only [hex, Bool.not_false, if_true, hmade]
      rw [hr]
      refine ⟨rfl, rfl, ?_⟩
      simp [callsOf, tmux.Manager.SessionExists, tmux.Manager.CreateSession, Call.isAttach]
    · intro h
      show (launchSession sys cfg projectPath layoutName).1 = _
      rw [hbody]
      cases hex : (tm.SessionExists sys s).1 with
      | true => simp only [hex, Bool.not_true, Bool.false_eq_true, if_false]
      | false =>
        rcases h with h | h
        · rw [hex] at h; exact absurd h (by decide)
        · simp only [hex, Bool.not_false, if_true, h]

/-- Witness for C5 on the sample host: an unknown layout, a layout script that
fails, and a launch that reaches the hand-over to tmux. -/
theorem launchSession_failure_ordering_witness :
    launchSession (Sample.host [] true false) Sample.cfg "/home/user/MyProject" "gone" =
        (.returned (some (.text "layout 'gone' not found")),
          [.enter (.GetLayout "gone"), .stat "/home/user/.config/uzzy/layouts/gone"]) ∧
      (launchSession (Sample.host [] false false) Sample.cfg "/home/user/MyProject" "dev").1 =
        .returned (some (.wrapped "failed to create session: " (.text "exit status 1"))) ∧
      (launchSession (Sample.host [] true false) Sample.cfg "/home/user/MyProject" "dev").1 =
        .replaced :=
  ⟨Prod.ext
      ((launchSession_failure_ordering (Sample.host [] true false) Sample.cfg
        "/home/user/MyProject" "gone").1 (.text "layout 'gone' not found") rfl).1
      rfl,
    (((launchSession_failure_ordering (Sample.host [] false false) Sample.cfg
        "/home/user/MyProject" "dev").2 Sample.devLayout rfl).1
      (.text "exit status 1") rfl rfl).1,
    ((launchSession_failure_ordering (Sample.host [] true false) Sample.cfg
        "/home/user/MyProject" "dev").2 Sample.devLayout rfl).2 (Or.inr rfl)⟩

/-- C6. Whenever `launchSession` creates a session (the layout resolves to `l` and
no session named by the slug exists), the trace is: the stat of `GetLayout`,
the query `tmux has-session -t` on the slug, and the run of the script `l.Path`
with exactly the three arguments project path, slug, final path segment, in
the directory of the project; when the script succeeds, what follows is
`AttachToSession` on that same slug, and nothing follows when it fails. -/
theorem launchSession_script_invocation (sys : Sys) (cfg : config.Config)
    (projectPath layoutName : String) (l : layout.Layout)
    (hl : ((layout.NewManager cfg.LayoutsDir).GetLayout sys layoutName).1 = .ok l)
    (hex : ((tmux.NewManager cfg.Tmux.AttachCommand).SessionExists sys
      (tmux.Slugify sys.unicodeLower projectPath)).1 = false) :
    let tm := tmux.NewManager cfg.Tmux.AttachCommand
    let s := tmux.Slugify sys.unicodeLower projectPath
    let script : Command :=
      { name := l.Path, args := [projectPath, s, filepath.Base projectPath],
        dir := projectPath, inheritOutput := true }
    tmux.GetProjectName projectPath = filepath.Base projectPath ∧
    script.args.length = 3 ∧
    (launchSession sys cfg projectPath layoutName).2 =
      [.enter (.GetLayout layoutName), .stat (sys.joinPath cfg.LayoutsDir layoutName),
        .enter (.SessionExists s),
        .run { name := "tmux", args := ["has-session", "-t", s], dir := "",
               inheritOutput := false },
        .enter (.CreateSession l.Path projectPath s (filepath.Base projectPath)),
        .run script] ++
      (if (sys.run script).isNone then (tm.AttachToSession sys s).2 else []) ∧
    callsOf (tm.AttachToSession sys s).2 = [.AttachToSession s] := by
  intro tm s script
  refine ⟨rfl, rfl, ?_, callsOf_AttachToSession sys tm s⟩
  rw [launchSession_of_layout sys cfg projectPath layoutName l hl]
  simp only [hex, Bool.not_false, if_true]
  cases hrun : sys.run script with
  | none =>
    have h1 : ((tmux.NewManager cfg.Tmux.AttachCommand).CreateSession sys l.Path projectPath
        (tmux.Slugify sys.unicodeLower projectPath)
        (tmux.GetProjectName projectPath)).1 = none := hrun
    simp only [h1]
    simp [tmux.Manager.SessionExists, tmux.Manager.CreateSession, tmux.hasSessionCommand,
      tmux.createSessionCommand, tmux.GetProjectName, tm, s, script]
  | some err =>
    have h1 : ((tmux.NewManager cfg.Tmux.AttachCommand).CreateSession sys l.Path projectPath
        (tmux.Slugify sys.unicodeLower projectPath)
        (tmux.GetProjectName projectPath)).1 = some err := hrun
    simp only [h1]
    simp [tmux.Manager.SessionExists, tmux.Manager.CreateSession, tmux.hasSessionCommand,
      tmux.createSessionCommand, tmux.GetProjectName, s, script]

/-- Witness for C6 on the sample host: the whole trace of a launch that creates
the session `my-project-v2` and hands over to `tmux attach`. -/
theorem launchSession_script_invocation_witness :
    ((layout.NewManager Sample.cfg.LayoutsDir).GetLayout
        (Sample.host [] true false) "dev").1 = .ok Sample.devLayout ∧
    ((tmux.NewManager Sample.cfg.Tmux.AttachCommand).SessionExists (Sample.host [] true false)
        (tmux.Slugify (Sample.host [] true false).unicodeLower
          "/home/user/My Project (v2)")).1 = false ∧
    (launchSession (Sample.host [] true false) Sample.cfg
        "/home/user/My Project (v2)" "dev").2 =
      [.enter (.GetLayout "dev"), .stat "/home/user/.config/uzzy/layouts/dev",
        .enter (.SessionExists "my-project-v2"),
        .run { name := "tmux", args := ["has-session", "-t", "my-project-v2"], dir := "",
               inheritOutput := false },
        .enter (.CreateSession "/home/user/.config/uzzy/layouts/dev"
          "/home/user/My Project (v2)" "my-project-v2" "My Project (v2)"),
        .run { name := "/home/user/.config/uzzy/layouts/dev",
               args := ["/home/user/My Project (v2)", "my-project-v2", "My Project (v2)"],
               dir := "/home/user/My Project (v2)", inheritOutput := true },
        .enter (.AttachToSession "my-project-v2"), .lookPath "tmux",
        .execve "/usr/bin/tmux" ["tmux", "attach", "-t", "my-project-v2"]
          ["HOME=/home/user"]] :=
  ⟨rfl, rfl,
    (launchSession_script_invocation (Sample.host [] true false) Sample.cfg
      "/home/user/My Project (v2)" "dev" Sample.devLayout rfl rfl).2.2.1⟩

/-! ## The selection state machine -/

/-- C7. Pre-supplied short-circuit: for every configuration, non-empty project
path `P` and non-empty layout identifier `L`, the model made by `NewModel` is in
step `Done` with `selectedPath = P` and `selectedLayout = L`; `Init` returns the
quit command only, which starts neither project nor layout discovery; and
`View` is the empty string, whatever the widgets draw. -/
theorem NewModel_presupplied_short_circuit (W : ui.Widgets) (cfg : config.Config)
    (P L : String) (hP : P ≠ "") (hL : L ≠ "") :
    (ui.NewModel cfg P L).step = .StepDone ∧
      (ui.NewModel cfg P L).selectedPath = P ∧
      (ui.NewModel cfg P L).selectedLayout = L ∧
      (ui.NewModel cfg P L).Init = some .quit ∧
      (∀ c, (ui.NewModel cfg P L).Init = some c →
        c.startsProjectDiscovery = false ∧ c.startsLayoutDiscovery = false) ∧
      (ui.NewModel cfg P L).View W = "" := by
  have hm : ui.NewModel cfg P L =
      { cfg := cfg, step := .StepDone, projectList := ui.ListModel.zero,
        layoutList := ui.ListModel.zero, spinner := { frame := 0, tag := 0 },
        textInput := { placeholder := "Search...", focused := true },
        selectedPath := P, selectedLayout := L, projects := [], layouts := [],
        err := none, quitting := false, width := 80, height := 24 } := by
    unfold ui.NewModel
    simp [hP, hL]
  rw [hm]
  refine ⟨rfl, rfl, rfl, rfl, ?_, rfl⟩
  intro c hc
  have hq : c = .quit := by
    simp only [ui.Model.Init, if_true, Option.some.injEq] at hc
    exact hc.symm
  subst hq
  exact ⟨rfl, rfl⟩

/-- Witness for C7: the path `/home/user/MyProject` and the layout `dev`. -/
theorem NewModel_presupplied_short_circuit_witness :
    "/home/user/MyProject" ≠ "" ∧ "dev" ≠ "" ∧
      (ui.NewModel Sample.cfg "/home/user/MyProject" "dev").step = .StepDone ∧
      (ui.NewModel Sample.cfg "/home/user/MyProject" "dev").Init = some .quit ∧
      (ui.NewModel Sample.cfg "/home/user/MyProject" "dev").View Sample.widgets = "" :=
  have h := NewModel_presupplied_short_circuit Sample.widgets Sample.cfg
    "/home/user/MyProject" "dev" (by decide) (by decide)
  ⟨by decide, by decide, h.1, h.2.2.2.1, h.2.2.2.2.2⟩

/-- C9. When only the project is pre-supplied, `NewModel` starts in step `Loading`
with `selectedPath` set to that path, and `Init` batches the spinner tick with
layout discovery and does not start project discovery.  When neither is
pre-supplied, `Init` batches the spinner tick with project discovery and does
not start layout discovery. -/
theorem Init_discovery_dispatch (cfg : config.Config) (P : String) (hP : P ≠ "") :
    (ui.NewModel cfg P "").step = .StepLoading ∧
      (ui.NewModel cfg P "").selectedPath = P ∧
      (ui.NewModel cfg P "").Init = some (.batch .spinnerTick (.loadLayouts cfg)) ∧
      (∀ c, (ui.NewModel cfg P "").Init = some c →
        c.startsLayoutDiscovery = true ∧ c.startsProjectDiscovery = false) ∧
      (ui.NewModel cfg "" "").Init = some (.batch .spinnerTick (.loadProjects cfg)) ∧
      (∀ c, (ui.NewModel cfg "" "").Init = some c →
        c.startsProjectDiscovery = true ∧ c.startsLayoutDiscovery = false) := by
  have hm : ui.NewModel cfg P "" =
      { cfg := cfg, step := .StepLoading, projectList := ui.ListModel.zero,
        layoutList := ui.ListModel.zero, spinner := { frame := 0, tag := 0 },
        textInput := { placeholder := "Search...", focused := true },
        selectedPath := P, selectedLayout := "", projects := [], layouts := [],
        err := none, quitting := false, width := 80, height := 24 } := by
    unfold ui.NewModel
    simp [hP]
  have hi : (ui.NewModel cfg P "").Init = some (.batch .spinnerTick (.loadLayouts cfg)) := by
    rw [hm]
    simp [ui.Model.Init, hP, ui.Model.loadLayouts]
  have hi0 : (ui.NewModel cfg "" "").Init = some (.batch .spinnerTick (.loadProjects cfg)) :=
    rfl
  refine ⟨by rw [hm], by rw [hm], hi, ?_, hi0, ?_⟩
  · intro c hc
    rw [hi] at hc
    have hq := (Option.some.inj hc).symm
    subst hq
    exact ⟨rfl, rfl⟩
  · intro c hc
    rw [hi0] at hc
    have hq := (Option.some.inj hc).symm
    subst hq
    exact ⟨rfl, rfl⟩

/-- Witness for C9: the path `/home/user/MyProject`. -/
theorem Init_discovery_dispatch_witness :
    "/home/user/MyProject" ≠ "" ∧
      (ui.NewModel Sample.cfg "/home/user/MyProject" "").step = .StepLoading ∧
      (ui.NewModel Sample.cfg "/home/user/MyProject" "").Init =
        some (.batch .spinnerTick (.loadLayouts Sample.cfg)) :=
  have h := Init_discovery_dispatch Sample.cfg "/home/user/MyProject" (by decide)
  ⟨by decide, h.1, h.2.2.1⟩

/-- C10. Cancellation: for every model in step `Loading`, `SelectProject` or
`SelectLayout` and for either cancel key, `Update` returns the model with
`quitting` set and nothing else changed, together with the quit command; in
particular `selectedPath`, `selectedLayout` and `step` are as before the key.
The two keys give the same result. -/
theorem Update_cancel (W : ui.Widgets) (m : ui.Model) (k : String)
    (_hstep : m.step = .StepLoading ∨ m.step = .StepSelectProject ∨
      m.step = .StepSelectLayout)
    (hk : k = "ctrl+c" ∨ k = "esc") :
    m.Update W (.key k) = some (.value { m with quitting := true }, some .quit) ∧
      (∀ r, m.Update W (.key k) = some r →
        r.1.model.quitting = true ∧ r.2 = some .quit ∧
        r.1.model.selectedPath = m.selectedPath ∧
        r.1.model.selectedLayout = m.selectedLayout ∧
        r.1.model.step = m.step) ∧
      m.Update W (.key "ctrl+c") = m.Update W (.key "esc") := by
  have hu : m.Update W (.key k) = some (.value { m with quitting := true }, some .quit) := by
    unfold ui.Model.Update
    simp [hk]
  refine ⟨hu, ?_, rfl⟩
  intro r hr
  rw [hu] at hr
  have hq := (Option.some.inj hr).symm
  subst hq
  exact ⟨rfl, rfl, rfl, rfl, rfl⟩

/-- Witness for C10: the escape key on the initial model, which is in step
`Loading`. -/
theorem Update_cancel_witness :
    ((ui.NewModel Sample.cfg "" "").step = .StepLoading ∨
        (ui.NewModel Sample.cfg "" "").step = .StepSelectProject ∨
        (ui.NewModel Sample.cfg "" "").step = .StepSelectLayout) ∧
      ("esc" = "ctrl+c" ∨ "esc" = "esc") ∧
      (ui.NewModel Sample.cfg "" "").Update Sample.widgets (.key "esc") =
        some (.value { ui.NewModel Sample.cfg "" "" with quitting := true }, some .quit) :=
  ⟨Or.inl rfl, Or.inr rfl,
    (Update_cancel Sample.widgets (ui.NewModel Sample.cfg "" "") "esc" (Or.inl rfl)
      (Or.inr rfl)).1⟩

/-- C8, the code on the run `uzzy --layout terminal`.  The model is made with an
empty project path and the layout `terminal`; projects are discovered, the user
confirms `/home/user/app`, layouts are discovered.  The machine is then in step
`SelectLayout`, and a further confirmation ends in `Done` with the layout under
the cursor, `nvim-claude`, in place of the pre-supplied `terminal`. -/
theorem layout_flag_alone_enters_layout_picker (W : ui.Widgets) :
    let m0 := ui.NewModel Sample.cfg "" "terminal"
    let confirmed : List ui.Msg :=
      [.projectsLoaded ["/home/user/app"], .key "enter", .layoutsLoaded Sample.layouts]
    (ui.runMsgs W (.value m0) confirmed).map
        (fun t => (t.model.step, t.model.selectedPath, t.model.selectedLayout)) =
      some (.StepSelectLayout, "/home/user/app", "terminal") ∧
    (ui.runMsgs W (.value m0) (confirmed ++ [.key "enter"])).map
        (fun t => (t.model.step, t.model.selectedPath, t.model.selectedLayout)) =
      some (.StepDone, "/home/user/app", "nvim-claude") :=
  ⟨rfl, rfl⟩

/-! ## The selection state machine: confirming and ignoring -/

namespace ui

theorem updateProjectPicker_enter_some (W : Widgets) (m : Model) (item : Item)
    (h : m.projectList.SelectedItem = some item) :
    m.updateProjectPicker W (.key "enter") =
      (.pointer { m with selectedPath := item.desc, step := .StepLoading },
        some (.loadLayouts m.cfg)) := by
  unfold Model.updateProjectPicker
  simp only [h]
  rfl

theorem updateProjectPicker_delegate (W : Widgets) (m : Model) (msg : Msg)
    (h : msg ≠ .key "enter" ∨ m.projectList.SelectedItem = none) :
    m.updateProjectPicker W msg =
      (.pointer { m with projectList := (W.listUpdate m.projectList msg).1 },
        (W.listUpdate m.projectList msg).2) := by
  unfold Model.updateProjectPicker
  split
  · rcases h with h | h
    · exact absurd rfl h
    · simp only [h]
  · rfl

theorem updateLayoutPicker_enter_some (W : Widgets) (m : Model) (item : Item)
    (h : m.layoutList.SelectedItem = some item) :
    m.updateLayoutPicker W (.key "enter") =
      (.pointer { m with selectedLayout := item.title, step := .StepDone }, some .quit) := by
  unfold Model.updateLayoutPicker
  simp only [h]

theorem updateLayoutPicker_delegate (W : Widgets) (m : Model) (msg : Msg)
    (h : msg ≠ .key "enter" ∨ m.layoutList.SelectedItem = none) :
    m.updateLayoutPicker W msg =
      (.pointer { m with layoutList := (W.listUpdate m.layoutList msg).1 },
        (W.listUpdate m.layoutList msg).2) := by
  unfold Model.updateLayoutPicker
  split
  · rcases h with h | h
    · exact absurd rfl h
    · simp only [h]
  · rfl

theorem Update_key_other (W : Widgets) (m : Model) (k : String)
    (hk : k ≠ "ctrl+c" ∧ k ≠ "esc") :
    m.Update W (.key k) = some (m.dispatchStep W (.key k)) := by
  unfold Model.Update
  simp [hk.1, hk.2]

end ui

/-- C11. Project confirm.  For every model in step `SelectProject`: when the
project list has a highlighted candidate, `Update` on `enter` returns the model
with `selectedPath` set to the `desc` of that candidate and `step` set to
`Loading`, nothing else changed (so `selectedLayout` is as before), together
with the layout discovery command; when no candidate is highlighted, `Update`
returns a model with `selectedPath` and `step` as before.  The `desc` of the
items that `createProjectList` makes is the full path as discovered, the
`title` is that path with the first scan path replaced by `~`. -/
theorem Update_project_confirm (W : ui.Widgets) (m : ui.Model)
    (hstep : m.step = .StepSelectProject) :
    (∀ item, m.projectList.SelectedItem = some item →
      m.Update W (.key "enter") =
        some (.pointer { m with selectedPath := item.desc, step := .StepLoading },
          some (.loadLayouts m.cfg)) ∧
      ({ m with selectedPath := item.desc, step := .StepLoading } : ui.Model).selectedLayout =
        m.selectedLayout) ∧
    (m.projectList.SelectedItem = none →
      ∃ r, m.Update W (.key "enter") = some r ∧
        r.1.model.selectedPath = m.selectedPath ∧ r.1.model.step = m.step) ∧
    (∀ projects home rest l, m.cfg.ScanPaths = home :: rest →
      m.createProjectList projects = some l →
        l.visible = l.items ∧ l.index = 0 ∧
        l.items = projects.map (fun p =>
          { title := String.mk (ui.replaceFirst home.data ['~'] p.data), desc := p }) ∧
        l.items.map (fun item => item.desc) = projects) := by
  have hupd : m.Update W (.key "enter") = some (m.dispatchStep W (.key "enter")) :=
    ui.Update_key_other W m "enter" (by decide)
  have hdisp : m.dispatchStep W (.key "enter") = m.updateProjectPicker W (.key "enter") := by
    unfold ui.Model.dispatchStep
    rw [hstep]
  refine ⟨?_, ?_, ?_⟩
  · intro item hitem
    rw [hupd, hdisp, ui.updateProjectPicker_enter_some W m item hitem]
    exact ⟨rfl, rfl⟩
  · intro hnone
    rw [hupd, hdisp, ui.updateProjectPicker_delegate W m _ (Or.inr hnone)]
    exact ⟨_, rfl, rfl, rfl⟩
  · intro projects home rest l hscan hl
    unfold ui.Model.createProjectList at hl
    rw [hscan] at hl
    cases projects with
    | nil =>
      simp only [Option.map_some', Option.some.injEq] at hl
      subst hl
      exact ⟨rfl, rfl, rfl, rfl⟩
    | cons p ps =>
      simp only [Option.map_some', Option.some.injEq] at hl
      subst hl
      refine ⟨rfl, rfl, rfl, ?_⟩
      simp [ui.newList, List.map_map, Function.comp_def]

/-- Witness for C11: `enter` in the sample project picker, cursor on
`/home/user/app`. -/
theorem Update_project_confirm_witness :
    Sample.pickingProject.step = .StepSelectProject ∧
      Sample.pickingProject.projectList.SelectedItem =
        some { title := "~/app", desc := "/home/user/app" } ∧
      Sample.pickingProject.Update Sample.widgets (.key "enter") =
        some (.pointer { Sample.pickingProject with
            selectedPath := "/home/user/app", step := .StepLoading },
          some (.loadLayouts Sample.cfg)) :=
  ⟨rfl, rfl,
    ((Update_project_confirm Sample.widgets Sample.pickingProject rfl).1
      { title := "~/app", desc := "/home/user/app" } rfl).1⟩

/-- C12. Layout confirm.  For every model in step `SelectLayout`: when the layout
list has a highlighted candidate, `Update` on `enter` returns the model with
`selectedLayout` set to the `title` of that candidate and `step` set to `Done`,
nothing else changed (so `selectedPath` is as before), together with the quit
command; when no candidate is highlighted, `Update` returns a model with
`selectedLayout` and `step` as before.  The `title` of the items that
`createLayoutList` makes is the name of the layout. -/
theorem Update_layout_confirm (W : ui.Widgets) (m : ui.Model)
    (hstep : m.step = .StepSelectLayout) :
    (∀ item, m.layoutList.SelectedItem = some item →
      m.Update W (.key "enter") =
        some (.pointer { m with selectedLayout := item.title, step := .StepDone },
          some .quit) ∧
      ({ m with selectedLayout := item.title, step := .StepDone } : ui.Model).selectedPath =
        m.selectedPath) ∧
    (m.layoutList.SelectedItem = none →
      ∃ r, m.Update W (.key "enter") = some r ∧
        r.1.model.selectedLayout = m.selectedLayout ∧ r.1.model.step = m.step) ∧
    (∀ layouts, (m.createLayoutList layouts).visible = (m.createLayoutList layouts).items ∧
      (m.createLayoutList layouts).index = 0 ∧
      (m.createLayoutList layouts).items.map (fun item => item.title) =
        layouts.map (fun l => l.Name)) := by
  have hupd : m.Update W (.key "enter") = some (m.dispatchStep W (.key "enter")) :=
    ui.Update_key_other W m "enter" (by decide)
  have hdisp : m.dispatchStep W (.key "enter") = m.updateLayoutPicker W (.key "enter") := by
    unfold ui.Model.dispatchStep
    rw [hstep]
  refine ⟨?_, ?_, ?_⟩
  · intro item hitem
    rw [hupd, hdisp, ui.updateLayoutPicker_enter_some W m item hitem]
    exact ⟨rfl, rfl⟩
  · intro hnone
    rw [hupd, hdisp, ui.updateLayoutPicker_delegate W m _ (Or.inr hnone)]
    exact ⟨_, rfl, rfl, rfl⟩
  · intro layouts
    refine ⟨rfl, rfl, ?_⟩
    simp [ui.Model.createLayoutList, ui.newList, List.map_map, Function.comp_def]

/-- Witness for C12: `enter` in the sample layout picker, cursor on
`nvim-claude`. -/
theorem Update_layout_confirm_witness :
    Sample.pickingLayout.step = .StepSelectLayout ∧
      Sample.pickingLayout.layoutList.SelectedItem =
        some { title := "nvim-claude",
               desc := "/home/user/.config/uzzy/layouts/nvim-claude" } ∧
      Sample.pickingLayout.Update Sample.widgets (.key "enter") =
        some (.pointer { Sample.pickingLayout with
            selectedLayout := "nvim-claude", step := .StepDone },
          some .quit) :=
  ⟨rfl, rfl,
    ((Update_layout_confirm Sample.widgets Sample.pickingLayout rfl).1
      { title := "nvim-claude", desc := "/home/user/.config/uzzy/layouts/nvim-claude" }
      rfl).1⟩

/-- C16. No user input is processed while discovery is outstanding, except
cancel: for every model in step `Loading` and every key other than `ctrl+c` and
`esc`, `Update` returns the very same model (step, selections, candidate lists,
`err` and `quitting` included) and no command. -/
theorem Update_loading_ignores_keys (W : ui.Widgets) (m : ui.Model) (k : String)
    (hstep : m.step = .StepLoading) (hk : k ≠ "ctrl+c" ∧ k ≠ "esc") :
    m.Update W (.key k) = some (.value m, none) := by
  rw [ui.Update_key_other W m k hk]
  unfold ui.Model.dispatchStep
  rw [hstep]

/-- Witness for C16: `enter` and a letter on the initial model, which is in step
`Loading`. -/
theorem Update_loading_ignores_keys_witness :
    (ui.NewModel Sample.cfg "" "").step = .StepLoading ∧
      ("enter" ≠ "ctrl+c" ∧ "enter" ≠ "esc") ∧
      (ui.NewModel Sample.cfg "" "").Update Sample.widgets (.key "enter") =
        some (.value (ui.NewModel Sample.cfg "" ""), none) :=
  ⟨rfl, by decide,
    Update_loading_ignores_keys Sample.widgets (ui.NewModel Sample.cfg "" "") "enter" rfl
      (by decide)⟩

/-! ## The selection state machine: what a message can change -/

namespace ui

theorem dispatchStep_err (W : Widgets) (m : Model) (msg : Msg) :
    (m.dispatchStep W msg).1.model.err = m.err := by
  unfold Model.dispatchStep Model.updateProjectPicker Model.updateLayoutPicker
  split
  · split
    · split <;> rfl
    · rfl
  · split
    · split <;> rfl
    · rfl
  · rfl

theorem dispatchStep_step_of_SelectProject (W : Widgets) (m : Model) (msg : Msg)
    (hstep : m.step = .StepSelectProject) :
    (m.dispatchStep W msg).1.model.step = .StepSelectProject ∨
      (m.dispatchStep W msg).1.model.step = .StepLoading := by
  unfold Model.dispatchStep
  rw [hstep]
  simp only
  unfold Model.updateProjectPicker
  split
  · split
    · exact Or.inr rfl
    · exact Or.inl hstep
  · exact Or.inl hstep

end ui

/-- C14, as stated, fails: the sample model is in step `SelectProject`, a layout
discovery result is not a cancel key, and `Update` on it returns a model in step
`SelectLayout`. -/
theorem Update_SelectProject_layoutsLoaded_counterexample :
    Sample.pickingProject.step = .StepSelectProject ∧
      ui.Msg.layoutsLoaded Sample.layouts ≠ .key "ctrl+c" ∧
      ui.Msg.layoutsLoaded Sample.layouts ≠ .key "esc" ∧
      (Sample.pickingProject.Update Sample.widgets (.layoutsLoaded Sample.layouts)).map
        (fun r => r.1.model.step) = some .StepSelectLayout :=
  ⟨rfl, by decide, by decide, rfl⟩

/-- A single call of `Update` in step `SelectProject`, on a message that is
neither a cancel key nor a layout discovery result: a model returned is in step
`SelectProject` or `Loading`, and `Update` does return unless the message is a
project discovery result with a project while the configuration has no scan
path.  On a layout discovery result the call gives step `SelectLayout`. -/
theorem Update_SelectProject_forward (W : ui.Widgets) (m : ui.Model) (msg : ui.Msg)
    (hstep : m.step = .StepSelectProject)
    (hcancel : msg ≠ .key "ctrl+c" ∧ msg ≠ .key "esc")
    (hlayouts : ∀ layouts, msg ≠ .layoutsLoaded layouts) :
    (∀ r, m.Update W msg = some r →
      r.1.model.step = .StepSelectProject ∨ r.1.model.step = .StepLoading) ∧
    (m.Update W msg = none →
      ∃ p ps, msg = .projectsLoaded (p :: ps) ∧ m.cfg.ScanPaths = []) ∧
    (∀ layouts, ∃ r, m.Update W (.layoutsLoaded layouts) = some r ∧
      r.1.model.step = .StepSelectLayout) := by
  refine ⟨?_, ?_, fun layouts => ⟨_, rfl, rfl⟩⟩
  · intro r hr
    cases msg with
    | windowSize w h =>
      simp only [ui.Model.Update, Option.some.injEq] at hr
      subst hr
      exact Or.inl hstep
    | key k =>
      have hk : k ≠ "ctrl+c" ∧ k ≠ "esc" :=
        ⟨fun h => hcancel.1 (by rw [h]), fun h => hcancel.2 (by rw [h])⟩
      rw [ui.Update_key_other W m k hk] at hr
      have hq := (Option.some.inj hr).symm
      subst hq
      exact ui.dispatchStep_step_of_SelectProject W m _ hstep
    | spinnerTick t =>
      simp only [ui.Model.Update, Option.some.injEq] at hr
      subst hr
      exact Or.inl hstep
    | projectsLoaded ps =>
      simp only [ui.Model.Update] at hr
      split at hr
      · exact absurd hr (by simp)
      · have hq := (Option.some.inj hr).symm
        subst hq
        exact Or.inl rfl
    | layoutsLoaded ls => exact absurd rfl (hlayouts ls)
    | errMsg e =>
      simp only [ui.Model.Update, Option.some.injEq] at hr
      subst hr
      exact Or.inl hstep
    | other t =>
      simp only [ui.Model.Update, Option.some.injEq] at hr
      subst hr
      exact ui.dispatchStep_step_of_SelectProject W m _ hstep
  · intro hnone
    cases msg with
    | windowSize w h => simp [ui.Model.Update] at hnone
    | key k =>
      simp only [ui.Model.Update] at hnone
      split at hnone <;> simp at hnone
    | spinnerTick t => simp [ui.Model.Update] at hnone
    | projectsLoaded ps =>
      cases ps with
      | nil => simp [ui.Model.Update, ui.Model.createProjectList] at hnone
      | cons p rest =>
        refine ⟨p, rest, rfl, ?_⟩
        cases hs : m.cfg.ScanPaths with
        | nil => rfl
        | cons home more =>
          simp [ui.Model.Update, ui.Model.createProjectList, hs] at hnone
    | layoutsLoaded ls => simp [ui.Model.Update] at hnone
    | errMsg e => simp [ui.Model.Update] at hnone
    | other t => simp [ui.Model.Update] at hnone

/-- C15, as stated, fails: the sample model has recorded the error `first`, and
`Update` on an `errMsg` that carries `second` returns a model whose `err` is
`second`. -/
theorem Update_errMsg_overwrites_counterexample :
    Sample.failed.err = some (.text "first") ∧
      (Sample.failed.Update Sample.widgets (.errMsg (some (.text "second")))).map
        (fun r => r.1.model.err) = some (some (.text "second")) ∧
      some (GoError.text "second") ≠ some (GoError.text "first") :=
  ⟨rfl, rfl, by decide⟩

/-- A single call of `Update` and the field `err`: on a message that is not an
`errMsg` a model returned has the `err` it had before; on an `errMsg` the call
assigns the error of the message and returns the quit command. -/
theorem Update_err_frame (W : ui.Widgets) (m : ui.Model) (msg : ui.Msg)
    (hmsg : ∀ e, msg ≠ .errMsg e) :
    (∀ r, m.Update W msg = some r → r.1.model.err = m.err) ∧
    (∀ e, m.Update W (.errMsg e) = some (.value { m with err := e }, some .quit)) := by
  refine ⟨?_, fun e => rfl⟩
  intro r hr
  cases msg with
  | windowSize w h =>
    simp only [ui.Model.Update, Option.some.injEq] at hr
    subst hr
    rfl
  | key k =>
    simp only [ui.Model.Update] at hr
    split at hr
    · have hq := (Option.some.inj hr).symm
      subst hq
      rfl
    · have hq := (Option.some.inj hr).symm
      subst hq
      exact ui.dispatchStep_err W m _
  | spinnerTick t =>
    simp only [ui.Model.Update, Option.some.injEq] at hr
    subst hr
    rfl
  | projectsLoaded ps =>
    simp only [ui.Model.Update] at hr
    split at hr
    · exact absurd hr (by simp)
    · have hq := (Option.some.inj hr).symm
      subst hq
      rfl
  | layoutsLoaded ls =>
    simp only [ui.Model.Update, Option.some.injEq] at hr
    subst hr
    rfl
  | errMsg e => exact absurd rfl (hmsg e)
  | other t =>
    simp only [ui.Model.Update, Option.some.injEq] at hr
    subst hr
    exact ui.dispatchStep_err W m _

/-! ## Layout discovery and lookup -/

namespace layout

theorem listStep_eq (sys : Sys) (m : Manager) (layouts : List Layout) (entry : DirEntry) :
    listStep sys m layouts entry =
      layouts ++ (if Reference.isLayoutEntry entry = true then [layoutOfEntry sys m entry]
        else []) := by
  unfold listStep Reference.isLayoutEntry layoutOfEntry
  cases hd : entry.isDir
  · cases hi : entry.info with
    | none => simp
    | some info =>
      by_cases hm : info.mode &&& 0o111 = 0
      · simp [hm]
      · simp [hm]
  · simp

theorem foldl_listStep (sys : Sys) (m : Manager) (entries : List DirEntry) :
    ∀ layouts : List Layout,
      entries.foldl (listStep sys m) layouts =
        layouts ++ (entries.filter Reference.isLayoutEntry).map (layoutOfEntry sys m) := by
  induction entries with
  | nil => intro layouts; simp
  | cons e rest ih =>
    intro layouts
    rw [List.foldl_cons, ih, listStep_eq]
    by_cases he : Reference.isLayoutEntry e = true
    · simp [he, List.filter_cons]
    · simp [he, List.filter_cons]

theorem isLayoutEntry_iff (e : DirEntry) :
    Reference.isLayoutEntry e = true ↔
      (e.isDir = false ∧ ∃ info, e.info = some info ∧ info.mode &&& 0o111 ≠ 0) := by
  unfold Reference.isLayoutEntry
  cases hd : e.isDir
  · cases hi : e.info with
    | none => simp
    | some info => simp
  · simp

theorem GetLayout_of_stat_none (sys : Sys) (m : Manager) (name : String)
    (hs : sys.stat (sys.joinPath m.layoutsDir name) = none) :
    (m.GetLayout sys name).1 = .error (.text ("layout '" ++ name ++ "' not found")) := by
  simp only [Manager.GetLayout, hs]

theorem GetLayout_of_dir (sys : Sys) (m : Manager) (name : String) (info : FileInfo)
    (hs : sys.stat (sys.joinPath m.layoutsDir name) = some info) (hd : info.isDir = true) :
    (m.GetLayout sys name).1 =
      .error (.text ("'" ++ name ++ "' is a directory, not a layout script")) := by
  simp only [Manager.GetLayout, hs, hd, if_true]

theorem GetLayout_of_not_executable (sys : Sys) (m : Manager) (name : String) (info : FileInfo)
    (hs : sys.stat (sys.joinPath m.layoutsDir name) = some info) (hd : info.isDir = false)
    (hm : info.mode &&& 0o111 = 0) :
    (m.GetLayout sys name).1 = .error (.text ("layout '" ++ name ++ "' is not executable")) := by
  simp [Manager.GetLayout, hs, hd, hm]

theorem GetLayout_of_script (sys : Sys) (m : Manager) (name : String) (info : FileInfo)
    (hs : sys.stat (sys.joinPath m.layoutsDir name) = some info) (hd : info.isDir = false)
    (hm : info.mode &&& 0o111 ≠ 0) :
    (m.GetLayout sys name).1 =
      .ok { Name := name, Path := sys.joinPath m.layoutsDir name } := by
  simp [Manager.GetLayout, hs, hd, hm]

end layout

/-- C17.  For every layout directory that `os.ReadDir` reads, `ListLayouts`
returns, in the order of the directory, one layout for each entry that is not a
directory and whose mode has an executable bit (`mode & 0111 ≠ 0`), and nothing
else: a layout is listed if and only if it is that of such an entry; its `Name`
is the name of the entry and its `Path` the layout directory joined with that
name; and when the names of the directory are distinct, an entry has a layout
with its name in the result if and only if it passes the filter.  An entry whose
`Info()` fails has no mode to show and is not listed. -/
theorem ListLayouts_filter (sys : Sys) (m : layout.Manager) (entries : List DirEntry)
    (hread : sys.readDir m.layoutsDir = .ok entries) :
    ∃ layouts, (m.ListLayouts sys).1 = .ok layouts ∧
      layouts = (entries.filter Reference.isLayoutEntry).map (layout.layoutOfEntry sys m) ∧
      (∀ l : layout.Layout, l ∈ layouts ↔
        ∃ e ∈ entries, e.isDir = false ∧
          (∃ info, e.info = some info ∧ info.mode &&& 0o111 ≠ 0) ∧
          l.Name = e.name ∧ l.Path = sys.joinPath m.layoutsDir e.name) ∧
      ((entries.map (fun e => e.name)).Nodup →
        ∀ e ∈ entries,
          ((∃ l ∈ layouts, l.Name = e.name) ↔
            (e.isDir = false ∧ ∃ info, e.info = some info ∧ info.mode &&& 0o111 ≠ 0))) := by
  refine ⟨_, ?_, rfl, ?_, ?_⟩
  · unfold layout.Manager.ListLayouts
    rw [hread]
    simp only
    rw [layout.foldl_listStep]
    rfl
  · intro l
    simp only [List.mem_map, List.mem_filter]
    constructor
    · rintro ⟨e, ⟨he, hp⟩, rfl⟩
      exact ⟨e, he, ((layout.isLayoutEntry_iff e).mp hp).1,
        ((layout.isLayoutEntry_iff e).mp hp).2, rfl, rfl⟩
    · rintro ⟨e, he, hd, hi, hn, hpath⟩
      refine ⟨e, ⟨he, (layout.isLayoutEntry_iff e).mpr ⟨hd, hi⟩⟩, ?_⟩
      cases l
      simp only at hn hpath
      subst hn hpath
      rfl
  · intro hnodup e he
    rw [← layout.isLayoutEntry_iff e]
    simp only [List.mem_map, List.mem_filter]
    constructor
    · rintro ⟨l, ⟨e2, ⟨he2, hp2⟩, rfl⟩, hname⟩
      have hname2 : e2.name = e.name := hname
      have hee : e2 = e := List.inj_on_of_nodup_map hnodup he2 he hname2
      rw [← hee]
      exact hp2
    · intro hp
      exact ⟨_, ⟨e, ⟨he, hp⟩, rfl⟩, rfl⟩

/-- Witness for C17: the layout directory of the sample host holds the script
`dev`, the file `notes` without executable bits and the directory `old`; only
`dev` is listed. -/
theorem ListLayouts_filter_witness :
    ((layout.NewManager "/home/user/.config/uzzy/layouts").ListLayouts
        (Sample.host [] true false)).1 = .ok [Sample.devLayout] ∧
      ∃ layouts,
        ((layout.NewManager "/home/user/.config/uzzy/layouts").ListLayouts
          (Sample.host [] true false)).1 = .ok layouts ∧
        layouts = (Sample.layoutEntries.filter Reference.isLayoutEntry).map
          (layout.layoutOfEntry (Sample.host [] true false)
            (layout.NewManager "/home/user/.config/uzzy/layouts")) :=
  ⟨rfl,
    (ListLayouts_filter (Sample.host [] true false)
      (layout.NewManager "/home/user/.config/uzzy/layouts") Sample.layoutEntries rfl).imp
      (fun _ h => ⟨h.1, h.2.1⟩)⟩

/-- C18.  `GetLayout(name)` succeeds if and only if `os.Stat` of the layout
directory joined with `name` succeeds, the file is not a directory and its mode
has an executable bit; on success the layout is `Layout{Name: name, Path: that
path}`; when the stat fails the error is `layout 'name' not found`, else when the
file is a directory it is `'name' is a directory, not a layout script`, else
when no executable bit is set it is `layout 'name' is not executable`. -/
theorem GetLayout_contract (sys : Sys) (m : layout.Manager) (name : String) :
    ((∃ l, (m.GetLayout sys name).1 = .ok l) ↔
      ∃ info, sys.stat (sys.joinPath m.layoutsDir name) = some info ∧
        info.isDir = false ∧ info.mode &&& 0o111 ≠ 0) ∧
    (∀ l, (m.GetLayout sys name).1 = .ok l →
      l = { Name := name, Path := sys.joinPath m.layoutsDir name }) ∧
    (sys.stat (sys.joinPath m.layoutsDir name) = none →
      (m.GetLayout sys name).1 = .error (.text ("layout '" ++ name ++ "' not found"))) ∧
    (∀ info, sys.stat (sys.joinPath m.layoutsDir name) = some info → info.isDir = true →
      (m.GetLayout sys name).1 =
        .error (.text ("'" ++ name ++ "' is a directory, not a layout script"))) ∧
    (∀ info, sys.stat (sys.joinPath m.layoutsDir name) = some info → info.isDir = false →
      info.mode &&& 0o111 = 0 →
      (m.GetLayout sys name).1 =
        .error (.text ("layout '" ++ name ++ "' is not executable"))) := by
  refine ⟨?_, ?_, layout.GetLayout_of_stat_none sys m name,
    layout.GetLayout_of_dir sys m name, layout.GetLayout_of_not_executable sys m name⟩
  · constructor
    · rintro ⟨l, hl⟩
      cases hs : sys.stat (sys.joinPath m.layoutsDir name) with
      | none =>
        rw [layout.GetLayout_of_stat_none sys m name hs] at hl
        exact Except.noConfusion hl
      | some info =>
        cases hd : info.isDir
        · by_cases hm : info.mode &&& 0o111 = 0
          · rw [layout.GetLayout_of_not_executable sys m name info hs hd hm] at hl
            exact Except.noConfusion hl
          · exact ⟨info, rfl, hd, hm⟩
        · rw [layout.GetLayout_of_dir sys m name info hs hd] at hl
          exact Except.noConfusion hl
    · rintro ⟨info, hs, hd, hm⟩
      exact ⟨_, layout.GetLayout_of_script sys m name info hs hd hm⟩
  · intro l hl
    cases hs : sys.stat (sys.joinPath m.layoutsDir name) with
    | none =>
      rw [layout.GetLayout_of_stat_none sys m name hs] at hl
      exact Except.noConfusion hl
    | some info =>
      cases hd : info.isDir
      · by_cases hm : info.mode &&& 0o111 = 0
        · rw [layout.GetLayout_of_not_executable sys m name info hs hd hm] at hl
          exact Except.noConfusion hl
        · rw [layout.GetLayout_of_script sys m name info hs hd hm] at hl
          exact (Except.ok.inj hl).symm
      · rw [layout.GetLayout_of_dir sys m name info hs hd] at hl
        exact Except.noConfusion hl

/-! ## Project discovery -/

namespace finder

theorem appendProjectDirs_eq (sys : Sys) (lines : List String) :
    ∀ allProjects : List String,
      appendProjectDirs sys allProjects lines =
        allProjects ++ (lines.filter (fun line => line ≠ "")).map sys.dirOf := by
  unfold appendProjectDirs
  induction lines with
  | nil => intro allProjects; simp
  | cons line rest ih =>
    intro allProjects
    rw [List.foldl_cons, ih]
    by_cases hl : line = ""
    · simp [hl]
    · simp [hl, List.filter_cons]

theorem fdStep_eq (sys : Sys) (f : Finder) (state : List String × List Event)
    (scanPath : String) :
    fdStep sys f state scanPath =
      (state.1 ++ rootContribution sys (fun root => sys.output (fdCommand f root)) scanPath,
        state.2 ++ [Event.run (fdCommand f scanPath)]) := by
  unfold fdStep rootContribution
  cases h : sys.output (fdCommand f scanPath) with
  | error e => simp [h]
  | ok out => simp [h, appendProjectDirs_eq]

theorem findStep_eq (sys : Sys) (f : Finder) (state : List String × List Event)
    (scanPath : String) :
    findStep sys f state scanPath =
      (state.1 ++ rootContribution sys (fun root => sys.output (findCommand f root)) scanPath,
        state.2 ++ [Event.run (findCommand f scanPath)]) := by
  unfold findStep rootContribution
  cases h : sys.output (findCommand f scanPath) with
  | error e => simp [h]
  | ok out => simp [h, appendProjectDirs_eq]

/-- A loop that appends a contribution and an event per root collects the
contributions and the events in the order of the roots. -/
theorem foldl_collect (step : List String × List Event → String → List String × List Event)
    (contribution : String → List String) (event : String → Event)
    (hstep : ∀ state root,
      step state root = (state.1 ++ contribution root, state.2 ++ [event root]))
    (roots : List String) :
    ∀ state : List String × List Event,
      roots.foldl step state =
        (state.1 ++ roots.flatMap contribution, state.2 ++ roots.map event) := by
  induction roots with
  | nil => intro state; simp
  | cons root rest ih =>
    intro state
    rw [List.foldl_cons, ih, hstep]
    simp [List.flatMap_cons]

theorem findWithFd_eq (sys : Sys) (f : Finder) :
    f.findWithFd sys =
      ((f.scanPaths.flatMap (rootContribution sys (fun root => sys.output (fdCommand f root))),
          none),
        f.scanPaths.map (fun root => Event.run (fdCommand f root))) := by
  unfold Finder.findWithFd
  rw [foldl_collect (fdStep sys f) _ (fun root => Event.run (fdCommand f root))
    (fdStep_eq sys f)]
  simp

theorem findWithFind_eq (sys : Sys) (f : Finder) :
    f.findWithFind sys =
      ((f.scanPaths.flatMap
          (rootContribution sys (fun root => sys.output (findCommand f root))), none),
        f.scanPaths.map (fun root => Event.run (findCommand f root))) := by
  unfold Finder.findWithFind
  rw [foldl_collect (findStep sys f) _ (fun root => Event.run (findCommand f root))
    (findStep_eq sys f)]
  simp

theorem mem_rootContribution (sys : Sys) (tool : String → Except GoError String)
    (root p : String) :
    p ∈ rootContribution sys tool root ↔
      ∃ output, tool root = .ok output ∧
        ∃ line ∈ strings.SplitLines (strings.TrimSpace output),
          line ≠ "" ∧ p = sys.dirOf line := by
  unfold rootContribution
  cases h : tool root with
  | error e => simp
  | ok out =>
    simp only [List.mem_map, List.mem_filter, decide_eq_true_eq, Except.ok.injEq,
      exists_eq_left']
    constructor
    · rintro ⟨line, ⟨hmem, hne⟩, rfl⟩
      exact ⟨line, hmem, hne, rfl⟩
    · rintro ⟨line, hmem, hne, rfl⟩
      exact ⟨line, ⟨hmem, hne⟩, rfl⟩

theorem exclude_infix_foldl (patterns : List String) (e : String) (he : e ∈ patterns)
    (arg : String → List String) :
    ∀ args : List String,
      arg e <:+: patterns.foldl (fun args pattern => args ++ arg pattern) args := by
  induction patterns with
  | nil => exact absurd he (List.not_mem_nil e)
  | cons x rest ih =>
    intro args
    rw [List.foldl_cons]
    rcases List.mem_cons.mp he with hx | hrest
    · subst hx
      have hgrow : ∀ (l : List String) (acc : List String),
          arg e <:+: acc → arg e <:+: l.foldl (fun args pattern => args ++ arg pattern) acc := by
        intro l
        induction l with
        | nil => intro acc h; exact h
        | cons y more ihl =>
          intro acc h
          rw [List.foldl_cons]
          exact ihl _ (h.trans (List.prefix_append acc (arg y)).isInfix)
      exact hgrow rest _ ((List.suffix_append args (arg e)).isInfix)
    · exact ih hrest _

end finder

/-- C19.  Per-root failures are non-fatal.  With the search tool seen as the
function from a scan root to the failure or the output text of the command run
for it, the list that `findWithFd` returns, and likewise `findWithFind`, is the
concatenation in scan-root order of the contributions of the roots, and the
error is `nil`.  The contribution of a root whose search fails is empty, that
of a root whose search prints `output` is the list of `filepath.Dir` of the
non-empty lines of `strings.TrimSpace(output)`; so with a failing root anywhere
in the list, the roots before it and the roots after it contribute as they do
without it. -/
theorem findWith_per_root_failures_non_fatal (sys : Sys) (f : finder.Finder) :
    (f.findWithFd sys).1 =
      (f.scanPaths.flatMap
        (finder.rootContribution sys (fun root => sys.output (finder.fdCommand f root))),
        none) ∧
    (f.findWithFind sys).1 =
      (f.scanPaths.flatMap
        (finder.rootContribution sys (fun root => sys.output (finder.findCommand f root))),
        none) ∧
    (∀ (tool : String → Except GoError String) (root : String) (err : GoError),
      tool root = .error err → finder.rootContribution sys tool root = []) ∧
    (∀ (tool : String → Except GoError String) (root output : String),
      tool root = .ok output →
      finder.rootContribution sys tool root =
        ((strings.SplitLines (strings.TrimSpace output)).filter (fun line => line ≠ "")).map
          sys.dirOf) ∧
    (∀ (before after : List String) (root : String) (err : GoError),
      f.scanPaths = before ++ root :: after →
      sys.output (finder.fdCommand f root) = .error err →
      (f.findWithFd sys).1.1 =
        before.flatMap
            (finder.rootContribution sys (fun root => sys.output (finder.fdCommand f root))) ++
          after.flatMap
            (finder.rootContribution sys (fun root => sys.output (finder.fdCommand f root)))) ∧
    (∀ (before after : List String) (root : String) (err : GoError),
      f.scanPaths = before ++ root :: after →
      sys.output (finder.findCommand f root) = .error err →
      (f.findWithFind sys).1.1 =
        before.flatMap
            (finder.rootContribution sys (fun root => sys.output (finder.findCommand f root))) ++
          after.flatMap
            (finder.rootContribution sys
              (fun root => sys.output (finder.findCommand f root)))) := by
  have hfail : ∀ (tool : String → Except GoError String) (root : String) (err : GoError),
      tool root = .error err → finder.rootContribution sys tool root = [] := by
    intro tool root err h
    simp only [finder.rootContribution, h]
  refine ⟨?_, ?_, hfail, ?_, ?_, ?_⟩
  · rw [finder.findWithFd_eq]
  · rw [finder.findWithFind_eq]
  · intro tool root output h
    simp only [finder.rootContribution, h]
  · intro before after root err hroots herr
    rw [finder.findWithFd_eq, hroots]
    simp only [List.flatMap_append, List.flatMap_cons]
    rw [hfail _ root err herr, List.nil_append]
  · intro before after root err hroots herr
    rw [finder.findWithFind_eq, hroots]
    simp only [List.flatMap_append, List.flatMap_cons]
    rw [hfail _ root err herr, List.nil_append]

/-- Witness for C19: on the sample host the search of `/mnt/backup` fails, and
the roots before and after it contribute their projects, with `fd` and with
`find`. -/
theorem findWith_per_root_failures_non_fatal_witness :
    Sample.searchFinder.scanPaths = ["/home/user"] ++ "/mnt/backup" :: ["/srv/code"] ∧
      (Sample.searchHost true).output (finder.fdCommand Sample.searchFinder "/mnt/backup") =
        .error (.text "exit status 1") ∧
      (Sample.searchFinder.findWithFd (Sample.searchHost true)).1 =
        (["/home/user/app", "/home/user/distributed", "/srv/code/site"], none) ∧
      (Sample.searchFinder.findWithFind (Sample.searchHost false)).1 =
        (["/home/user/app", "/srv/code/site"], none) ∧
      (Sample.searchFinder.findWithFd (Sample.searchHost true)).1.1 =
        ["/home/user"].flatMap
            (finder.rootContribution (Sample.searchHost true)
              (fun root => (Sample.searchHost true).output
                (finder.fdCommand Sample.searchFinder root))) ++
          ["/srv/code"].flatMap
            (finder.rootContribution (Sample.searchHost true)
              (fun root => (Sample.searchHost true).output
                (finder.fdCommand Sample.searchFinder root))) :=
  ⟨rfl, rfl, rfl, rfl,
    (findWith_per_root_failures_non_fatal (Sample.searchHost true) Sample.searchFinder).2.2.2.2.1
      ["/home/user"] ["/srv/code"] "/mnt/backup" (.text "exit status 1") rfl rfl⟩

/-- How the exclusion patterns reach the search tools.  For every scan root and
every configured pattern `e`, the command for `fd` carries the arguments
`--exclude e`, the bare pattern, and the command for `find` the arguments
`-not -path *e*`, the pattern between two stars.  When `fd` is found,
`FindProjects` runs exactly the `fd` command of each scan root, in order, and a
path is in its result if and only if it is `filepath.Dir` of a non-empty line of
the trimmed output of one of these commands; when `fd` is not found the same
holds with the `find` commands. -/
theorem FindProjects_exclusion_delegated (sys : Sys) (f : finder.Finder) :
    (∀ root e, e ∈ f.excludePatterns →
      ["--exclude", e] <:+: (finder.fdCommand f root).args ∧
        ["-not", "-path", "*" ++ e ++ "*"] <:+: (finder.findCommand f root).args) ∧
    (∀ fd, sys.lookPath "fd" = .ok fd →
      (f.FindProjects sys).2 =
          Event.lookPath "fd" :: f.scanPaths.map (fun root => Event.run (finder.fdCommand f root)) ∧
        ∀ p, p ∈ (f.FindProjects sys).1.1 ↔
          ∃ root ∈ f.scanPaths, ∃ output,
            sys.output (finder.fdCommand f root) = .ok output ∧
              ∃ line ∈ strings.SplitLines (strings.TrimSpace output),
                line ≠ "" ∧ p = sys.dirOf line) ∧
    (∀ err, sys.lookPath "fd" = .error err →
      (f.FindProjects sys).2 =
          Event.lookPath "fd" ::
            f.scanPaths.map (fun root => Event.run (finder.findCommand f root)) ∧
        ∀ p, p ∈ (f.FindProjects sys).1.1 ↔
          ∃ root ∈ f.scanPaths, ∃ output,
            sys.output (finder.findCommand f root) = .ok output ∧
              ∃ line ∈ strings.SplitLines (strings.TrimSpace output),
                line ≠ "" ∧ p = sys.dirOf line) := by
  refine ⟨?_, ?_, ?_⟩
  · intro root e he
    constructor
    · have h := finder.exclude_infix_foldl f.excludePatterns e he
        (fun pattern => ["--exclude", pattern])
        ["--type", "d", "--hidden", "--absolute-path", "--max-depth", "6", "^.git$"]
      exact h.trans (List.prefix_append _ [root]).isInfix
    · exact finder.exclude_infix_foldl f.excludePatterns e he
        (fun pattern => ["-not", "-path", "*" ++ pattern ++ "*"])
        [root, "-type", "d", "-name", ".git", "-maxdepth", "7"]
  · intro fd hfd
    have hrun : f.FindProjects sys =
        ((f.findWithFd sys).1, Event.lookPath "fd" :: (f.findWithFd sys).2) := by
      simp only [finder.Finder.FindProjects, hfd]
    rw [hrun, finder.findWithFd_eq]
    refine ⟨rfl, fun p => ?_⟩
    simp only [List.mem_flatMap, finder.mem_rootContribution]
  · intro err herr
    have hrun : f.FindProjects sys =
        ((f.findWithFind sys).1, Event.lookPath "fd" :: (f.findWithFind sys).2) := by
      simp only [finder.Finder.FindProjects, herr]
    rw [hrun, finder.findWithFind_eq]
    refine ⟨rfl, fun p => ?_⟩
    simp only [List.mem_flatMap, finder.mem_rootContribution]

/-- C20 does not hold of the code.  The sample finder excludes `dist`, which is a
substring of `/home/user/distributed`.  `findWithFind` hands the pattern to
`find` as `-not -path *dist*`, and on the sample host, where `find` drops the
paths that match, `FindProjects` returns no path with `dist` in it.
`findWithFd` hands the bare pattern to `fd` as `--exclude dist`, which `fd`
takes as a glob on names, and on the same host with `fd` installed
`FindProjects` returns `/home/user/distributed`. -/
theorem FindProjects_fd_returns_excluded_path :
    "dist" ∈ Sample.searchFinder.excludePatterns ∧
      "dist".data <:+: "/home/user/distributed".data ∧
      (["--exclude", "dist"] <:+: (finder.fdCommand Sample.searchFinder "/home/user").args ∧
        ["-not", "-path", "*" ++ "dist" ++ "*"] <:+:
          (finder.findCommand Sample.searchFinder "/home/user").args) ∧
      (Sample.searchFinder.FindProjects (Sample.searchHost true)).1 =
        (["/home/user/app", "/home/user/distributed", "/srv/code/site"], none) ∧
      "/home/user/distributed" ∈
        (Sample.searchFinder.FindProjects (Sample.searchHost true)).1.1 ∧
      (Sample.searchFinder.FindProjects (Sample.searchHost false)).1 =
        (["/home/user/app", "/srv/code/site"], none) ∧
      (∀ p ∈ (Sample.searchFinder.FindProjects (Sample.searchHost false)).1.1,
        ¬ ("dist".data <:+: p.data)) :=
  ⟨by decide, ⟨"/home/user/".data, "ributed".data, rfl⟩,
    (FindProjects_exclusion_delegated (Sample.searchHost true) Sample.searchFinder).1
      "/home/user" "dist" (by decide),
    rfl, by decide, rfl, by decide⟩

/-! ## The selection state machine: what `Done` implies -/

namespace ui

theorem createProjectList_items (m : Model) (projects : List String) (l : ListModel)
    (h : m.createProjectList projects = some l) :
    l.visible = l.items ∧ ∀ x ∈ l.items, x.desc ∈ projects := by
  unfold Model.createProjectList at h
  cases projects with
  | nil =>
    simp only [Option.map_some', Option.some.injEq] at h
    subst h
    exact ⟨rfl, fun x hx => absurd hx (List.not_mem_nil x)⟩
  | cons p ps =>
    cases hs : m.cfg.ScanPaths with
    | nil => simp [hs] at h
    | cons home rest =>
      simp only [hs, Option.map_some', Option.some.injEq] at h
      subst h
      refine ⟨rfl, fun x hx => ?_⟩
      simp only [newList, List.mem_map] at hx
      obtain ⟨q, hq, rfl⟩ := hx
      exact hq

theorem requestsLayouts_none : requestsLayouts none = false := rfl

theorem Consistent_of_frame (m m' : Model) (lreq : Bool) (h : m.Consistent lreq)
    (hpath : m'.selectedPath = m.selectedPath) (hlayout : m'.selectedLayout = m.selectedLayout)
    (hstep : m'.step = m.step) (hpl : m'.projectList = m.projectList)
    (hll : m'.layoutList = m.layoutList) : m'.Consistent lreq :=
  { requested := fun hr => hpath ▸ h.requested hr
    picking := fun hs => hpath ▸ h.picking (hstep ▸ hs)
    done := fun hs => by
      rw [hpath, hlayout]
      exact h.done (hstep ▸ hs)
    projectItems := hpl ▸ h.projectItems
    projectVisible := hpl ▸ h.projectVisible
    layoutItems := hll ▸ h.layoutItems
    layoutVisible := hll ▸ h.layoutVisible }

theorem updateProjectPicker_consistent (W : Widgets) (hW : W.WellBehaved) (m : Model)
    (lreq : Bool) (msg : Msg) (h : m.Consistent lreq) (hstep : m.step = .StepSelectProject) :
    (m.updateProjectPicker W msg).1.model.Consistent
      (lreq || requestsLayouts (m.updateProjectPicker W msg).2) := by
  have hdelegate : (msg ≠ .key "enter" ∨ m.projectList.SelectedItem = none) →
      (m.updateProjectPicker W msg).1.model.Consistent
        (lreq || requestsLayouts (m.updateProjectPicker W msg).2) := by
    intro hd
    rw [updateProjectPicker_delegate W m msg hd]
    simp only [(hW.list_cmd m.projectList msg).2, Bool.or_false, TeaModel.model]
    exact
      { requested := h.requested
        picking := fun hs => by rw [hstep] at hs; exact Step.noConfusion hs
        done := fun hs => by rw [hstep] at hs; exact Step.noConfusion hs
        projectItems := by
          intro x hx
          rw [hW.list_items] at hx
          exact h.projectItems x hx
        projectVisible := fun x hx =>
          (hW.list_visible _ _ x hx).elim (h.projectItems x) (h.projectVisible x)
        layoutItems := h.layoutItems
        layoutVisible := h.layoutVisible }
  by_cases hmsg : msg = .key "enter"
  · cases hsel : m.projectList.SelectedItem with
    | none => exact hdelegate (Or.inr hsel)
    | some item =>
      subst hmsg
      rw [updateProjectPicker_enter_some W m item hsel]
      have hitem : item ∈ m.projectList.visible := List.get?_mem hsel
      have hdesc : item.desc ≠ "" := h.projectVisible item hitem
      exact
        { requested := fun _ => hdesc
          picking := fun hs => Step.noConfusion hs
          done := fun hs => Step.noConfusion hs
          projectItems := h.projectItems
          projectVisible := h.projectVisible
          layoutItems := h.layoutItems
          layoutVisible := h.layoutVisible }
  · exact hdelegate (Or.inl hmsg)

theorem updateLayoutPicker_consistent (W : Widgets) (hW : W.WellBehaved) (m : Model)
    (lreq : Bool) (msg : Msg) (h : m.Consistent lreq) (hstep : m.step = .StepSelectLayout) :
    (m.updateLayoutPicker W msg).1.model.Consistent
      (lreq || requestsLayouts (m.updateLayoutPicker W msg).2) := by
  have hpath : m.selectedPath ≠ "" := h.picking hstep
  have hdelegate : (msg ≠ .key "enter" ∨ m.layoutList.SelectedItem = none) →
      (m.updateLayoutPicker W msg).1.model.Consistent
        (lreq || requestsLayouts (m.updateLayoutPicker W msg).2) := by
    intro hd
    rw [updateLayoutPicker_delegate W m msg hd]
    simp only [(hW.list_cmd m.layoutList msg).2, Bool.or_false, TeaModel.model]
    exact
      { requested := h.requested
        picking := fun _ => hpath
        done := fun hs => by rw [hstep] at hs; exact Step.noConfusion hs
        projectItems := h.projectItems
        projectVisible := h.projectVisible
        layoutItems := by
          intro x hx
          rw [hW.list_items] at hx
          exact h.layoutItems x hx
        layoutVisible := fun x hx =>
          (hW.list_visible _ _ x hx).elim (h.layoutItems x) (h.layoutVisible x) }
  by_cases hmsg : msg = .key "enter"
  · cases hsel : m.layoutList.SelectedItem with
    | none => exact hdelegate (Or.inr hsel)
    | some item =>
      subst hmsg
      rw [updateLayoutPicker_enter_some W m item hsel]
      have hitem : item ∈ m.layoutList.visible := List.get?_mem hsel
      have htitle : item.title ≠ "" := h.layoutVisible item hitem
      exact
        { requested := fun _ => hpath
          picking := fun _ => hpath
          done := fun _ => ⟨hpath, htitle⟩
          projectItems := h.projectItems
          projectVisible := h.projectVisible
          layoutItems := h.layoutItems
          layoutVisible := h.layoutVisible }
  · exact hdelegate (Or.inl hmsg)

theorem dispatchStep_consistent (W : Widgets) (hW : W.WellBehaved) (m : Model)
    (lreq : Bool) (msg : Msg) (h : m.Consistent lreq) :
    (m.dispatchStep W msg).1.model.Consistent
      (lreq || requestsLayouts (m.dispatchStep W msg).2) := by
  unfold Model.dispatchStep
  cases hstep : m.step with
  | StepLoading =>
    simp only [requestsLayouts_none, Bool.or_false, TeaModel.model]
    exact h
  | StepSelectProject => exact updateProjectPicker_consistent W hW m lreq msg h hstep
  | StepSelectLayout => exact updateLayoutPicker_consistent W hW m lreq msg h hstep
  | StepDone =>
    simp only [requestsLayouts_none, Bool.or_false, TeaModel.model]
    exact h

theorem Update_consistent (W : Widgets) (hW : W.WellBehaved) (m : Model) (lreq : Bool)
    (msg : Msg) (h : m.Consistent lreq)
    (hprojects : ∀ projects, msg = .projectsLoaded projects → ∀ p ∈ projects, p ≠ "")
    (hlayouts : ∀ layouts, msg = .layoutsLoaded layouts →
      lreq = true ∧ ∀ l ∈ layouts, l.Name ≠ "")
    (res : TeaModel × Option Cmd) (hres : m.Update W msg = some res) :
    res.1.model.Consistent (lreq || requestsLayouts res.2) := by
  cases msg with
  | windowSize w ht =>
    simp only [Model.Update, Option.some.injEq] at hres
    subst hres
    simp only [requestsLayouts_none, Bool.or_false, TeaModel.model]
    exact Consistent_of_frame m _ lreq h rfl rfl rfl rfl rfl
  | key k =>
    simp only [Model.Update] at hres
    split at hres
    · have hq := (Option.some.inj hres).symm
      subst hq
      have hquit : requestsLayouts (some Cmd.quit) = false := rfl
      simp only [hquit, Bool.or_false, TeaModel.model]
      exact Consistent_of_frame m _ lreq h rfl rfl rfl rfl rfl
    · have hq := (Option.some.inj hres).symm
      subst hq
      exact dispatchStep_consistent W hW m lreq _ h
  | spinnerTick t =>
    simp only [Model.Update, Option.some.injEq] at hres
    subst hres
    simp only [(hW.spinner_cmd m.spinner (.spinnerTick t)).2, Bool.or_false, TeaModel.model]
    exact Consistent_of_frame m _ lreq h rfl rfl rfl rfl rfl
  | projectsLoaded ps =>
    simp only [Model.Update] at hres
    split at hres
    · exact absurd hres (by simp)
    · rename_i l hl
      have hq := (Option.some.inj hres).symm
      subst hq
      simp only [requestsLayouts_none, Bool.or_false, TeaModel.model]
      have hitems := createProjectList_items _ ps l hl
      have hdesc : ∀ x ∈ l.items, x.desc ≠ "" :=
        fun x hx => hprojects ps rfl x.desc (hitems.2 x hx)
      exact
        { requested := h.requested
          picking := fun hs => Step.noConfusion hs
          done := fun hs => Step.noConfusion hs
          projectItems := hdesc
          projectVisible := by
            intro x hx
            have hx2 : x ∈ l.visible := hx
            rw [hitems.1] at hx2
            exact hdesc x hx2
          layoutItems := h.layoutItems
          layoutVisible := h.layoutVisible }
  | layoutsLoaded ls =>
    simp only [Model.Update, Option.some.injEq] at hres
    subst hres
    simp only [requestsLayouts_none, Bool.or_false, TeaModel.model]
    have hpath : m.selectedPath ≠ "" := h.requested (hlayouts ls rfl).1
    have htitle : ∀ x ∈ ls.map (fun l => ({ title := l.Name, desc := l.Path } : Item)),
        x.title ≠ "" := by
      intro x hx
      obtain ⟨l, hl, rfl⟩ := List.mem_map.mp hx
      exact (hlayouts ls rfl).2 l hl
    exact
      { requested := fun _ => hpath
        picking := fun _ => hpath
        done := fun hs => Step.noConfusion hs
        projectItems := h.projectItems
        projectVisible := h.projectVisible
        layoutItems := htitle
        layoutVisible := htitle }
  | errMsg e =>
    simp only [Model.Update, Option.some.injEq] at hres
    subst hres
    have hquit : requestsLayouts (some Cmd.quit) = false := rfl
    simp only [hquit, Bool.or_false, TeaModel.model]
    exact Consistent_of_frame m _ lreq h rfl rfl rfl rfl rfl
  | other t =>
    simp only [Model.Update, Option.some.injEq] at hres
    subst hres
    exact dispatchStep_consistent W hW m lreq _ h

theorem start_consistent (cfg : config.Config) (preselectedPath preselectedLayout : String) :
    (Runtime.start (NewModel cfg preselectedPath preselectedLayout)).model.model.Consistent
      (Runtime.start (NewModel cfg preselectedPath preselectedLayout)).layoutsRequested := by
  have hzero : ∀ x : Item, x ∉ ListModel.zero.items := fun x hx => absurd hx (List.not_mem_nil x)
  by_cases hp : preselectedPath = ""
  · subst hp
    have hm : NewModel cfg "" preselectedLayout =
        { cfg := cfg, step := .StepLoading, projectList := ListModel.zero,
          layoutList := ListModel.zero, spinner := { frame := 0, tag := 0 },
          textInput := { placeholder := "Search...", focused := true },
          selectedPath := "", selectedLayout := preselectedLayout,
          projects := [], layouts := [], err := none, quitting := false,
          width := 80, height := 24 } := by
      simp [NewModel]
    rw [hm]
    exact
      { requested := fun hr => Bool.noConfusion hr
        picking := fun hs => Step.noConfusion hs
        done := fun hs => Step.noConfusion hs
        projectItems := fun x hx => absurd hx (hzero x)
        projectVisible := fun x hx => absurd hx (hzero x)
        layoutItems := fun x hx => absurd hx (hzero x)
        layoutVisible := fun x hx => absurd hx (hzero x) }
  · by_cases hl : preselectedLayout = ""
    · subst hl
      have hm : NewModel cfg preselectedPath "" =
          { cfg := cfg, step := .StepLoading, projectList := ListModel.zero,
            layoutList := ListModel.zero, spinner := { frame := 0, tag := 0 },
            textInput := { placeholder := "Search...", focused := true },
            selectedPath := preselectedPath, selectedLayout := "",
            projects := [], layouts := [], err := none, quitting := false,
            width := 80, height := 24 } := by
        simp [NewModel, hp]
      rw [hm]
      exact
        { requested := fun _ => hp
          picking := fun _ => hp
          done := fun hs => Step.noConfusion hs
          projectItems := fun x hx => absurd hx (hzero x)
          projectVisible := fun x hx => absurd hx (hzero x)
          layoutItems := fun x hx => absurd hx (hzero x)
          layoutVisible := fun x hx => absurd hx (hzero x) }
    · have hm : NewModel cfg preselectedPath preselectedLayout =
          { cfg := cfg, step := .StepDone, projectList := ListModel.zero,
            layoutList := ListModel.zero, spinner := { frame := 0, tag := 0 },
            textInput := { placeholder := "Search...", focused := true },
            selectedPath := preselectedPath, selectedLayout := preselectedLayout,
            projects := [], layouts := [], err := none, quitting := false,
            width := 80, height := 24 } := by
        simp [NewModel, hp, hl]
      rw [hm]
      exact
        { requested := fun _ => hp
          picking := fun _ => hp
          done := fun _ => ⟨hp, hl⟩
          projectItems := fun x hx => absurd hx (hzero x)
          projectVisible := fun x hx => absurd hx (hzero x)
          layoutItems := fun x hx => absurd hx (hzero x)
          layoutVisible := fun x hx => absurd hx (hzero x) }

theorem Reachable_consistent (W : Widgets) (hW : W.WellBehaved) (cfg : config.Config)
    (preselectedPath preselectedLayout : String) (r : Runtime)
    (hr : Runtime.Reachable W (NewModel cfg preselectedPath preselectedLayout) r) :
    r.model.model.Consistent r.layoutsRequested := by
  induction hr with
  | start => exact start_consistent cfg preselectedPath preselectedLayout
  | @deliver r1 r2 msg _ hadm hstep ih =>
    unfold Runtime.step at hstep
    cases hupd : r1.model.model.Update W msg with
    | none => simp [hupd] at hstep
    | some res =>
      simp only [hupd, Option.some.injEq] at hstep
      subst hstep
      refine Update_consistent W hW _ _ msg ih ?_ ?_ res hupd
      · intro ps hmsg
        subst hmsg
        exact hadm.2
      · intro ls hmsg
        subst hmsg
        exact hadm

end ui

namespace Sample

theorem widgets_wellBehaved : widgets.WellBehaved :=
  { list_items := fun _ _ => rfl
    list_visible := fun _ _ _ hx => Or.inr hx
    list_cmd := fun _ _ => ⟨rfl, rfl⟩
    spinner_cmd := fun _ _ => ⟨rfl, rfl⟩ }

end Sample

namespace Sample

/-- The run without flags that ends in `finished`: the projects are discovered,
`enter` confirms the first, the layouts are discovered, `enter` confirms the
first. -/
theorem finished_reachable :
    ui.Runtime.Reachable widgets (ui.NewModel cfg "" "") finished := by
  have h0 : ui.Runtime.Reachable widgets (ui.NewModel cfg "" "")
      (ui.Runtime.start (ui.NewModel cfg "" "")) := ui.Runtime.Reachable.start
  have h1 : ui.Runtime.Reachable widgets (ui.NewModel cfg "" "")
      { model := .value pickingProject, projectsRequested := true, layoutsRequested := false } :=
    ui.Runtime.Reachable.deliver (.projectsLoaded ["/home/user/app", "/home/user/site"]) h0
      ⟨rfl, by decide⟩ rfl
  have h2 : ui.Runtime.Reachable widgets (ui.NewModel cfg "" "")
      { model := .pointer { pickingProject with
          selectedPath := "/home/user/app", step := .StepLoading },
        projectsRequested := true, layoutsRequested := true } :=
    ui.Runtime.Reachable.deliver (.key "enter") h1 trivial rfl
  have h3 : ui.Runtime.Reachable widgets (ui.NewModel cfg "" "")
      { model := .value pickingLayout, projectsRequested := true, layoutsRequested := true } :=
    ui.Runtime.Reachable.deliver (.layoutsLoaded layouts) h2 ⟨rfl, by decide⟩ rfl
  exact ui.Runtime.Reachable.deliver (.key "enter") h3 trivial rfl

end Sample

/-- C13, as stated, fails: from the model that `NewModel` makes without flags,
the two messages `layoutsLoadedMsg` and `enter` applied through `Update` give a
model in step `Done` whose `selectedPath` is empty. -/
theorem Done_with_empty_path_counterexample :
    (ui.runMsgs Sample.widgets (.value (ui.NewModel Sample.cfg "" ""))
        [.layoutsLoaded Sample.layouts, .key "enter"]).map
      (fun tm => (tm.model.step, tm.model.selectedPath, tm.model.selectedLayout)) =
      some (.StepDone, "", "nvim-claude") :=
  rfl

/-- C13, amended.  In a run of the runtime, `Done` is reached only with both a
project and a layout set.  The widgets keep the items of a list, show only
items the list holds or showed, and return no discovery command; the run starts
with `Init` on a model that `NewModel` made; a `projectsLoadedMsg` is delivered
only after `Init` or `Update` returned the project discovery command and carries
no empty path, a `layoutsLoadedMsg` only after the layout discovery command was
returned and carries no empty name; every other message may come at any time.
Then every model of the run with `step = Done` has `selectedPath ≠ ""` and
`selectedLayout ≠ ""`. -/
theorem Done_has_both_selections (W : ui.Widgets) (hW : W.WellBehaved)
    (cfg : config.Config) (preselectedPath preselectedLayout : String) (r : ui.Runtime)
    (hr : ui.Runtime.Reachable W (ui.NewModel cfg preselectedPath preselectedLayout) r)
    (hdone : r.model.model.step = .StepDone) :
    r.model.model.selectedPath ≠ "" ∧ r.model.model.selectedLayout ≠ "" :=
  (ui.Reachable_consistent W hW cfg preselectedPath preselectedLayout r hr).done hdone

/-- Witness for C13: the sample run that confirms `/home/user/app` and then
`nvim-claude` ends in `Done` with both set. -/
theorem Done_has_both_selections_witness :
    Sample.finished.model.model.step = .StepDone ∧
      Sample.finished.model.model.selectedPath = "/home/user/app" ∧
      Sample.finished.model.model.selectedLayout = "nvim-claude" ∧
      (Sample.finished.model.model.selectedPath ≠ "" ∧
        Sample.finished.model.model.selectedLayout ≠ "") :=
  ⟨rfl, rfl, rfl,
    Done_has_both_selections Sample.widgets Sample.widgets_wellBehaved Sample.cfg "" ""
      Sample.finished Sample.finished_reachable rfl⟩

/-! ## Slugify: the shape of a slug -/

namespace tmux

theorem chain_replaceHyphenRuns (l : List Char) :
    ∀ inMatch : Bool,
      List.Chain' Reference.notBothHyphens (replaceHyphenRuns inMatch l) ∧
        (inMatch = true → (replaceHyphenRuns inMatch l).head? ≠ some '-') := by
  induction l with
  | nil =>
    intro inMatch
    simp [replaceHyphenRuns]
  | cons c rest ih =>
    intro inMatch
    unfold replaceHyphenRuns
    by_cases hc : c = '-'
    · simp only [hc, if_true]
      cases inMatch with
      | true =>
        simp only [if_true]
        exact ⟨(ih true).1, fun _ => (ih true).2 rfl⟩
      | false =>
        simp only [Bool.false_eq_true, if_false]
        refine ⟨List.Chain'.cons' (ih true).1 ?_, fun h => h.elim⟩
        intro y hy h
        exact (ih true).2 rfl (by rw [Option.mem_def.mp hy, h.2])
    · simp only [hc, if_false]
      refine ⟨List.Chain'.cons' (ih false).1 ?_, fun _ => ?_⟩
      · intro y _ h
        exact hc h.1
      · simp only [List.head?_cons]
        intro h
        exact hc (Option.some.inj h)

theorem head?_dropWhile_hyphen (s : List Char) :
    (s.dropWhile (fun r => r == '-')).head? ≠ some '-' := by
  induction s with
  | nil => simp
  | cons c rest ih =>
    by_cases hc : c = '-'
    · simp only [List.dropWhile_cons, hc, beq_self_eq_true, if_true]
      exact ih
    · have hb : (c == '-') = false := by simp [hc]
      simp only [List.dropWhile_cons, hb, Bool.false_eq_true, if_false, List.head?_cons]
      intro h
      exact hc (Option.some.inj h)

theorem getLast?_trimRightByte (s : List Char) : (trimRightByte s '-').getLast? ≠ some '-' := by
  unfold trimRightByte
  rw [List.getLast?_reverse]
  exact head?_dropWhile_hyphen _

theorem getLast?_dropWhile_of_ne_nil (p : Char → Bool) (s : List Char)
    (h : s.dropWhile p ≠ []) : (s.dropWhile p).getLast? = s.getLast? := by
  have hsplit := List.takeWhile_append_dropWhile p s
  conv_rhs => rw [← hsplit]
  rw [List.getLast?_append_of_ne_nil _ h]

/-- The slug before the fallback: hyphen runs collapsed, hyphens trimmed. -/
theorem trimByte_shape (s : List Char) (hs : List.Chain' Reference.notBothHyphens s) :
    List.Chain' Reference.notBothHyphens (trimByte s '-') ∧
      (trimByte s '-').head? ≠ some '-' ∧ (trimByte s '-').getLast? ≠ some '-' := by
  refine ⟨?_, ?_, ?_⟩
  · unfold trimByte trimLeftByte
    have h1 : List.Chain' Reference.notBothHyphens (trimRightByte s '-') := by
      unfold trimRightByte
      exact hs.prefix (List.rdropWhile_prefix _ s)
    exact h1.suffix (List.dropWhile_suffix _)
  · unfold trimByte trimLeftByte
    exact head?_dropWhile_hyphen _
  · unfold trimByte trimLeftByte
    by_cases hn : (trimRightByte s '-').dropWhile (fun r => r == '-') = []
    · rw [hn]
      simp
    · rw [getLast?_dropWhile_of_ne_nil _ _ hn]
      exact getLast?_trimRightByte s

theorem slugifyRunes_shape (unicodeLower : Char → Char) (p : List Char) :
    List.Chain' Reference.notBothHyphens (slugifyRunes unicodeLower p) ∧
      (slugifyRunes unicodeLower p).head? ≠ some '-' ∧
      (slugifyRunes unicodeLower p).getLast? ≠ some '-' := by
  unfold slugifyRunes
  simp only
  split
  · refine ⟨?_, by decide, by decide⟩
    unfold Reference.notBothHyphens
    simp [String.data]
  · exact trimByte_shape _ (chain_replaceHyphenRuns _ false).1

theorem not_infix_of_chain (s : List Char) (hs : List.Chain' Reference.notBothHyphens s) :
    ¬ (['-', '-'] <:+: s) := by
  intro h
  have h2 : List.Chain' Reference.notBothHyphens ['-', '-'] := hs.infix h
  have h3 : Reference.notBothHyphens '-' '-' := by
    simpa using h2
  exact h3 ⟨rfl, rfl⟩

/-! ### A slug is a fixed point -/

theorem toNat_of_isSlugRune {c : Char} (h : isSlugRune c = true) :
    (97 ≤ c.toNat ∧ c.toNat ≤ 122) ∨ (48 ≤ c.toNat ∧ c.toNat ≤ 57) ∨ c = '-' := by
  unfold isSlugRune at h
  simp only [Bool.or_eq_true, Bool.and_eq_true, decide_eq_true_eq, beq_iff_eq] at h
  rcases h with (h | h) | h
  · exact Or.inl h
  · exact Or.inr (Or.inl h)
  · exact Or.inr (Or.inr h)

theorem toLowerRune_of_isSlugRune (unicodeLower : Char → Char) {c : Char}
    (h : isSlugRune c = true) : toLowerRune unicodeLower c = c := by
  unfold toLowerRune
  have h65 : 'A'.toNat = 65 := rfl
  have h90 : 'Z'.toNat = 90 := rfl
  rcases toNat_of_isSlugRune h with h1 | h1 | h1
  · have hlt : c.toNat < 128 := by omega
    have hup : ¬('A'.toNat ≤ c.toNat ∧ c.toNat ≤ 'Z'.toNat) := by
      rw [h65, h90]; omega
    simp only [hlt, if_true, hup, if_false]
  · have hlt : c.toNat < 128 := by omega
    have hup : ¬('A'.toNat ≤ c.toNat ∧ c.toNat ≤ 'Z'.toNat) := by
      rw [h65, h90]; omega
    simp only [hlt, if_true, hup, if_false]
  · subst h1
    rfl

theorem ne_of_isSlugRune {c d : Char} (h : isSlugRune c = true) (hd : isSlugRune d = false) :
    c ≠ d := by
  intro hcd
  rw [hcd, hd] at h
  exact Bool.noConfusion h

theorem replaceHyphenRuns_of_chain (s : List Char) :
    ∀ inMatch : Bool, List.Chain' Reference.notBothHyphens s →
      (inMatch = true → s.head? ≠ some '-') → replaceHyphenRuns inMatch s = s := by
  induction s with
  | nil => intro inMatch _ _; rfl
  | cons c rest ih =>
    intro inMatch hchain hhead
    unfold replaceHyphenRuns
    have hrest : List.Chain' Reference.notBothHyphens rest := hchain.tail
    by_cases hc : c = '-'
    · subst hc
      have hin : inMatch = false := by
        cases inMatch with
        | false => rfl
        | true => exact absurd rfl (hhead rfl)
      subst hin
      simp only [if_true, Bool.false_eq_true, if_false]
      rw [ih true hrest]
      intro _ h
      cases rest with
      | nil => simp at h
      | cons d more =>
        simp only [List.head?_cons, Option.some.injEq] at h
        have hrel : Reference.notBothHyphens '-' d := List.Chain'.rel_head hchain
        exact hrel ⟨rfl, h⟩
    · simp only [hc, if_false]
      rw [ih false hrest (fun h => Bool.noConfusion h)]

theorem trimByte_of_shape (s : List Char) (hhead : s.head? ≠ some '-')
    (hlast : s.getLast? ≠ some '-') : trimByte s '-' = s := by
  have hright : trimRightByte s '-' = s := by
    unfold trimRightByte
    have hrev : s.reverse.dropWhile (fun r => r == '-') = s.reverse := by
      cases hr : s.reverse with
      | nil => rfl
      | cons c rest =>
        have hl : s.getLast? = some c := by
          rw [← List.head?_reverse, hr]
          rfl
        have hc : c ≠ '-' := fun h => hlast (by rw [hl, h])
        have hb : (c == '-') = false := by simp [hc]
        simp only [List.dropWhile_cons, hb, Bool.false_eq_true, if_false]
    rw [hrev, List.reverse_reverse]
  unfold trimByte trimLeftByte
  rw [hright]
  cases s with
  | nil => rfl
  | cons c rest =>
    have hc : c ≠ '-' := fun h => hhead (by rw [h]; rfl)
    have hb : (c == '-') = false := by simp [hc]
    simp only [List.dropWhile_cons, hb, Bool.false_eq_true, if_false]

/-- A rune sequence with the shape of a slug is what `Slugify` returns for it. -/
theorem slugifyRunes_of_slug (unicodeLower : Char → Char) (s : List Char) (hne : s ≠ [])
    (hrunes : ∀ c ∈ s, isSlugRune c = true) (hchain : List.Chain' Reference.notBothHyphens s)
    (hhead : s.head? ≠ some '-') (hlast : s.getLast? ≠ some '-') :
    slugifyRunes unicodeLower s = s := by
  have hslash : isSlugRune '/' = false := by decide
  have hsep : '/' ∉ s := fun h => ne_of_isSlugRune (hrunes '/' h) hslash rfl
  have hbase : filepath.baseRunes s = s := by
    unfold filepath.baseRunes
    have hl := filepath.lastOfStripped_of_no_sep s hsep
    unfold filepath.lastOfStripped at hl
    simp only [hne, if_false, hl]
  have hlower : s.map (toLowerRune unicodeLower) = s := by
    conv_rhs => rw [← List.map_id s]
    exact List.map_congr_left (fun c hc => toLowerRune_of_isSlugRune unicodeLower (hrunes c hc))
  have hdots : replaceDots s = s := by
    unfold replaceDots
    conv_rhs => rw [← List.map_id s]
    refine List.map_congr_left (fun c hc => ?_)
    have hcd : c ≠ '.' := ne_of_isSlugRune (hrunes c hc) (by decide)
    simp [hcd]
  have hnon : replaceNonSlug s = s := by
    unfold replaceNonSlug
    conv_rhs => rw [← List.map_id s]
    refine List.map_congr_left (fun c hc => ?_)
    simp [hrunes c hc]
  unfold slugifyRunes
  simp only [hbase, hlower, hdots, hnon,
    replaceHyphenRuns_of_chain s false hchain (fun h => Bool.noConfusion h),
    trimByte_of_shape s hhead hlast, hne, if_false]

theorem slugifyRunes_idempotent (unicodeLower : Char → Char) (p : List Char) :
    slugifyRunes unicodeLower (slugifyRunes unicodeLower p) = slugifyRunes unicodeLower p :=
  slugifyRunes_of_slug unicodeLower _ (slugifyRunes_ne_nil unicodeLower p)
    (fun _ hc => isSlugRune_of_mem_slugifyRunes unicodeLower p hc)
    (slugifyRunes_shape unicodeLower p).1 (slugifyRunes_shape unicodeLower p).2.1
    (slugifyRunes_shape unicodeLower p).2.2

end tmux

/-- C23.  For every path and whatever the Unicode case table, the string that
`Slugify` returns does not begin with `-`, does not end with `-`, and has no
two `-` next to each other. -/
theorem Slugify_hyphen_shape (unicodeLower : Char → Char) (p : String) :
    (tmux.Slugify unicodeLower p).data.head? ≠ some '-' ∧
      (tmux.Slugify unicodeLower p).data.getLast? ≠ some '-' ∧
      ¬ (['-', '-'] <:+: (tmux.Slugify unicodeLower p).data) := by
  have h := tmux.slugifyRunes_shape unicodeLower p.data
  exact ⟨h.2.1, h.2.2, tmux.not_infix_of_chain _ h.1⟩

/-- C24.  `Slugify` is a projection: for every path and whatever the Unicode case
table, `Slugify (Slugify p) = Slugify p`. -/
theorem Slugify_idempotent (unicodeLower : Char → Char) (p : String) :
    tmux.Slugify unicodeLower (tmux.Slugify unicodeLower p) = tmux.Slugify unicodeLower p := by
  unfold tmux.Slugify
  exact congrArg String.mk (tmux.slugifyRunes_idempotent unicodeLower p.data)

/-! ## Attaching -/

/-- C21.  Attach selection.  For every session name `s`: when `exec.LookPath`
finds tmux at `tmuxPath`, `AttachToSession` makes exactly one call of
`syscall.Exec`, on `tmuxPath` with the environment of the process, and its argv
is `tmux switch-client -t s` if and only if the variable `TMUX` is not empty,
and `tmux attach -t s` otherwise; the process is replaced when that call
succeeds, and the error of the call is returned when it fails.  When tmux is
not found, the error of the lookup is returned and `syscall.Exec` is not
called. -/
theorem AttachToSession_selection (sys : Sys) (m : tmux.Manager) (s : String) :
    (∀ tmuxPath, sys.lookPath "tmux" = .ok tmuxPath →
      (∃ argv,
        (m.AttachToSession sys s).2 =
          [Event.enter (.AttachToSession s), Event.lookPath "tmux",
            Event.execve tmuxPath argv sys.environ] ∧
        (argv = ["tmux", "switch-client", "-t", s] ↔ sys.getenv "TMUX" ≠ "") ∧
        (argv = ["tmux", "attach", "-t", s] ↔ sys.getenv "TMUX" = "") ∧
        (sys.execve tmuxPath argv sys.environ = none →
          (m.AttachToSession sys s).1 = .replaced) ∧
        (∀ err, sys.execve tmuxPath argv sys.environ = some err →
          (m.AttachToSession sys s).1 = .returned (some err)))) ∧
    (∀ err, sys.lookPath "tmux" = .error err →
      m.AttachToSession sys s =
        (.returned (some err), [Event.enter (.AttachToSession s), Event.lookPath "tmux"])) := by
  constructor
  · intro tmuxPath hpath
    by_cases henv : sys.getenv "TMUX" = ""
    · refine ⟨["tmux", "attach", "-t", s], ?_, ?_, ?_, ?_, ?_⟩
      · simp only [tmux.Manager.AttachToSession, hpath, henv, tmux.syscallExec]
        cases sys.execve tmuxPath ["tmux", "attach", "-t", s] sys.environ <;> simp [henv]
      · simp [henv]
      · simp [henv]
      · intro hx
        simp [tmux.Manager.AttachToSession, hpath, henv, tmux.syscallExec, hx]
      · intro err hx
        simp [tmux.Manager.AttachToSession, hpath, henv, tmux.syscallExec, hx]
    · refine ⟨["tmux", "switch-client", "-t", s], ?_, ?_, ?_, ?_, ?_⟩
      · simp only [tmux.Manager.AttachToSession, hpath, henv, tmux.syscallExec]
        cases sys.execve tmuxPath ["tmux", "switch-client", "-t", s] sys.environ <;> simp [henv]
      · simp [henv]
      · simp [henv]
      · intro hx
        simp [tmux.Manager.AttachToSession, hpath, henv, tmux.syscallExec, hx]
      · intro err hx
        simp [tmux.Manager.AttachToSession, hpath, henv, tmux.syscallExec, hx]
  · intro err herr
    simp only [tmux.Manager.AttachToSession, herr]

/-- Witness for C21: on the sample host, inside tmux the process becomes
`tmux switch-client -t app`, and outside tmux `tmux attach -t app`. -/
theorem AttachToSession_selection_witness :
    ((tmux.NewManager "tmux attach -t").AttachToSession (Sample.host ["app"] true true) "app" =
        (.replaced,
          [Event.enter (.AttachToSession "app"), Event.lookPath "tmux",
            Event.execve "/usr/bin/tmux" ["tmux", "switch-client", "-t", "app"]
              ["HOME=/home/user"]])) ∧
      ((tmux.NewManager "tmux attach -t").AttachToSession (Sample.host ["app"] true false)
          "app" =
        (.replaced,
          [Event.enter (.AttachToSession "app"), Event.lookPath "tmux",
            Event.execve "/usr/bin/tmux" ["tmux", "attach", "-t", "app"]
              ["HOME=/home/user"]])) ∧
      ∃ argv,
        ((tmux.NewManager "tmux attach -t").AttachToSession
            (Sample.host ["app"] true true) "app").2 =
          [Event.enter (.AttachToSession "app"), Event.lookPath "tmux",
            Event.execve "/usr/bin/tmux" argv (Sample.host ["app"] true true).environ] ∧
        (argv = ["tmux", "switch-client", "-t", "app"] ↔
          (Sample.host ["app"] true true).getenv "TMUX" ≠ "") :=
  ⟨rfl, rfl,
    ((AttachToSession_selection (Sample.host ["app"] true true)
      (tmux.NewManager "tmux attach -t") "app").1 "/usr/bin/tmux" rfl).imp
      (fun _ h => ⟨h.1, h.2.1⟩)⟩

/-- C27.  The configured attach command has no effect on what is executed.  For
every host and every two attach command strings, the managers built with them
give the same result and the same trace (the same commands with the same
arguments, the same `syscall.Exec`) in `SessionExists`, in `CreateSession` and
in `AttachToSession`; and `launchSession` gives the same outcome and trace for
two configurations that differ in the attach command only. -/
theorem attachCommand_has_no_effect (sys : Sys) (first second : String)
    (sessionName layoutPath projectPath projectName : String) :
    (tmux.NewManager first).SessionExists sys sessionName =
        (tmux.NewManager second).SessionExists sys sessionName ∧
      (tmux.NewManager first).CreateSession sys layoutPath projectPath sessionName projectName =
        (tmux.NewManager second).CreateSession sys layoutPath projectPath sessionName
          projectName ∧
      (tmux.NewManager first).AttachToSession sys sessionName =
        (tmux.NewManager second).AttachToSession sys sessionName ∧
      ∀ (cfg : config.Config) (layoutName : String),
        launchSession sys { cfg with Tmux := { AttachCommand := first } } projectPath layoutName =
          launchSession sys { cfg with Tmux := { AttachCommand := second } } projectPath
            layoutName :=
  ⟨rfl, rfl, rfl, fun _ _ => rfl⟩

/-! ## The model that `main` gets back -/

/-- C22 does not hold of the code.  In the run without flags on the sample
configuration, the projects are discovered, `enter` confirms the first, the
layouts are discovered and `enter` confirms the first: the `tea.Model` that the
last `Update` returns has dynamic type `*ui.Model`, the type assertion
`finalModel.(ui.Model)` of `main` panics on it, although the model it points to
is in step `Done` with both selections made.  In general, for every model in
one of the two picker steps, `Update` on a key other than the cancel keys, or
on a message of a type it does not know, returns a `*ui.Model`. -/
theorem Update_in_picker_returns_pointer :
    ui.runMsgs Sample.widgets (.value (ui.NewModel Sample.cfg "" ""))
        [.projectsLoaded ["/home/user/app", "/home/user/site"], .key "enter",
          .layoutsLoaded Sample.layouts, .key "enter"] = some Sample.finished.model ∧
      assertModel Sample.finished.model = none ∧
      Sample.finished.model.model.ShouldAttach = true ∧
      ∀ (W : ui.Widgets) (m : ui.Model) (msg : ui.Msg),
        (m.step = .StepSelectProject ∨ m.step = .StepSelectLayout) →
        ((∃ k, msg = .key k ∧ k ≠ "ctrl+c" ∧ k ≠ "esc") ∨ ∃ t, msg = .other t) →
        ∃ r, m.Update W msg = some r ∧ assertModel r.1 = none := by
  refine ⟨rfl, rfl, rfl, ?_⟩
  intro W m msg hstep hmsg
  have hdisp : m.Update W msg = some (m.dispatchStep W msg) := by
    rcases hmsg with ⟨k, rfl, hk⟩ | ⟨t, rfl⟩
    · exact ui.Update_key_other W m k hk
    · rfl
  refine ⟨_, hdisp, ?_⟩
  unfold ui.Model.dispatchStep
  rcases hstep with hs | hs
  · rw [hs]
    simp only
    unfold ui.Model.updateProjectPicker
    split
    · split <;> rfl
    · rfl
  · rw [hs]
    simp only
    unfold ui.Model.updateLayoutPicker
    split
    · split <;> rfl
    · rfl

/-! ## Project discovery as the model sees it -/

/-- C25.  `FindProjects` never returns a non-nil error.  For every host (every
behaviour of `exec.LookPath` and of the search tools), every list of scan roots
and every list of exclusion patterns, the error of `FindProjects`, of
`findWithFd` and of `findWithFind` is `nil`; when the search fails on every
root the result is the empty list and a `nil` error; and the command of
`loadProjects` yields a `projectsLoadedMsg`, with the projects found, never an
`errMsg`. -/
theorem FindProjects_error_nil (sys : Sys) (scanPaths excludePatterns : List String) :
    ((finder.New scanPaths excludePatterns).FindProjects sys).1.2 = none ∧
      ((finder.New scanPaths excludePatterns).findWithFd sys).1.2 = none ∧
      ((finder.New scanPaths excludePatterns).findWithFind sys).1.2 = none ∧
      ((∀ cmd, ∃ err, sys.output cmd = .error err) →
        ((finder.New scanPaths excludePatterns).FindProjects sys).1 = ([], none)) ∧
      ∀ cfg : config.Config,
        (ui.runLoadProjects sys cfg).1 =
            .projectsLoaded
              ((finder.New cfg.ScanPaths cfg.ExcludePatterns).FindProjects sys).1.1 ∧
          ∀ err, (ui.runLoadProjects sys cfg).1 ≠ .errMsg err := by
  have herr : ∀ f : finder.Finder, (f.FindProjects sys).1.2 = none := by
    intro f
    unfold finder.Finder.FindProjects
    cases sys.lookPath "fd" <;> rfl
  have hload : ∀ cfg : config.Config,
      (ui.runLoadProjects sys cfg).1 =
        .projectsLoaded
          ((finder.New cfg.ScanPaths cfg.ExcludePatterns).FindProjects sys).1.1 := by
    intro cfg
    simp only [ui.runLoadProjects, herr]
  refine ⟨herr _, rfl, rfl, ?_, fun cfg => ⟨hload cfg, fun err h => ?_⟩⟩
  · intro hfail
    have hnone : ∀ (tool : String → Command) (roots : List String),
        roots.flatMap (finder.rootContribution sys (fun root => sys.output (tool root))) = [] := by
      intro tool roots
      induction roots with
      | nil => rfl
      | cons root rest ih =>
        obtain ⟨err, he⟩ := hfail (tool root)
        rw [List.flatMap_cons, ih]
        simp only [finder.rootContribution, he, List.append_nil]
    unfold finder.Finder.FindProjects
    cases sys.lookPath "fd" with
    | ok fd =>
      simp only [finder.findWithFd_eq]
      rw [hnone]
    | error e =>
      simp only [finder.findWithFind_eq]
      rw [hnone]
  · rw [hload cfg] at h
    exact ui.Msg.noConfusion h

/-- Witness for C25: on the sample host without `fd`, where every search fails,
the command of `loadProjects` yields a `projectsLoadedMsg` with no project. -/
theorem FindProjects_error_nil_witness :
    (ui.runLoadProjects (Sample.host [] true false) Sample.cfg).1 = .projectsLoaded [] ∧
      ((finder.New Sample.cfg.ScanPaths Sample.cfg.ExcludePatterns).FindProjects
        (Sample.host [] true false)).1 = ([], none) :=
  ⟨rfl,
    (FindProjects_error_nil (Sample.host [] true false) Sample.cfg.ScanPaths
      Sample.cfg.ExcludePatterns).2.2.2.1 (fun _ => ⟨_, rfl⟩)⟩

/-- C26.  The index `cfg.ScanPaths[0]` of `createProjectList` is in range when
the projects come from `FindProjects` run with the same configuration.  For
every host and every model: when `ScanPaths` is empty `FindProjects` returns
the empty list, so the loop body is not run; when `ScanPaths` is not empty
`createProjectList` returns for every list of projects; so `createProjectList`
returns on the projects found, and `Update` returns on the message that the
command of `loadProjects` yields. -/
theorem createProjectList_index_in_range (sys : Sys) (W : ui.Widgets) (m : ui.Model) :
    (m.cfg.ScanPaths = [] →
      ((finder.New m.cfg.ScanPaths m.cfg.ExcludePatterns).FindProjects sys).1.1 = []) ∧
      (m.cfg.ScanPaths ≠ [] → ∀ projects, (m.createProjectList projects).isSome = true) ∧
      (m.createProjectList
        ((finder.New m.cfg.ScanPaths m.cfg.ExcludePatterns).FindProjects sys).1.1).isSome =
          true ∧
      (m.Update W (ui.runLoadProjects sys m.cfg).1).isSome = true := by
  have hempty : m.cfg.ScanPaths = [] →
      ((finder.New m.cfg.ScanPaths m.cfg.ExcludePatterns).FindProjects sys).1.1 = [] := by
    intro hs
    unfold finder.Finder.FindProjects
    cases sys.lookPath "fd" with
    | ok fd => simp [finder.findWithFd_eq, finder.New, hs]
    | error e => simp [finder.findWithFind_eq, finder.New, hs]
  have hrange : ∀ (m1 : ui.Model), m1.cfg.ScanPaths ≠ [] →
      ∀ projects, (m1.createProjectList projects).isSome = true := by
    intro m1 hs projects
    unfold ui.Model.createProjectList
    cases projects with
    | nil => rfl
    | cons p ps =>
      cases hsp : m1.cfg.ScanPaths with
      | nil => exact absurd hsp hs
      | cons home rest => rfl
  have hfound : ∀ (m1 : ui.Model), m1.cfg = m.cfg →
      (m1.createProjectList
        ((finder.New m.cfg.ScanPaths m.cfg.ExcludePatterns).FindProjects sys).1.1).isSome =
          true := by
    intro m1 hcfg
    by_cases hs : m.cfg.ScanPaths = []
    · rw [hempty hs]
      rfl
    · exact hrange m1 (by rw [hcfg]; exact hs) _
  refine ⟨hempty, hrange m, hfound m rfl, ?_⟩
  have hmsg : (ui.runLoadProjects sys m.cfg).1 =
      .projectsLoaded
        ((finder.New m.cfg.ScanPaths m.cfg.ExcludePatterns).FindProjects sys).1.1 := by
    have herr : ((finder.New m.cfg.ScanPaths m.cfg.ExcludePatterns).FindProjects sys).1.2 =
        none := by
      unfold finder.Finder.FindProjects
      cases sys.lookPath "fd" <;> rfl
    simp only [ui.runLoadProjects, herr]
  rw [hmsg]
  have h := hfound { m with projects :=
    ((finder.New m.cfg.ScanPaths m.cfg.ExcludePatterns).FindProjects sys).1.1 } rfl
  simp only [ui.Model.Update]
  cases hc : ui.Model.createProjectList { m with projects :=
    ((finder.New m.cfg.ScanPaths m.cfg.ExcludePatterns).FindProjects sys).1.1 }
    ((finder.New m.cfg.ScanPaths m.cfg.ExcludePatterns).FindProjects sys).1.1 with
  | none =>
    rw [hc] at h
    exact Bool.noConfusion h
  | some l => rfl

/-- Witness for C26: a configuration without scan paths on the sample search
host, where the tools would print projects: nothing is searched, no project is
found, and `Update` returns the project picker with an empty list. -/
theorem createProjectList_index_in_range_witness :
    ((finder.New [] Sample.cfg.ExcludePatterns).FindProjects (Sample.searchHost true)).1.1 = [] ∧
      ((ui.NewModel { Sample.cfg with ScanPaths := [] } "" "").Update Sample.widgets
        (ui.runLoadProjects (Sample.searchHost true)
          { Sample.cfg with ScanPaths := [] }).1).isSome = true :=
  ⟨(createProjectList_index_in_range (Sample.searchHost true) Sample.widgets
      (ui.NewModel { Sample.cfg with ScanPaths := [] } "" "")).1 rfl,
    (createProjectList_index_in_range (Sample.searchHost true) Sample.widgets
      (ui.NewModel { Sample.cfg with ScanPaths := [] } "" "")).2.2.2⟩

/-! ## The selection state machine in a run of the program -/

namespace ui

theorem Cmd.discoveries_of_starts_none (c : Cmd) (hp : c.startsProjectDiscovery = false)
    (hl : c.startsLayoutDiscovery = false) : c.discoveries = [] := by
  induction c with
  | quit => rfl
  | spinnerTick => rfl
  | loadProjects cfg => exact Bool.noConfusion hp
  | loadLayouts cfg => exact Bool.noConfusion hl
  | widget tag => rfl
  | batch first second ih1 ih2 =>
    simp only [Cmd.startsProjectDiscovery, Bool.or_eq_false_iff] at hp
    simp only [Cmd.startsLayoutDiscovery, Bool.or_eq_false_iff] at hl
    simp only [Cmd.discoveries, ih1 hp.1 hl.1, ih2 hp.2 hl.2, List.append_nil]

theorem discoveriesOf_of_requests_none (c : Option Cmd) (hp : requestsProjects c = false)
    (hl : requestsLayouts c = false) : discoveriesOf c = [] := by
  cases c with
  | none => rfl
  | some c => exact Cmd.discoveries_of_starts_none c hp hl

/-- The step switch keeps the budget: what it adds to the pending discoveries it
takes from the project picker. -/
theorem dispatchStep_budget (W : Widgets) (hW : W.WellBehaved) (m : Model) (msg : Msg) :
    (discoveriesOf (m.dispatchStep W msg).2).length +
        (if (m.dispatchStep W msg).1.model.step = .StepSelectProject then 1 else 0) =
      (if m.step = .StepSelectProject then 1 else 0) := by
  unfold Model.dispatchStep
  cases hstep : m.step with
  | StepLoading => simp [discoveriesOf, TeaModel.model, hstep]
  | StepDone => simp [discoveriesOf, TeaModel.model, hstep]
  | StepSelectProject =>
    simp only
    by_cases hmsg : msg = .key "enter"
    · cases hsel : m.projectList.SelectedItem with
      | none =>
        rw [updateProjectPicker_delegate W m msg (Or.inr hsel),
          discoveriesOf_of_requests_none _ (hW.list_cmd _ _).1 (hW.list_cmd _ _).2]
        simp [TeaModel.model, hstep]
      | some item =>
        subst hmsg
        rw [updateProjectPicker_enter_some W m item hsel]
        simp [TeaModel.model, discoveriesOf, Cmd.discoveries]
    · rw [updateProjectPicker_delegate W m msg (Or.inl hmsg),
        discoveriesOf_of_requests_none _ (hW.list_cmd _ _).1 (hW.list_cmd _ _).2]
      simp [TeaModel.model, hstep]
  | StepSelectLayout =>
    simp only
    by_cases hmsg : msg = .key "enter"
    · cases hsel : m.layoutList.SelectedItem with
      | none =>
        rw [updateLayoutPicker_delegate W m msg (Or.inr hsel),
          discoveriesOf_of_requests_none _ (hW.list_cmd _ _).1 (hW.list_cmd _ _).2]
        simp [TeaModel.model, hstep]
      | some item =>
        subst hmsg
        rw [updateLayoutPicker_enter_some W m item hsel]
        simp [TeaModel.model, discoveriesOf, Cmd.discoveries]
    · rw [updateLayoutPicker_delegate W m msg (Or.inl hmsg),
        discoveriesOf_of_requests_none _ (hW.list_cmd _ _).1 (hW.list_cmd _ _).2]
      simp [TeaModel.model, hstep]

/-- A call of `Update` on an input keeps the budget and the error. -/
theorem Update_input_budget (W : Widgets) (hW : W.WellBehaved) (m : Model) (msg : Msg)
    (hinput : msg.isInput = true) (res : TeaModel × Option Cmd)
    (hres : m.Update W msg = some res) :
    (discoveriesOf res.2).length +
        (if res.1.model.step = .StepSelectProject then 1 else 0) =
      (if m.step = .StepSelectProject then 1 else 0) ∧
    res.1.model.err = m.err := by
  cases msg with
  | windowSize w ht =>
    simp only [Model.Update, Option.some.injEq] at hres
    subst hres
    simp [discoveriesOf, TeaModel.model]
  | key k =>
    simp only [Model.Update] at hres
    split at hres
    · have hq := (Option.some.inj hres).symm
      subst hq
      simp [discoveriesOf, Cmd.discoveries, TeaModel.model]
    · have hq := (Option.some.inj hres).symm
      subst hq
      exact ⟨dispatchStep_budget W hW m _, dispatchStep_err W m _⟩
  | spinnerTick t =>
    simp only [Model.Update, Option.some.injEq] at hres
    subst hres
    simp only [discoveriesOf_of_requests_none _ (hW.spinner_cmd _ _).1 (hW.spinner_cmd _ _).2]
    simp [TeaModel.model]
  | projectsLoaded ps => exact Bool.noConfusion hinput
  | layoutsLoaded ls => exact Bool.noConfusion hinput
  | errMsg e => exact Bool.noConfusion hinput
  | other t =>
    simp only [Model.Update, Option.some.injEq] at hres
    subst hres
    exact ⟨dispatchStep_budget W hW m _, dispatchStep_err W m _⟩

theorem runLoadProjects_msg (sys : Sys) (cfg : config.Config) :
    (runLoadProjects sys cfg).1 =
      .projectsLoaded ((finder.New cfg.ScanPaths cfg.ExcludePatterns).FindProjects sys).1.1 := by
  have herr : ((finder.New cfg.ScanPaths cfg.ExcludePatterns).FindProjects sys).1.2 = none := by
    unfold finder.Finder.FindProjects
    cases sys.lookPath "fd" <;> rfl
  simp only [runLoadProjects, herr]

theorem runLoadLayouts_msg (sys : Sys) (cfg : config.Config) :
    (∃ layouts, (runLoadLayouts sys cfg).1 = .layoutsLoaded layouts) ∨
      ∃ err, (runLoadLayouts sys cfg).1 = .errMsg (some err) := by
  unfold runLoadLayouts
  simp only
  cases h : ((layout.NewManager cfg.LayoutsDir).ListLayouts sys).1 with
  | error err => exact Or.inr ⟨err, by simp [h]⟩
  | ok layouts => exact Or.inl ⟨layouts, by simp [h]⟩

/-- The answer of a discovery command is a discovery result or an error with an
error in it. -/
theorem Cmd.answer_cases (sys : Sys) (c : Cmd) (msg : Msg) (h : c.answer sys = some msg) :
    (∃ projects, msg = .projectsLoaded projects) ∨ (∃ layouts, msg = .layoutsLoaded layouts) ∨
      ∃ err, msg = .errMsg (some err) := by
  cases c with
  | quit => exact Option.noConfusion h
  | spinnerTick => exact Option.noConfusion h
  | widget tag => exact Option.noConfusion h
  | batch first second => exact Option.noConfusion h
  | loadProjects cfg =>
    have hm : msg = (runLoadProjects sys cfg).1 := (Option.some.inj h).symm
    rw [hm, runLoadProjects_msg]
    exact Or.inl ⟨_, rfl⟩
  | loadLayouts cfg =>
    have hm : msg = (runLoadLayouts sys cfg).1 := (Option.some.inj h).symm
    rw [hm]
    rcases runLoadLayouts_msg sys cfg with ⟨ls, hls⟩ | ⟨err, herr⟩
    · exact Or.inr (Or.inl ⟨ls, hls⟩)
    · exact Or.inr (Or.inr ⟨err, herr⟩)

theorem Program.update_eq {W : Widgets} {p q : Program} {msg : Msg} {rest : List Cmd}
    (h : p.update W msg rest = some q) :
    ∃ res, p.model.model.Update W msg = some res ∧
      q = { model := res.1, pending := rest ++ discoveriesOf res.2 } := by
  unfold Program.update at h
  cases hupd : p.model.model.Update W msg with
  | none => simp [hupd] at h
  | some res =>
    simp only [hupd, Option.some.injEq] at h
    exact ⟨res, rfl, h.symm⟩

theorem Delivers_orderly (W : Widgets) (hW : W.WellBehaved) (p q : Program) (msg : Msg)
    (hp : p.Orderly) (hd : Program.Delivers W p msg q) : q.Orderly := by
  cases hd with
  | input _ hinput hupd =>
    obtain ⟨res, hres, rfl⟩ := Program.update_eq hupd
    have hb := Update_input_budget W hW p.model.model msg hinput res hres
    have hbudget := hp.budget
    refine ⟨?_, ?_⟩
    · simp only [List.length_append]
      omega
    · intro herr
      have herr2 : p.model.model.err ≠ none := by
        rw [← hb.2]
        exact herr
      have hs := hp.settled herr2
      have hind : (if p.model.model.step = Step.StepSelectProject then 1 else 0) = 0 := by
        simp [hs.2]
      have hzero : (discoveriesOf res.2).length = 0 ∧
          (if res.1.model.step = Step.StepSelectProject then 1 else 0) = 0 := by
        have := hb.1
        omega
      refine ⟨?_, ?_⟩
      · simp only [hs.1, List.nil_append]
        exact List.eq_nil_of_length_eq_zero hzero.1
      · intro hstep
        have hone : (if res.1.model.step = Step.StepSelectProject then 1 else 0) = 1 :=
          if_pos hstep
        omega
  | answer before after c sys _ hpending hanswer hupd =>
    obtain ⟨res, hres, rfl⟩ := Program.update_eq hupd
    have hbudget := hp.budget
    rw [hpending] at hbudget
    simp only [List.length_append, List.length_cons] at hbudget
    have hbefore : before = [] := List.eq_nil_of_length_eq_zero (by omega)
    have hafter : after = [] := List.eq_nil_of_length_eq_zero (by omega)
    have hproject : p.model.model.step ≠ .StepSelectProject := by
      intro hstep
      rw [if_pos hstep] at hbudget
      omega
    have hnoerr : p.model.model.err = none := by
      by_contra herr
      have hs := (hp.settled herr).1
      rw [hpending] at hs
      exact absurd hs (by simp)
    subst hbefore hafter
    rcases Cmd.answer_cases sys c msg hanswer with ⟨ps, rfl⟩ | ⟨ls, rfl⟩ | ⟨err, rfl⟩
    · simp only [Model.Update] at hres
      split at hres
      · exact absurd hres (by simp)
      · have hq := (Option.some.inj hres).symm
        subst hq
        refine ⟨by simp [discoveriesOf, TeaModel.model], ?_⟩
        intro herr
        exact absurd hnoerr herr
    · simp only [Model.Update, Option.some.injEq] at hres
      subst hres
      refine ⟨by simp [discoveriesOf, TeaModel.model], ?_⟩
      intro herr
      exact absurd hnoerr herr
    · simp only [Model.Update, Option.some.injEq] at hres
      subst hres
      have hbudget2 : ([] : List Cmd).length +
          (if p.model.model.step = Step.StepSelectProject then 1 else 0) ≤ 1 := by
        rw [if_neg hproject]
        decide
      exact ⟨hbudget2, fun _ => ⟨rfl, hproject⟩⟩

theorem Program.start_orderly (cfg : config.Config) (preselectedPath preselectedLayout : String) :
    (Program.start (NewModel cfg preselectedPath preselectedLayout)).Orderly := by
  by_cases hp : preselectedPath = ""
  · subst hp
    have hm : NewModel cfg "" preselectedLayout =
        { cfg := cfg, step := .StepLoading, projectList := ListModel.zero,
          layoutList := ListModel.zero, spinner := { frame := 0, tag := 0 },
          textInput := { placeholder := "Search...", focused := true },
          selectedPath := "", selectedLayout := preselectedLayout,
          projects := [], layouts := [], err := none, quitting := false,
          width := 80, height := 24 } := by
      simp [NewModel]
    rw [hm]
    refine ⟨?_, fun h => absurd rfl h⟩
    simp [Program.start, Model.Init, discoveriesOf, Cmd.discoveries, Model.loadProjects,
      TeaModel.model]
  · by_cases hl : preselectedLayout = ""
    · subst hl
      have hm : NewModel cfg preselectedPath "" =
          { cfg := cfg, step := .StepLoading, projectList := ListModel.zero,
            layoutList := ListModel.zero, spinner := { frame := 0, tag := 0 },
            textInput := { placeholder := "Search...", focused := true },
            selectedPath := preselectedPath, selectedLayout := "",
            projects := [], layouts := [], err := none, quitting := false,
            width := 80, height := 24 } := by
        simp [NewModel, hp]
      rw [hm]
      refine ⟨?_, fun h => absurd rfl h⟩
      simp [Program.start, Model.Init, hp, discoveriesOf, Cmd.discoveries, Model.loadLayouts,
        TeaModel.model]
    · have hm : NewModel cfg preselectedPath preselectedLayout =
          { cfg := cfg, step := .StepDone, projectList := ListModel.zero,
            layoutList := ListModel.zero, spinner := { frame := 0, tag := 0 },
            textInput := { placeholder := "Search...", focused := true },
            selectedPath := preselectedPath, selectedLayout := preselectedLayout,
            projects := [], layouts := [], err := none, quitting := false,
            width := 80, height := 24 } := by
        simp [NewModel, hp, hl]
      rw [hm]
      refine ⟨?_, fun h => absurd rfl h⟩
      simp [Program.start, Model.Init, discoveriesOf, Cmd.discoveries, TeaModel.model]

theorem Program.Reachable_orderly (W : Widgets) (hW : W.WellBehaved) (cfg : config.Config)
    (preselectedPath preselectedLayout : String) (p : Program)
    (hp : Program.Reachable W (NewModel cfg preselectedPath preselectedLayout) p) :
    p.Orderly := by
  induction hp with
  | start => exact Program.start_orderly cfg preselectedPath preselectedLayout
  | @deliver p1 p2 msg _ hd ih => exact Delivers_orderly W hW p1 p2 msg ih hd

/-- With nothing pending, only an input can be delivered. -/
theorem Delivers_input_of_nothing_pending (W : Widgets) (p q : Program) (msg : Msg)
    (hpending : p.pending = []) (hd : Program.Delivers W p msg q) :
    msg.isInput = true ∧ ∃ res, p.model.model.Update W msg = some res ∧ q.model = res.1 := by
  cases hd with
  | input _ hinput hupd =>
    obtain ⟨res, hres, rfl⟩ := Program.update_eq hupd
    exact ⟨hinput, res, hres, rfl⟩
  | answer before after c sys _ hp _ _ =>
    rw [hpending] at hp
    exact absurd hp (by simp)

end ui

namespace Sample

/-- The run without flags up to the project picker: the project discovery is
answered on the host where `find` prints `app` and `site`. -/
theorem choosing_reachable :
    ui.Program.Reachable widgets (ui.NewModel cfg "" "") choosing :=
  ui.Program.Reachable.deliver (.projectsLoaded ["/home/user/app", "/home/user/site"])
    ui.Program.Reachable.start
    (ui.Program.Delivers.answer [] [] (.loadProjects cfg) projectsHost
      (.projectsLoaded ["/home/user/app", "/home/user/site"]) rfl rfl rfl)

/-- The run `uzzy --path /home/user/app` up to the failure of the layout
discovery, on the host where the layout directory cannot be read. -/
theorem stopped_reachable :
    ui.Program.Reachable widgets (ui.NewModel cfg "/home/user/app" "") stopped :=
  ui.Program.Reachable.deliver (.errMsg (some (.text "permission denied")))
    ui.Program.Reachable.start
    (ui.Program.Delivers.answer [] [] (.loadLayouts cfg) lockedHost
      (.errMsg (some (.text "permission denied"))) rfl rfl rfl)

end Sample

/-- C14, amended.  Forward-only from `SelectProject`, in a run of the program.
The widgets keep the items of a list, show only items the list holds or showed,
and return no discovery command; the run starts with `Init` on a model that
`NewModel` made; a key, a resize, a tick of the spinner or a message that
`Update` does not know may be delivered at any time, a discovery result or an
error only as the answer, delivered once, of a discovery command that `Init` or
`Update` returned.  Whenever the model of such a run is in step `SelectProject`:
a message that is delivered is an input, not a discovery result or an error;
when it is not a cancel key the model is afterwards in step `SelectProject` or
in step `Loading`, never directly in `SelectLayout` or `Done`; and `Update`
returns on every input, so every input can be delivered. -/
theorem SelectProject_forward_only_in_runs (W : ui.Widgets) (hW : W.WellBehaved)
    (cfg : config.Config) (preselectedPath preselectedLayout : String)
    (p q : ui.Program) (msg : ui.Msg)
    (hp : ui.Program.Reachable W (ui.NewModel cfg preselectedPath preselectedLayout) p)
    (hstep : p.model.model.step = .StepSelectProject)
    (hcancel : msg ≠ .key "ctrl+c" ∧ msg ≠ .key "esc")
    (hd : ui.Program.Delivers W p msg q) :
    msg.isInput = true ∧
      (q.model.model.step = .StepSelectProject ∨ q.model.model.step = .StepLoading) ∧
      ∀ input : ui.Msg, input.isInput = true → ∃ next, ui.Program.Delivers W p input next := by
  have horderly :=
    ui.Program.Reachable_orderly W hW cfg preselectedPath preselectedLayout p hp
  have hpending : p.pending = [] := by
    have hb := horderly.budget
    rw [if_pos hstep] at hb
    exact List.eq_nil_of_length_eq_zero (by omega)
  obtain ⟨hinput, res, hres, hq⟩ := ui.Delivers_input_of_nothing_pending W p q msg hpending hd
  have hnotlayouts : ∀ (m : ui.Msg), m.isInput = true → ∀ layouts, m ≠ .layoutsLoaded layouts := by
    intro m hm layouts h
    rw [h] at hm
    exact Bool.noConfusion hm
  refine ⟨hinput, ?_, ?_⟩
  · rw [hq]
    exact (Update_SelectProject_forward W p.model.model msg hstep hcancel
      (hnotlayouts msg hinput)).1 res hres
  · intro input hin
    cases hupd : p.model.model.Update W input with
    | some res2 =>
      exact ⟨{ model := res2.1, pending := p.pending ++ ui.discoveriesOf res2.2 },
        ui.Program.Delivers.input input hin (by simp only [ui.Program.update, hupd])⟩
    | none =>
      cases input with
      | windowSize w ht => simp [ui.Model.Update] at hupd
      | key k =>
        simp only [ui.Model.Update] at hupd
        split at hupd <;> simp at hupd
      | spinnerTick t => simp [ui.Model.Update] at hupd
      | projectsLoaded ps => exact Bool.noConfusion hin
      | layoutsLoaded ls => exact Bool.noConfusion hin
      | errMsg e => exact Bool.noConfusion hin
      | other t => simp [ui.Model.Update] at hupd

/-- Witness for C14: in the sample run the project picker is reached with
nothing pending, and `enter` moves the model to `Loading` with the layout
discovery pending. -/
theorem SelectProject_forward_only_in_runs_witness :
    Sample.choosing.model.model.step = .StepSelectProject ∧
      Sample.confirmed.model.model.step = .StepLoading ∧
      ((ui.Msg.key "enter").isInput = true ∧
        (Sample.confirmed.model.model.step = .StepSelectProject ∨
          Sample.confirmed.model.model.step = .StepLoading) ∧
        ∀ input : ui.Msg, input.isInput = true →
          ∃ next, ui.Program.Delivers Sample.widgets Sample.choosing input next) :=
  ⟨rfl, rfl,
    SelectProject_forward_only_in_runs Sample.widgets Sample.widgets_wellBehaved Sample.cfg "" ""
      Sample.choosing Sample.confirmed (.key "enter") Sample.choosing_reachable rfl
      (by decide) (ui.Program.Delivers.input (.key "enter") rfl rfl)⟩

/-- C15, amended.  First error wins, in a run of the program.  The widgets keep
the items of a list, show only items the list holds or showed, and return no
discovery command; the run starts with `Init` on a model that `NewModel` made;
a key, a resize, a tick of the spinner or a message that `Update` does not know
may be delivered at any time, a discovery result or an error only as the
answer, delivered once, of a discovery command that `Init` or `Update`
returned.  Once the model of such a run has `err` set to a non-nil error `e1`,
no discovery is pending, a message that is delivered is an input, never a later
`errMsg`, and the model that `Update` returns still has `err = e1`. -/
theorem first_error_wins_in_runs (W : ui.Widgets) (hW : W.WellBehaved)
    (cfg : config.Config) (preselectedPath preselectedLayout : String)
    (p q : ui.Program) (msg : ui.Msg) (e1 : GoError)
    (hp : ui.Program.Reachable W (ui.NewModel cfg preselectedPath preselectedLayout) p)
    (herr : p.model.model.err = some e1)
    (hd : ui.Program.Delivers W p msg q) :
    p.pending = [] ∧ msg.isInput = true ∧ q.model.model.err = some e1 := by
  have horderly :=
    ui.Program.Reachable_orderly W hW cfg preselectedPath preselectedLayout p hp
  have hpending : p.pending = [] :=
    (horderly.settled (by rw [herr]; exact Option.noConfusion)).1
  obtain ⟨hinput, res, hres, hq⟩ := ui.Delivers_input_of_nothing_pending W p q msg hpending hd
  refine ⟨hpending, hinput, ?_⟩
  have hnoterr : ∀ e, msg ≠ .errMsg e := by
    intro e h
    rw [h] at hinput
    exact Bool.noConfusion hinput
  rw [hq, (Update_err_frame W p.model.model msg hnoterr).1 res hres]
  exact herr

/-- Witness for C15: in the sample run with the path given the layout discovery
fails with `permission denied`; the error is recorded, nothing is pending, and
`enter` leaves it recorded. -/
theorem first_error_wins_in_runs_witness :
    Sample.stopped.model.model.err = some (.text "permission denied") ∧
      (Sample.stopped.pending = [] ∧ (ui.Msg.key "enter").isInput = true ∧
        Sample.stopped.model.model.err = some (.text "permission denied")) :=
  ⟨rfl,
    first_error_wins_in_runs Sample.widgets Sample.widgets_wellBehaved Sample.cfg
      "/home/user/app" "" Sample.stopped Sample.stopped (.key "enter")
      (.text "permission denied") Sample.stopped_reachable rfl
      (ui.Program.Delivers.input (.key "enter") rfl rfl)⟩

end Uzzy
